import Mathlib

/-!
# annotate_frequency: reference allele frequencies for association results

A shallow embedding of `annotate_frequency/main.cc`.

* A C++ `std::string` is a list of characters (`Str`).
* A `finter::finter_reader` is the list of lines it has not delivered yet; a
  null reader pointer is `none`.
* `unsigned` is a natural number below `2 ^ 32`; the stream extraction of an
  `unsigned` fails on overflow, as the standard library does.
* `double` is an exact rational: a decimal literal is read as the rational it
  denotes, and `1.0 - f` is exact subtraction.  The stream extraction of a
  `double` fails on a literal that rounds to infinity, as the standard library
  does; a literal that underflows is read, and the rounding of the values in
  range is outside the model.
* A thrown exception is the `error` branch of `Except`.
-/

namespace AnnotateFrequency

/-- A C++ string. -/
abbrev Str := List Char

/-! ## Characters and formatted stream extraction -/

/-- The function `toupper` of the C locale: the letters a to z move to A to Z. -/
def toupper (c : Char) : Char :=
  if 97 ≤ c.toNat ∧ c.toNat ≤ 122 then Char.ofNat (c.toNat - 32) else c

/-- The function `isspace` of the C locale: blank, tab, newline, vertical tab,
form feed, carriage return. -/
def isspace (c : Char) : Bool :=
  c.toNat = 32 || (9 ≤ c.toNat && c.toNat ≤ 13)

/-- A decimal digit. -/
def isdigit (c : Char) : Bool :=
  48 ≤ c.toNat && c.toNat ≤ 57

/-- The value of a decimal digit. -/
def digit_value (c : Char) : Nat := c.toNat - 48

/-- The number written by a run of decimal digits. -/
def digits_value (ds : Str) : Nat :=
  ds.foldl (fun acc c => 10 * acc + digit_value c) 0

/-- The source function `cicompare`, after its size test: the loop over the
characters of `s1`. -/
def cicompare_loop : Str → Str → Bool
  | [], _ => true
  | _ :: _, [] => false
  | c :: s1, d :: s2 => if toupper c ≠ toupper d then false else cicompare_loop s1 s2

/-- The source function `cicompare`: equality of two strings up to letter case. -/
def cicompare (s1 s2 : Str) : Bool :=
  if s1.length ≠ s2.length then false else cicompare_loop s1 s2

/-- Skipping of leading white space, done by every formatted extraction. -/
def skipws (s : Str) : Str := s.dropWhile isspace

/-- The extraction `strm >> str` into a `std::string`: skip white space, take
the characters up to the next white space; fails when none is left. -/
def read_string (s : Str) : Option (Str × Str) :=
  let t := (skipws s).takeWhile (fun c => !isspace c)
  if t = [] then none else some (t, (skipws s).dropWhile (fun c => !isspace c))

/-- An optional sign in front of a number: whether it is a minus, and the rest. -/
def read_sign : Str → Bool × Str
  | '-' :: s => (true, s)
  | '+' :: s => (false, s)
  | s => (false, s)

/-- The extraction `strm >> n` into an `unsigned`: skip white space, an
optional sign, then the longest run of decimal digits.  It fails without a
digit and when the number exceeds `2 ^ 32 - 1`; a minus sign negates modulo
`2 ^ 32`. -/
def read_unsigned (s : Str) : Option (Nat × Str) :=
  let (neg, s1) := read_sign (skipws s)
  let ds := s1.takeWhile isdigit
  let v := digits_value ds
  if ds = [] ∨ 2 ^ 32 ≤ v then none
  else some (if neg then (2 ^ 32 - v) % 2 ^ 32 else v, s1.dropWhile isdigit)

/-- A floating literal as scanned from the stream: sign, the digits of the
mantissa (integer and fraction digits together), the number of fraction
digits, and the exponent. -/
structure float_literal where
  neg : Bool
  mantissa : Nat
  frac_len : Nat
  exponent : Int
deriving DecidableEq, Repr

/-- The exponent part of a floating literal, tried once the mantissa has a
digit: `e` or `E`, an optional sign, digits.  The result is `none` when the
letter is taken and no digit follows (the conversion then fails), otherwise
the exponent and the rest of the stream. -/
def read_exponent : Str → Option (Int × Str)
  | [] => some (0, [])
  | c :: s =>
    if c = 'e' ∨ c = 'E' then
      let ds := (read_sign s).2.takeWhile isdigit
      if ds = [] then none
      else some (if (read_sign s).1 then -(digits_value ds : Int) else (digits_value ds : Int),
                 (read_sign s).2.dropWhile isdigit)
    else some (0, c :: s)

/-- The fraction part of a floating literal: a decimal point and the digits
after it, when the stream continues with a point. -/
def read_fraction : Str → Str × Str
  | '.' :: s => (s.takeWhile isdigit, s.dropWhile isdigit)
  | s => ([], s)

/-- The scan of a floating literal: skip white space, an optional sign,
digits, an optional point and digits, an optional exponent.  It fails when the
mantissa has no digit or the exponent letter has no digit after it. -/
def scan_double (s : Str) : Option (float_literal × Str) :=
  let s1 := (read_sign (skipws s)).2
  let ip := s1.takeWhile isdigit
  let fr := read_fraction (s1.dropWhile isdigit)
  if ip = [] ∧ fr.1 = [] then none
  else
    match read_exponent fr.2 with
    | none => none
    | some (e, s4) =>
      some (⟨(read_sign (skipws s)).1, digits_value (ip ++ fr.1), fr.1.length, e⟩, s4)

/-- The exact value of a scanned floating literal. -/
def float_literal.value (x : float_literal) : ℚ :=
  let m : ℚ := (x.mantissa : ℚ) * (10 : ℚ) ^ (x.exponent - (x.frac_len : Int))
  if x.neg then -m else m

/-- The least magnitude that rounds to infinity as a `double`: half way
between the largest finite value `2 ^ 1024 - 2 ^ 971` and `2 ^ 1024`, that is
`2 ^ 1024 - 2 ^ 970`, written as `2 ^ 54 - 1` shifted left by 970 bits. -/
def double_overflow_bound : Nat := (2 ^ 54 - 1) <<< 970

/-- Whether a scanned floating literal is out of the range of a `double`: its
magnitude `mantissa * 10 ^ (exponent - frac_len)` is at least
`double_overflow_bound`, so that `strtod` returns an infinity. -/
def float_literal.overflows (x : float_literal) : Bool :=
  if 0 ≤ x.exponent - (x.frac_len : Int) then
    decide (double_overflow_bound ≤ x.mantissa * 10 ^ (x.exponent - (x.frac_len : Int)).toNat)
  else
    decide (double_overflow_bound * 10 ^ ((x.frac_len : Int) - x.exponent).toNat ≤ x.mantissa)

/-- The extraction `strm >> x` into a `double`, read as an exact rational.
The characters of the literal are scanned first and converted afterwards: the
extraction fails when the scan fails, and when the literal is out of the range
of a `double` (the conversion then sets `failbit`). -/
def read_double (s : Str) : Option (ℚ × Str) :=
  match scan_double s with
  | none => none
  | some (x, rest) => if x.overflows then none else some (x.value, rest)

/-- The white-space separated tokens of a stream: what successive
extractions `strm >> str` deliver until one fails. -/
def tokens_aux : Str → Str → List Str
  | [], cur => if cur = [] then [] else [cur]
  | c :: s, cur =>
    if isspace c then (if cur = [] then tokens_aux s [] else cur :: tokens_aux s [])
    else tokens_aux s (cur ++ [c])

/-- The white-space separated tokens of a stream. -/
def tokens (s : Str) : List Str := tokens_aux s []

/-! ## Errors and files -/

/-- The exceptions of the program.  All but `out_of_range` and `resource` are
`std::domain_error` with the message of the throw site; `out_of_range` is the
`std::out_of_range` of `std::string::substr` and `std::vector::at`. -/
inductive Err where
  /-- Message "no header available from file". -/
  | no_header
  /-- Message "cannot parse header intro info". -/
  | header_intro
  /-- Message "unable to locate header". -/
  | header_not_found
  /-- Message "align called on null input pointer". -/
  | null_input
  /-- Message "align called on null metadata pointer". -/
  | null_metadata
  /-- Message "cannot parse frequency file ... line ...". -/
  | parse_frequency_file (line : Str)
  /-- Message "cannot parse frequency split file ... line ...". -/
  | parse_split_file (freqline : Str)
  /-- Message "cannot parse frequency from line ...". -/
  | parse_frequency (line : Str)
  /-- Message "cannot parse file ... line ...". -/
  | parse_input (line : Str)
  /-- The exception `std::out_of_range`. -/
  | out_of_range
  /-- A file that the reader library cannot open. -/
  | resource (filename : Str)
deriving DecidableEq, Repr

/-- Whether the exception is a `std::domain_error`, the kind `main` catches. -/
def Err.is_domain_error : Err → Bool
  | .out_of_range => false
  | .resource _ => false
  | _ => true

/-- The exceptions thrown for a line that does not parse. -/
def Err.is_parse_error : Err → Bool
  | .parse_frequency_file _ => true
  | .parse_split_file _ => true
  | .parse_frequency _ => true
  | .parse_input _ => true
  | _ => false

/-- The files the program can read: for each name the lines of the file, if
it exists. -/
abbrev Files := Str → Option (List Str)

/-- The call `finter::reconcile_reader(filename)`: a reader positioned before
the first line. -/
def reconcile_reader (fs : Files) (filename : Str) : Except Err (List Str) :=
  match fs filename with
  | none => .error (.resource filename)
  | some ls => .ok ls

/-! ## The class `freq_handler` -/

/-- The data members of `freq_handler`.  `cerr` is not a member: it is the
log of the warnings `align` has written to the error stream, each with the
chromosome and position of the query. -/
structure freq_handler where
  _filename : Str
  _metadata : Str
  _input : Option (List Str)
  _input_metadata : Option (List Str)
  _chr : Nat
  _pos : Nat
  _ref : Str
  _alt : List Str
  _freq : List ℚ
  _target_index : Nat
  cerr : List (Nat × Nat)
deriving DecidableEq

/-- The constructor `freq_handler(filename, metadata)`. -/
def freq_handler.new (filename metadata : Str) : freq_handler :=
  { _filename := filename, _metadata := metadata, _input := none, _input_metadata := none,
    _chr := 0, _pos := 0, _ref := [], _alt := [], _freq := [], _target_index := 0, cerr := [] }

/-- The loop `for (i = 0; i < 6; ++i) strm1 >> id` of `initialize`: skip `n`
tokens; `none` when one of them is missing. -/
def skip_tokens : Nat → Str → Option Str
  | 0, s => some s
  | n + 1, s =>
    match read_string s with
    | none => none
    | some (_, rest) => skip_tokens n rest

/-- The `while (true)` loop of `initialize` over the tokens that are left in
the header (what the successive extractions `strm1 >> id` deliver), with the
running `counter`: the value of `_target_index` afterwards, which is the one
it had before when no token equals the label. -/
def header_scan (supercontinent : Str) (target_index : Nat) : List Str → Nat → Nat
  | [], _ => target_index
  | id :: rest, counter =>
    if cicompare id supercontinent then counter + 6
    else header_scan supercontinent target_index rest (counter + 1)

/-- The method `freq_handler::initialize`. -/
def initialise (fs : Files) (h : freq_handler) (supercontinent : Str) :
    Except Err freq_handler :=
  match reconcile_reader fs h._filename with
  | .error e => .error e
  | .ok input =>
    match (if h._metadata ≠ [] then (reconcile_reader fs h._metadata).map some else .ok none) with
    | .error e => .error e
    | .ok input_metadata =>
      match input with
      | [] => .error .no_header
      | line :: input =>
        if h._metadata = [] then
          match skip_tokens 6 line with
          | none => .error .header_intro
          | some strm1 =>
            let target := header_scan supercontinent h._target_index (tokens strm1) 1
            if target = 0 then .error .header_not_found
            else .ok { h with _input := some input, _input_metadata := input_metadata,
                              _target_index := target }
        else
          .ok { h with _input := some input,
                       _input_metadata := input_metadata.map List.tail }

/-- The five fields `strm1 >> catcher >> next_chr >> next_pos >> ref >> alt`
of a reference line, and what is left of the line's stream. -/
structure ref_line where
  catcher : Str
  next_chr : Nat
  next_pos : Nat
  ref : Str
  alt : Str
  strm1 : Str
deriving DecidableEq, Repr

/-- The extraction of the five leading fields of a reference line. -/
def parse_ref_line (line : Str) : Option ref_line :=
  match read_string line with
  | none => none
  | some (catcher, s1) =>
    match read_unsigned s1 with
    | none => none
    | some (next_chr, s2) =>
      match read_unsigned s2 with
      | none => none
      | some (next_pos, s3) =>
        match read_string s3 with
        | none => none
        | some (ref, s4) =>
          match read_string s4 with
          | none => none
          | some (alt, s5) => some ⟨catcher, next_chr, next_pos, ref, alt, s5⟩

/-- The loop `for (i = 6; i < _target_index; ++i) strm1 >> freq`, run `n`
times from the current value of `freq`: the last value read. -/
def read_freq_columns : Nat → Str → ℚ → Option ℚ
  | 0, _, freq => some freq
  | n + 1, s, _ =>
    match read_double s with
    | none => none
    | some (freq, rest) => read_freq_columns n rest freq

/-- The combined-file branch of a matched line: `strm1 >> catcher`, then the
frequency columns up to `_target_index`.  When the discarded token is missing
the stream has failed, and so does the first frequency read. -/
def read_combined_freq (target_index : Nat) (strm1 : Str) : Option ℚ :=
  match read_string strm1 with
  | none => if target_index - 6 = 0 then some 0 else none
  | some (_, rest) => read_freq_columns (target_index - 6) rest 0

/-- The call `_freq.resize(1)`. -/
def resize1 : List ℚ → List ℚ
  | [] => [0]
  | f :: _ => [f]

/-- The state of the `while` loop of `align` when it is left: whether the
method returns true, the flag `dup_position_failure`, the lines left in the
scanned reader and in the frequency reader of split mode, and the handler with
its record fields. -/
structure align_exit where
  found : Bool
  dup_position_failure : Bool
  scan : List Str
  freqs : List Str
  h : freq_handler

/-- The `while` loop of `align`.  `split` says that `_input_metadata` is set;
`scan` is the reader the variant lines come from (the metadata reader in split
mode, `_input` otherwise) and `freqs` the reader `_input` of split mode. -/
def align_loop (split : Bool) (chr pos : Nat) (id : Str) :
    List Str → List Str → Nat → Nat → Bool → freq_handler → Except Err align_exit
  | [], freqs, _, _, dup, h => .ok ⟨false, dup, [], freqs, h⟩
  | line :: scan, freqs, next_chr, next_pos, dup, h =>
    if next_chr < chr ∨ (next_chr = chr ∧ next_pos ≤ pos) then
      match parse_ref_line line with
      | none => .error (.parse_frequency_file line)
      | some r =>
        if id.length < 3 then .error .out_of_range
        else if r.catcher = id.drop 3 then
          let h1 := { h with _chr := r.next_chr, _pos := r.next_pos, _ref := r.ref,
                             _alt := [r.alt], _freq := resize1 h._freq }
          if split then
            match freqs with
            | [] => .ok ⟨false, dup, scan, [], h1⟩
            | freqline :: freqs =>
              match read_double freqline with
              | none => .error (.parse_split_file freqline)
              | some (freq, _) => .ok ⟨true, dup, scan, freqs, { h1 with _freq := [freq] }⟩
          else
            match read_combined_freq h._target_index r.strm1 with
            | none => .error (.parse_frequency line)
            | some freq => .ok ⟨true, dup, scan, freqs, { h1 with _freq := [freq] }⟩
        else
          align_loop split chr pos id scan (if split then freqs.tail else freqs)
            r.next_chr r.next_pos (dup || (r.next_chr == chr && r.next_pos == pos)) h
    else .ok ⟨false, dup, line :: scan, freqs, h⟩

/-- What `align` does after its loop: the readers keep what was not read, and
the warning is written when `dup_position_failure` is set and the method
returns false. -/
def align_finish (split : Bool) (chr pos : Nat) (x : align_exit) : Bool × freq_handler :=
  let h1 : freq_handler :=
    if split then { x.h with _input_metadata := some x.scan, _input := some x.freqs }
    else { x.h with _input := some x.scan }
  (x.found,
   if !x.found && x.dup_position_failure then { h1 with cerr := h1.cerr ++ [(chr, pos)] } else h1)

/-- The method `freq_handler::align`. -/
def align (h : freq_handler) (chr pos : Nat) (id : Str) : Except Err (Bool × freq_handler) :=
  match h._input with
  | none => .error .null_input
  | some input =>
    match h._input_metadata with
    | none =>
      if h._metadata ≠ [] then .error .null_metadata
      else (align_loop false chr pos id input [] 0 0 false h).map (align_finish false chr pos)
    | some md =>
      (align_loop true chr pos id md input 0 0 false h).map (align_finish true chr pos)

/-- The `for` loop of `find` over `_alt`, with `_freq` advanced in step: the
returned flag and the value left in `*freq`. -/
def find_alt (alt_target a2 : Str) : List Str → List ℚ → Except Err (Bool × ℚ)
  | [], _ => .ok (false, -1)
  | alt :: alts, freqs =>
    if cicompare alt_target alt then
      match freqs with
      | [] => .error .out_of_range
      | f :: _ => .ok (true, if alt_target = a2 then f else 1 - f)
    else find_alt alt_target a2 alts freqs.tail

/-- The part of `find` after a successful `align`: the choice of
`alt_target` and the search of `_alt`. -/
def find_resolve (h : freq_handler) (a1 a2 : Str) : Except Err (Bool × ℚ) :=
  if cicompare a1 h._ref then find_alt a2 a2 h._alt h._freq
  else if cicompare a2 h._ref then find_alt a1 a2 h._alt h._freq
  else .ok (false, -1)

/-- The method `freq_handler::find`: the returned flag, the value left in
`*freq` (`-1` without a match) and the handler afterwards. -/
def find (h : freq_handler) (chr pos : Nat) (id a1 a2 : Str) :
    Except Err ((Bool × ℚ) × freq_handler) :=
  match align h chr pos id with
  | .error e => .error e
  | .ok (false, h1) => .ok ((false, -1), h1)
  | .ok (true, h1) => (find_resolve h1 a1 a2).map (fun r => (r, h1))

/-! ## The driver `process_file` -/

/-- The ten fields `strm1 >> chr >> pos >> id >> a1 >> a2 >> catcher >> beta
>> se >> p >> n` of an input row, and what is left of the row's stream. -/
structure input_row where
  chr : Nat
  pos : Nat
  id : Str
  a1 : Str
  a2 : Str
  catcher : Str
  beta : Str
  se : Str
  p : Str
  n : Str
  strm1 : Str
deriving DecidableEq, Repr

/-- The extraction of the ten leading fields of an input row. -/
def parse_input_row (line : Str) : Option input_row :=
  match read_unsigned line with
  | none => none
  | some (chr, s1) =>
  match read_unsigned s1 with
  | none => none
  | some (pos, s2) =>
  match read_string s2 with
  | none => none
  | some (id, s3) =>
  match read_string s3 with
  | none => none
  | some (a1, s4) =>
  match read_string s4 with
  | none => none
  | some (a2, s5) =>
  match read_string s5 with
  | none => none
  | some (catcher, s6) =>
  match read_string s6 with
  | none => none
  | some (beta, s7) =>
  match read_string s7 with
  | none => none
  | some (se, s8) =>
  match read_string s8 with
  | none => none
  | some (p, s9) =>
  match read_string s9 with
  | none => none
  | some (n, s10) => some ⟨chr, pos, id, a1, a2, catcher, beta, se, p, n, s10⟩

/-- The insertion `o << n` of an `unsigned`: its decimal digits. -/
def write_unsigned (n : Nat) : Str := Nat.toDigits 10 n

/-- The tokens of a row joined by tabs, as the insertions `o << x << '\t' << y`
write them. -/
def tab_join : List Str → Str
  | [] => []
  | [x] => x
  | x :: y :: rest => x ++ '\t' :: tab_join (y :: rest)

/-- The line written for a matched row.  `fmt` is the insertion
`o << updated_freq` of a `double`, which the model leaves open. -/
def format_row (fmt : ℚ → Str) (r : input_row) (updated_freq : ℚ) : Str :=
  tab_join ([write_unsigned r.chr, write_unsigned r.pos, r.id, r.a1, r.a2, fmt updated_freq,
             r.beta, r.se, r.p, r.n] ++ tokens r.strm1)

/-- What a run has written to the output file, and the exception that ended
it, if any. -/
structure run_result where
  output : List Str
  error : Option Err
deriving DecidableEq

/-- The lookup the driver makes for a parsed row: `freq.find(chr, pos, id, a2,
a1, &updated_freq)`, with the two alleles of the row exchanged. -/
def driver_find (freq : freq_handler) (r : input_row) :
    Except Err ((Bool × ℚ) × freq_handler) :=
  find freq r.chr r.pos r.id r.a2 r.a1

/-- The loop `while (input->getline(&line))` of `process_file` over the data
rows of the input. -/
def process_rows (fmt : ℚ → Str) : List Str → freq_handler → run_result
  | [], _ => ⟨[], none⟩
  | line :: input, freq =>
    match parse_input_row line with
    | none => ⟨[], some (.parse_input line)⟩
    | some r =>
      match driver_find freq r with
      | .error e => ⟨[], some e⟩
      | .ok ((true, updated_freq), freq1) =>
        let rest := process_rows fmt input freq1
        ⟨format_row fmt r updated_freq :: rest.output, rest.error⟩
      | .ok ((false, _), freq1) =>
        let rest := process_rows fmt input freq1
        ⟨line :: rest.output, rest.error⟩

/-- The function `process_file`.  The handler is initialised before the input
is opened; the first input line is written back as it is (an empty line when
the input has none); the progress report on the standard output is left out. -/
def process_file (fs : Files) (fmt : ℚ → Str)
    (input_filename freq_filename freq_metadata supercontinent : Str) : run_result :=
  match initialise fs (freq_handler.new freq_filename freq_metadata) supercontinent with
  | .error e => ⟨[], some e⟩
  | .ok freq =>
    match reconcile_reader fs input_filename with
    | .error e => ⟨[], some e⟩
    | .ok input =>
      let rest := process_rows fmt input.tail freq
      ⟨input.headD [] :: rest.output, rest.error⟩

/-! ## Vocabulary of the statements -/

/-- Two strings that differ at most in the case of their letters. -/
def same_up_to_case (s t : Str) : Prop := s.map toupper = t.map toupper

instance (s t : Str) : Decidable (same_up_to_case s t) := by
  unfold same_up_to_case; infer_instance

/-- The order of genomic coordinates: chromosome first, then position. -/
def coord_le (a b : Nat × Nat) : Prop := a.1 < b.1 ∨ (a.1 = b.1 ∧ a.2 ≤ b.2)

instance (a b : Nat × Nat) : Decidable (coord_le a b) := by
  unfold coord_le; infer_instance

/-- The reader the variant lines come from: the metadata reader when there is
one, the frequency file otherwise. -/
def unread (h : freq_handler) : List Str :=
  match h._input_metadata with
  | some md => md
  | none => h._input.getD []

/-- The frequency the reference gives an allele `x`, for a record with
reference allele `R`, alternate `A` and alternate frequency `f`. -/
def allele_frequency (R A : Str) (f : ℚ) (x : Str) : Option ℚ :=
  if cicompare x A then some f else if cicompare x R then some (1 - f) else none

/-- The coordinate of a reference line (`(0, 0)` for a line that does not parse). -/
def line_coord (line : Str) : Nat × Nat :=
  match parse_ref_line line with
  | some r => (r.next_chr, r.next_pos)
  | none => (0, 0)

/-- The identifier of a reference line, if the line parses. -/
def line_id (line : Str) : Option Str := (parse_ref_line line).map ref_line.catcher

/-- The null-pointer tests at the head of `align` pass. -/
def ready (h : freq_handler) : Prop :=
  h._input ≠ none ∧ (h._input_metadata = none → h._metadata = [])

/-- The frequency reader of split mode (empty in combined mode, where the
frequencies are on the variant lines). -/
def freq_lines (h : freq_handler) : List Str :=
  match h._input_metadata with
  | some _ => h._input.getD []
  | none => []

/-- The frequency the reference supplies for the unread variant line number
`n` (counted from 0) with fields `r`: in combined mode the target column of
the line itself, in split mode the number at the start of line `n` of the
frequency reader. -/
def supplied_freq (h : freq_handler) (n : Nat) (r : ref_line) : Option ℚ :=
  match h._input_metadata with
  | none => read_combined_freq h._target_index r.strm1
  | some _ =>
    match (freq_lines h)[n]? with
    | none => none
    | some freqline => (read_double freqline).map Prod.fst

/-- A well-formed unread reference: every unread variant line parses into its
five fields and the reference supplies a frequency for it, so that every
number `align` would extract for the line is a floating literal in the range
of a `double`. -/
def well_formed (h : freq_handler) : Prop :=
  ∀ (n : Nat) (l : Str), (unread h)[n]? = some l →
    ∃ r, parse_ref_line l = some r ∧ (supplied_freq h n r).isSome = true

/-- A reference stream that is non-decreasing in (chromosome, position). -/
def sorted_stream (lines : List Str) : Prop :=
  lines.Pairwise (fun l1 l2 => coord_le (line_coord l1) (line_coord l2))

instance (lines : List Str) : Decidable (sorted_stream lines) := by
  unfold sorted_stream; infer_instance

/-! ## Combined and split references of the same data -/

/-- A token that an `unsigned` extraction reads in full: decimal digits, at
least one, with a value below `2 ^ 32`. -/
def is_unsigned_token (t : Str) : Prop :=
  t ≠ [] ∧ (∀ c ∈ t, isdigit c = true) ∧ digits_value t < 2 ^ 32

/-- The rest of a stream after a token: empty, or white space first. -/
def ends_token (rest : Str) : Prop := ∀ c r, rest = c :: r → isspace c = true

/-- A token that a `double` extraction reads in full: a floating literal, with
or without a sign, in the range of a `double`. -/
def is_number_token (t : Str) : Prop :=
  ∃ x, scan_double t = some (x, []) ∧ x.overflows = false

/-- The number a token denotes (`0` for a token that is no number). -/
def token_value (t : Str) : ℚ :=
  match scan_double t with
  | some (x, _) => x.value
  | none => 0

/-- A combined data row `id chr pos ref alt x v7 v8 ...` with numbers in its
columns 7 to `k`, the metadata row made of its first five columns, and the
frequency row made of its column `k`. -/
def same_data (k : Nat) (row md fr : Str) : Prop :=
  ∃ (id c p ref alt x vk : Str) (vs : List Str),
    tokens row = id :: c :: p :: ref :: alt :: x :: vs ∧
    tokens md = [id, c, p, ref, alt] ∧
    is_unsigned_token c ∧ is_unsigned_token p ∧
    (∀ v ∈ vs.take (k - 6), is_number_token v) ∧
    vs[k - 7]? = some vk ∧ tokens fr = [vk]

/-- The handler `h` with the record of a matched line stored in it. -/
def with_record (h : freq_handler) (chr pos : Nat) (ref alt : Str) (f : ℚ) : freq_handler :=
  { h with _chr := chr, _pos := pos, _ref := ref, _alt := [alt], _freq := [f] }

instance (t : Str) : Decidable (is_unsigned_token t) := by
  unfold is_unsigned_token; infer_instance

/-- A query passed to `find`. -/
structure query where
  chr : Nat
  pos : Nat
  id : Str
  a1 : Str
  a2 : Str

/-- A sequence of `find` calls on one handler: the flag and frequency of each
call that returned, and the exception that ended the sequence, if any. -/
def find_all : freq_handler → List query → List (Bool × ℚ) × Option Err
  | _, [] => ([], none)
  | h, q :: qs =>
    match find h q.chr q.pos q.id q.a1 q.a2 with
    | .error e => ([], some e)
    | .ok (res, h1) => (res :: (find_all h1 qs).1, (find_all h1 qs).2)

/-- A combined-mode handler and a split-mode handler at the same place of the
same data: the unread lines are the three columns of `data`, and the records
last matched agree. -/
def in_step (k : Nat) (data : List (Str × Str × Str)) (hc hs : freq_handler) : Prop :=
  hc._input = some (data.map (fun t => t.1)) ∧ hc._input_metadata = none ∧
  hc._metadata = [] ∧ hc._target_index = k ∧
  hs._input = some (data.map (fun t => t.2.2)) ∧
  hs._input_metadata = some (data.map (fun t => t.2.1)) ∧
  hc._chr = hs._chr ∧ hc._pos = hs._pos ∧ hc._ref = hs._ref ∧ hc._alt = hs._alt ∧
  hc._freq = hs._freq ∧ hc.cerr = hs.cerr

/-! ## Example data -/

/-- A handler in combined mode over the given data lines, as `initialise`
leaves it when the target population is the seventh column of the header. -/
def combined_handler (lines : List Str) : freq_handler :=
  { _filename := "freq".toList, _metadata := [], _input := some lines, _input_metadata := none,
    _chr := 0, _pos := 0, _ref := [], _alt := [], _freq := [], _target_index := 7, cerr := [] }

/-- A handler in split mode over the given metadata and frequency lines, as
`initialise` leaves it. -/
def split_handler (md freqs : List Str) : freq_handler :=
  { _filename := "freq".toList, _metadata := "meta".toList, _input := some freqs,
    _input_metadata := some md,
    _chr := 0, _pos := 0, _ref := [], _alt := [], _freq := [], _target_index := 0, cerr := [] }

/-- The handler `h` after `align` has matched a record and left `input` unread. -/
def matched (h : freq_handler) (input : List Str) (chr pos : Nat) (ref alt : Str) (f : ℚ) :
    freq_handler :=
  { h with _input := some input, _chr := chr, _pos := pos, _ref := ref, _alt := [alt],
           _freq := [f] }

/-- The reference data row of the worked example of the specification. -/
def row_rs1 : Str := "rs1 1 1000 A G 0.10 0.20".toList

/-- The row `row_rs1` with its alleles in lower case. -/
def row_rs1_lower : Str := "rs1 1 1000 a g 0.10 0.20".toList

/-- A query identifier: three characters of prefix, then the catalog identifier. -/
def id_rs1 : Str := "xx:rs1".toList

/-- A second alternate allele of the variant of `row_rs1`, on a line of its
own with the same identifier. -/
def row_rs1_T : Str := "rs1 1 1000 A T 0.30 0.40".toList

/-- A reference row before `row_rs1`. -/
def row_rs0 : Str := "rs0 1 900 C T 0.50 0.60".toList

/-- A reference row after `row_rs1`. -/
def row_rs2 : Str := "rs2 1 2000 A G 0.10 0.20".toList

/-- The query identifier of `row_rs2`. -/
def id_rs2 : Str := "xx:rs2".toList

/-- A query identifier that no reference row carries. -/
def id_rs9 : Str := "xx:rs9".toList

/-- The header of the combined file of the worked example: six leading
columns, then the population columns `EUR AFR`. -/
def header_eur_afr : Str := "id chr pos ref alt x EUR AFR".toList

/-- The files of the worked example: the combined frequency file `freq`. -/
def example_files : Files := fun name =>
  if name = "freq".toList then some [header_eur_afr, row_rs1] else none

/-- The reference row of the worked example with a sixth column between the
alternate allele and the frequency columns, as the file format has it. -/
def row_rs1_x : Str := "rs1 1 1000 A G x 0.10 0.20".toList

/-- The files of the worked example, the data row with its sixth column. -/
def example_files_x : Files := fun name =>
  if name = "freq".toList then some [header_eur_afr, row_rs1_x] else none

/-- An input row for the variant of the worked example: allele1 is `A`,
allele2 is `G`. -/
def input_rs1 : Str := "1 1000 xx:rs1 A G 0.5 0.1 0.01 0.001 100 extra".toList

/-- The metadata row of `row_rs1_x`: its first five columns. -/
def md_rs1 : Str := "rs1 1 1000 A G".toList

/-- The frequency row of `row_rs1_x` for the population `EUR`: its column 7. -/
def fr_rs1 : Str := "0.10".toList

/-- The worked example as a combined file `freq` and as a split pair: the
metadata file `meta` and the frequency file `vals`, each with a header line. -/
def example_files_both : Files := fun name =>
  if name = "freq".toList then some [header_eur_afr, row_rs1_x]
  else if name = "meta".toList then some ["id chr pos ref alt".toList, md_rs1]
  else if name = "vals".toList then some ["EUR".toList, fr_rs1]
  else none

/-! ## Vocabulary of the scan, of the driver and of `main` -/

/-- The exit status of `main` for a run of `process_file`: `0` when the run
ends without exception, `1` when a `std::domain_error` is caught; `none` when
the exception is of another kind, which `main` does not catch. -/
def main_exit_code (r : run_result) : Option Nat :=
  match r.error with
  | none => some 0
  | some e => if e.is_domain_error then some 1 else none

/-- The index of the first line whose coordinate is strictly greater than
`(chr, pos)`; the length of the list when there is none. -/
def first_passing (chr pos : Nat) : List Str → Nat
  | [] => 0
  | l :: ls => if coord_le (line_coord l) (chr, pos) then first_passing chr pos ls + 1 else 0

/-- The index of the first line whose identifier equals `key`, if any. -/
def first_identified (key : Str) : List Str → Option Nat
  | [] => none
  | l :: ls => if line_id l = some key then some 0 else (first_identified key ls).map (· + 1)

/-- A canonical unsigned decimal: what `o << n` writes for an `unsigned`, that
is digits without a leading zero (the single digit `0` apart) with a value
below `2 ^ 32`. -/
def is_canonical_unsigned (t : Str) : Prop :=
  is_unsigned_token t ∧ (t = ['0'] ∨ t.head? ≠ some '0')

instance (t : Str) : Decidable (is_canonical_unsigned t) := by
  unfold is_canonical_unsigned; infer_instance

/-- The number of lines a reader has delivered of a file, given what is left. -/
def lines_consumed (file left : List Str) : Nat := file.length - left.length

/-- A split-mode handler whose two readers have delivered the same number of
lines, `n`, of the metadata file `md` and of the frequency file `freqs`. -/
def in_lockstep (md freqs : List Str) (h : freq_handler) : Prop :=
  ∃ n, n ≤ md.length ∧ h._input_metadata = some (md.drop n) ∧ h._input = some (freqs.drop n)

/-- The row `row_rs1` with its identifier in upper case. -/
def row_RS1 : Str := "RS1 1 1000 A G 0.10 0.20".toList

/-- A reference row at `(1, 100)`. -/
def row_100 : Str := "rsA 1 100 A G 0.10 0.20".toList

/-- A reference row at `(1, 200)`. -/
def row_200 : Str := "rsB 1 200 A G 0.10 0.20".toList

/-- The query identifier of `row_200`. -/
def id_rsB : Str := "xx:rsB".toList

/-- An input file: a header line and the row `input_rs1`. -/
def example_input : List Str := ["CHR POS ID A1 A2 FRQ BETA SE P N".toList, input_rs1]

/-- The files of a run on the worked example: the combined frequency file
`freq` and the input file `in`. -/
def example_run_files : Files := fun name =>
  if name = "freq".toList then some [header_eur_afr, row_rs1]
  else if name = "in".toList then some example_input
  else none

/-- The scan of `align` for the identifier `key` at `(chr, pos)` goes through
the lines `pre` and on to the next one: each of them parses, carries another
identifier and has a coordinate not greater than the target. -/
def scan_passes (chr pos : Nat) (key : Str) (pre : List Str) : Prop :=
  ∀ l ∈ pre, ∃ r, parse_ref_line l = some r ∧ r.catcher ≠ key ∧
    coord_le (r.next_chr, r.next_pos) (chr, pos)

/-- The unread reference line number `n` makes `align` throw when it is read
for the identifier `key`: its five fields cannot be extracted, or it carries
the identifier and cannot supply the frequency, because in combined mode the
sixth field and the numbers up to the target column cannot be extracted from
the rest of the line, and in split mode the paired frequency line is there
and no number can be extracted from its start.  A number is extracted from a
floating literal in the range of a `double`. -/
def line_fails (h : freq_handler) (key : Str) (n : Nat) (line : Str) : Prop :=
  parse_ref_line line = none ∨
  ∃ r, parse_ref_line line = some r ∧ r.catcher = key ∧
    match h._input_metadata with
    | none => read_combined_freq h._target_index r.strm1 = none
    | some _ => ∃ fl, (freq_lines h)[n]? = some fl ∧ read_double fl = none

/-- A reference line of four tokens whose position token goes on after its
digits. -/
def row_glued : Str := "rs1 1 1000A G".toList

/-- An input row of nine tokens whose position token goes on after its
digits, with the identifier. -/
def input_glued : Str := "1 1000xx:rs1 A G x b s p n".toList

/-- A reference line without alleles. -/
def row_short : Str := "rs1 1 1000".toList

/-- A reference row of seven tokens whose seventh token holds two numbers,
`0.1` and `.2`. -/
def row_two_points : Str := "rs1 1 1000 A G x 0.1.2".toList

/-- A split pair whose metadata file `meta` is empty, without even a header
line; the frequency file `vals` has a header line and one value. -/
def example_files_empty_meta : Files := fun name =>
  if name = "meta".toList then some []
  else if name = "vals".toList then some ["EUR".toList, fr_rs1]
  else none

/-- An input row of three tokens. -/
def input_short : Str := "1 1000 rs1".toList

/-- The files of a run whose input file holds a header line, the row
`input_rs1` and the short row `input_short`. -/
def example_short_files : Files := fun name =>
  if name = "freq".toList then some [header_eur_afr, row_rs2]
  else if name = "in".toList then
    some ["CHR POS ID A1 A2 FRQ BETA SE P N".toList, input_rs1, input_short]
  else none

/-- The reference handler after the driver's loop has gone through `rows`
without an exception; `none` when a row ends the run. -/
def rows_end : List Str → freq_handler → Option freq_handler
  | [], freq => some freq
  | line :: rows, freq =>
    match parse_input_row line with
    | none => none
    | some r =>
      match driver_find freq r with
      | .error _ => none
      | .ok (_, freq1) => rows_end rows freq1

/-- A combined-file row that has no number in its seventh column. -/
def row_na : Str := "rs1 1 1000 A G x NA 0.20".toList

/-- The frequency row of a split pair made of the eighth column of `row_na`. -/
def fr_0_20 : Str := "0.20".toList

/-- The files of a reference given twice, as the combined file `freq` with the
row `row_na` and as the split pair `meta`, `vals` made of its first five
columns and of its eighth column, the column of `AFR`. -/
def example_files_na : Files := fun name =>
  if name = "freq".toList then some [header_eur_afr, row_na]
  else if name = "meta".toList then some ["id chr pos ref alt".toList, md_rs1]
  else if name = "vals".toList then some ["AFR".toList, fr_0_20]
  else none

/-- A combined-file row whose seventh column is a literal out of the range of
a `double`. -/
def row_overflow : Str := "rs1 1 1000 A G x 1e999 0.2".toList

/-! ## Comparison up to case -/

theorem cicompare_loop_iff (s t : Str) (hlen : s.length = t.length) :
    cicompare_loop s t = true ↔ s.map toupper = t.map toupper := by
  induction s generalizing t with
  | nil =>
    cases t with
    | nil => simp [cicompare_loop]
    | cons d t => simp at hlen
  | cons c s ih =>
    cases t with
    | nil => simp at hlen
    | cons d t =>
      simp only [List.length_cons, Nat.add_right_cancel_iff] at hlen
      by_cases hcd : toupper c = toupper d
      · simp [cicompare_loop, hcd, ih t hlen]
      · simp [cicompare_loop, hcd]

theorem cicompare_iff (s t : Str) : cicompare s t = true ↔ same_up_to_case s t := by
  unfold cicompare same_up_to_case
  by_cases hlen : s.length = t.length
  · simp [hlen, cicompare_loop_iff s t hlen]
  · simp only [ne_eq, hlen, not_false_eq_true, ↓reduceIte, Bool.false_eq_true, false_iff]
    intro h
    apply hlen
    have := congrArg List.length h
    simpa using this

theorem cicompare_refl (s : Str) : cicompare s s = true :=
  (cicompare_iff s s).2 rfl

theorem cicompare_symm {s t : Str} (h : cicompare s t = true) : cicompare t s = true :=
  (cicompare_iff t s).2 ((cicompare_iff s t).1 h).symm

theorem cicompare_trans {s t u : Str} (h1 : cicompare s t = true) (h2 : cicompare t u = true) :
    cicompare s u = true :=
  (cicompare_iff s u).2 (((cicompare_iff s t).1 h1).trans ((cicompare_iff t u).1 h2))

theorem cicompare_congr {s s' t t' : Str} (hs : same_up_to_case s s') (ht : same_up_to_case t t') :
    cicompare s t = cicompare s' t' := by
  have h : cicompare s t = true ↔ cicompare s' t' = true := by
    rw [cicompare_iff, cicompare_iff]
    unfold same_up_to_case at *
    rw [hs, ht]
  cases h1 : cicompare s t <;> cases h2 : cicompare s' t' <;> simp_all

/-! ## The scanning loop of `align` -/

theorem align_eq (h : freq_handler) (chr pos : Nat) (id : Str) (hr : ready h) :
    align h chr pos id =
      (align_loop h._input_metadata.isSome chr pos id (unread h) (freq_lines h) 0 0 false h).map
        (align_finish h._input_metadata.isSome chr pos) := by
  obtain ⟨h1, h2⟩ := hr
  unfold align unread freq_lines
  cases hi : h._input with
  | none => exact absurd hi h1
  | some input =>
    cases hm : h._input_metadata with
    | none => simp [h2 hm]
    | some md => simp

theorem align_loop_stop (split : Bool) (chr pos : Nat) (id : Str) (scan freqs : List Str)
    (nc np : Nat) (dup : Bool) (h : freq_handler) (hgt : ¬ coord_le (nc, np) (chr, pos)) :
    align_loop split chr pos id scan freqs nc np dup h = .ok ⟨false, dup, scan, freqs, h⟩ := by
  cases scan with
  | nil => simp [align_loop]
  | cons line scan =>
    unfold coord_le at hgt
    simp only [align_loop]
    rw [if_neg hgt]

theorem align_loop_miss (split : Bool) (chr pos : Nat) (id : Str) (line : Str) (scan freqs : List Str)
    (nc np : Nat) (dup : Bool) (h : freq_handler) (r : ref_line)
    (hle : coord_le (nc, np) (chr, pos)) (hid : 3 ≤ id.length)
    (hp : parse_ref_line line = some r) (hne : r.catcher ≠ id.drop 3) :
    align_loop split chr pos id (line :: scan) freqs nc np dup h =
      align_loop split chr pos id scan (if split then freqs.tail else freqs)
        r.next_chr r.next_pos (dup || (r.next_chr == chr && r.next_pos == pos)) h := by
  unfold coord_le at hle
  conv_lhs => unfold align_loop
  rw [if_pos hle]
  simp only [hp]
  rw [if_neg (by omega), if_neg hne]

theorem align_loop_skip (split : Bool) (chr pos : Nat) (id : Str) (hid : 3 ≤ id.length)
    (pre rest : List Str) :
    ∀ (freqs : List Str) (nc np : Nat) (dup : Bool) (h : freq_handler),
      coord_le (nc, np) (chr, pos) →
      (∀ l ∈ pre, ∃ r, parse_ref_line l = some r ∧ r.catcher ≠ id.drop 3 ∧
        coord_le (r.next_chr, r.next_pos) (chr, pos)) →
      ∃ nc1 np1, coord_le (nc1, np1) (chr, pos) ∧
        align_loop split chr pos id (pre ++ rest) freqs nc np dup h =
          align_loop split chr pos id rest (if split then freqs.drop pre.length else freqs)
            nc1 np1 (dup || pre.any (fun l => decide (line_coord l = (chr, pos)))) h := by
  induction pre with
  | nil =>
    intro freqs nc np dup h hle _
    exact ⟨nc, np, hle, by simp⟩
  | cons l pre ih =>
    intro freqs nc np dup h hle hpre
    obtain ⟨r, hp, hne, hrle⟩ := hpre l (List.mem_cons_self _ _)
    obtain ⟨nc1, np1, hle1, heq⟩ := ih (if split then freqs.tail else freqs) r.next_chr r.next_pos
      (dup || (r.next_chr == chr && r.next_pos == pos)) h hrle
      (fun l' hl' => hpre l' (List.mem_cons_of_mem _ hl'))
    refine ⟨nc1, np1, hle1, ?_⟩
    rw [List.cons_append, align_loop_miss split chr pos id l (pre ++ rest) freqs nc np dup h r hle hid hp hne,
      heq]
    have hdup : (dup || (r.next_chr == chr && r.next_pos == pos) ||
        pre.any (fun l => decide (line_coord l = (chr, pos)))) =
        (dup || (l :: pre).any (fun l => decide (line_coord l = (chr, pos)))) := by
      have : decide (line_coord l = (chr, pos)) = (r.next_chr == chr && r.next_pos == pos) := by
        by_cases h1 : r.next_chr = chr <;> by_cases h2 : r.next_pos = pos <;>
          simp [line_coord, hp, h1, h2]
      simp [List.any_cons, this, Bool.or_assoc]
    rw [hdup]
    cases split <;> simp

theorem align_loop_hit_combined (chr pos : Nat) (id : Str) (line : Str) (scan freqs : List Str)
    (nc np : Nat) (dup : Bool) (h : freq_handler) (r : ref_line) (f : ℚ)
    (hle : coord_le (nc, np) (chr, pos)) (hid : 3 ≤ id.length)
    (hp : parse_ref_line line = some r) (heq : r.catcher = id.drop 3)
    (hf : read_combined_freq h._target_index r.strm1 = some f) :
    align_loop false chr pos id (line :: scan) freqs nc np dup h =
      .ok ⟨true, dup, scan, freqs,
        { h with _chr := r.next_chr, _pos := r.next_pos, _ref := r.ref, _alt := [r.alt],
                 _freq := [f] }⟩ := by
  unfold coord_le at hle
  conv_lhs => unfold align_loop
  rw [if_pos hle]
  simp only [hp]
  rw [if_neg (by omega), if_pos heq]
  simp [hf]

theorem align_loop_hit_split (chr pos : Nat) (id : Str) (line freqline : Str)
    (scan freqs : List Str)
    (nc np : Nat) (dup : Bool) (h : freq_handler) (r : ref_line) (f : ℚ) (rest : Str)
    (hle : coord_le (nc, np) (chr, pos)) (hid : 3 ≤ id.length)
    (hp : parse_ref_line line = some r) (heq : r.catcher = id.drop 3)
    (hf : read_double freqline = some (f, rest)) :
    align_loop true chr pos id (line :: scan) (freqline :: freqs) nc np dup h =
      .ok ⟨true, dup, scan, freqs,
        { h with _chr := r.next_chr, _pos := r.next_pos, _ref := r.ref, _alt := [r.alt],
                 _freq := [f] }⟩ := by
  unfold coord_le at hle
  conv_lhs => unfold align_loop
  rw [if_pos hle]
  simp only [hp]
  rw [if_neg (by omega), if_pos heq]
  simp [hf]

theorem align_loop_found_inv (split : Bool) (chr pos : Nat) (id : Str) :
    ∀ (scan freqs : List Str) (nc np : Nat) (dup : Bool) (h : freq_handler) (x : align_exit),
      align_loop split chr pos id scan freqs nc np dup h = .ok x → x.found = true →
      coord_le (nc, np) (chr, pos) ∧ 3 ≤ id.length ∧
      ∃ pre line r f, scan = pre ++ line :: x.scan ∧ parse_ref_line line = some r ∧
        r.catcher = id.drop 3 ∧
        x.h = { h with _chr := r.next_chr, _pos := r.next_pos, _ref := r.ref, _alt := [r.alt],
                       _freq := [f] } ∧
        (∀ l ∈ pre, ∃ r1, parse_ref_line l = some r1 ∧ r1.catcher ≠ id.drop 3 ∧
          coord_le (r1.next_chr, r1.next_pos) (chr, pos)) := by
  intro scan
  induction scan with
  | nil =>
    intro freqs nc np dup h x hx hfound
    simp only [align_loop, Except.ok.injEq] at hx
    subst hx
    simp at hfound
  | cons line scan ih =>
    intro freqs nc np dup h x hx hfound
    unfold align_loop at hx
    by_cases hle : nc < chr ∨ (nc = chr ∧ np ≤ pos)
    · rw [if_pos hle] at hx
      cases hp : parse_ref_line line with
      | none => simp [hp] at hx
      | some r =>
        simp only [hp] at hx
        by_cases hid : id.length < 3
        · rw [if_pos hid] at hx; simp at hx
        · rw [if_neg hid] at hx
          by_cases heq : r.catcher = id.drop 3
          · rw [if_pos heq] at hx
            refine ⟨hle, by omega, ?_⟩
            cases split with
            | true =>
              cases freqs with
              | nil =>
                simp only [↓reduceIte, Except.ok.injEq] at hx
                subst hx
                simp at hfound
              | cons freqline freqs =>
                cases hd : read_double freqline with
                | none => simp [hd] at hx
                | some res =>
                  simp only [↓reduceIte, hd, Except.ok.injEq] at hx
                  subst hx
                  exact ⟨[], line, r, res.1, by simp, hp, heq, rfl, by simp⟩
            | false =>
              cases hc : read_combined_freq h._target_index r.strm1 with
              | none => simp [hc] at hx
              | some f =>
                simp only [Bool.false_eq_true, ↓reduceIte, hc, Except.ok.injEq] at hx
                subst hx
                exact ⟨[], line, r, f, by simp, hp, heq, rfl, by simp⟩
          · rw [if_neg heq] at hx
            obtain ⟨hle1, hid1, pre, line1, r1, f, hscan, hp1, heq1, hh, hpre⟩ :=
              ih _ _ _ _ _ x hx hfound
            refine ⟨hle, hid1, line :: pre, line1, r1, f, by simp [hscan], hp1, heq1, hh, ?_⟩
            intro l hl
            rcases List.mem_cons.1 hl with rfl | hl
            · exact ⟨r, hp, heq, hle1⟩
            · exact hpre l hl
    · rw [if_neg hle] at hx
      simp only [Except.ok.injEq] at hx
      subst hx
      simp at hfound

theorem align_found_inv (h h1 : freq_handler) (chr pos : Nat) (id : Str)
    (hal : align h chr pos id = .ok (true, h1)) :
    ready h ∧ 3 ≤ id.length ∧
    ∃ pre line r f, unread h = pre ++ line :: unread h1 ∧ parse_ref_line line = some r ∧
      r.catcher = id.drop 3 ∧
      h1._chr = r.next_chr ∧ h1._pos = r.next_pos ∧ h1._ref = r.ref ∧ h1._alt = [r.alt] ∧
      h1._freq = [f] ∧ h1._target_index = h._target_index ∧ h1.cerr = h.cerr ∧
      h1._input_metadata.isSome = h._input_metadata.isSome ∧
      (∀ l ∈ pre, ∃ r1, parse_ref_line l = some r1 ∧ r1.catcher ≠ id.drop 3 ∧
        coord_le (r1.next_chr, r1.next_pos) (chr, pos)) := by
  have hr : ready h := by
    unfold align at hal
    unfold ready
    cases hi : h._input with
    | none => simp [hi] at hal
    | some input =>
      cases hm : h._input_metadata with
      | none =>
        simp only [hi, hm] at hal
        by_cases hmd : h._metadata = []
        · simp [hmd]
        · simp [hmd] at hal
      | some md => simp
  refine ⟨hr, ?_⟩
  rw [align_eq h chr pos id hr] at hal
  cases hl : align_loop h._input_metadata.isSome chr pos id (unread h) (freq_lines h) 0 0 false h with
  | error e => simp [hl, Except.map] at hal
  | ok x =>
    simp only [hl, Except.map, Except.ok.injEq] at hal
    have hfound : x.found = true := by
      have := congrArg Prod.fst hal
      simpa [align_finish] using this
    obtain ⟨_, hid, pre, line, r, f, hscan, hp, heq, hh, hpre⟩ :=
      align_loop_found_inv _ chr pos id _ _ _ _ _ h x hl hfound
    have h1eq := congrArg Prod.snd hal
    simp only [align_finish, hfound, Bool.not_true, Bool.false_and, Bool.false_eq_true,
      ↓reduceIte] at h1eq
    rw [hh] at h1eq
    cases hm : h._input_metadata with
    | none =>
      simp only [hm, Option.isSome_none, Bool.false_eq_true, ↓reduceIte] at h1eq
      subst h1eq
      refine ⟨hid, pre, line, r, f, ?_, hp, heq, rfl, rfl, rfl, rfl, rfl, rfl, rfl, ?_, hpre⟩
      · rw [hscan]; simp [unread, hm]
      · simp [hm]
    | some md =>
      simp only [hm, Option.isSome_some, ↓reduceIte] at h1eq
      subst h1eq
      refine ⟨hid, pre, line, r, f, ?_, hp, heq, rfl, rfl, rfl, rfl, rfl, rfl, rfl, ?_, hpre⟩
      · rw [hscan]; simp [unread]
      · simp

/-! ## Allele resolution in `find` -/

theorem find_of_align_true (h h1 : freq_handler) (chr pos : Nat) (id a1 a2 : Str)
    (hal : align h chr pos id = .ok (true, h1)) :
    find h chr pos id a1 a2 = (find_resolve h1 a1 a2).map (fun r => (r, h1)) := by
  simp [find, hal]

theorem find_of_align_false (h h1 : freq_handler) (chr pos : Nat) (id a1 a2 : Str)
    (hal : align h chr pos id = .ok (false, h1)) :
    find h chr pos id a1 a2 = .ok ((false, -1), h1) := by
  simp [find, hal]

theorem find_resolve_single (h1 : freq_handler) (A : Str) (f : ℚ) (a1 a2 : Str)
    (hA : h1._alt = [A]) (hf : h1._freq = [f]) :
    find_resolve h1 a1 a2 =
      if cicompare a1 h1._ref then
        (if cicompare a2 A then .ok (true, f) else .ok (false, -1))
      else if cicompare a2 h1._ref then
        (if cicompare a1 A then .ok (true, if a1 = a2 then f else 1 - f) else .ok (false, -1))
      else .ok (false, -1) := by
  simp [find_resolve, hA, hf, find_alt]

/-- Claim C4, allele resolution in `find`.  After a successful `align` the
handler holds one alternate `A` with one frequency `f`, and for every allele
pair `(a1, a2)`: `find` returns `f` when `a1` equals the reference allele and
`a2` equals `A` up to case; it returns `1 - f` when `a1` does not equal the
reference allele, `a2` does and `a1` equals `A`; in every other case it
returns no-match, and never an error.  A matched value is the reference
frequency of the second allele `a2`. -/
theorem find_allele_resolution (h h1 : freq_handler) (chr pos : Nat) (id : Str)
    (hal : align h chr pos id = .ok (true, h1)) :
    ∃ A f, h1._alt = [A] ∧ h1._freq = [f] ∧ ∀ a1 a2 : Str,
      (cicompare a1 h1._ref = true → cicompare a2 A = true →
         find h chr pos id a1 a2 = .ok ((true, f), h1)) ∧
      (cicompare a1 h1._ref = false → cicompare a2 h1._ref = true → cicompare a1 A = true →
         find h chr pos id a1 a2 = .ok ((true, 1 - f), h1)) ∧
      (¬ (cicompare a1 h1._ref = true ∧ cicompare a2 A = true) →
       ¬ (cicompare a1 h1._ref = false ∧ cicompare a2 h1._ref = true ∧ cicompare a1 A = true) →
         find h chr pos id a1 a2 = .ok ((false, -1), h1)) ∧
      (∀ v h2, find h chr pos id a1 a2 = .ok ((true, v), h2) →
         allele_frequency h1._ref A f a2 = some v) := by
  obtain ⟨_, _, pre, line, r, f, _, _, _, _, _, _, hA, hf, _⟩ := align_found_inv h h1 chr pos id hal
  refine ⟨r.alt, f, hA, hf, ?_⟩
  intro a1 a2
  rw [find_of_align_true h h1 chr pos id a1 a2 hal, find_resolve_single h1 r.alt f a1 a2 hA hf]
  have hne : cicompare a1 h1._ref = false → cicompare a2 h1._ref = true → a1 ≠ a2 := by
    intro h1' h2' heq
    rw [heq, h2'] at h1'
    exact Bool.noConfusion h1'
  refine ⟨?_, ?_, ?_, ?_⟩
  · intro c1 c2
    simp [c1, c2, Except.map]
  · intro c1 c2 c3
    simp [c1, c2, c3, hne c1 c2, Except.map]
  · intro n1 n2
    cases c1 : cicompare a1 h1._ref
    · cases c2 : cicompare a2 h1._ref
      · simp [Except.map]
      · cases c3 : cicompare a1 r.alt
        · simp [Except.map]
        · exact absurd ⟨c1, c2, c3⟩ n2
    · cases c2 : cicompare a2 r.alt
      · simp [Except.map]
      · exact absurd ⟨c1, c2⟩ n1
  · intro v h2
    unfold allele_frequency
    cases c1 : cicompare a1 h1._ref
    · cases c2 : cicompare a2 h1._ref
      · simp [Except.map]
      · cases c3 : cicompare a1 r.alt
        · simp [Except.map]
        · have c4 : cicompare a2 r.alt = false := by
            cases c4 : cicompare a2 r.alt
            · rfl
            · have := cicompare_trans (cicompare_trans c3 (cicompare_symm c4)) c2
              rw [c1] at this
              exact Bool.noConfusion this
          simp only [Bool.false_eq_true, ↓reduceIte, hne c1 c2, Except.map, Except.ok.injEq,
            Prod.mk.injEq, true_and, c4, Option.some.injEq]
          intro hv
          exact hv.1
    · cases c2 : cicompare a2 r.alt
      · simp [Except.map]
      · simp only [↓reduceIte, Except.map, Except.ok.injEq, Prod.mk.injEq, true_and,
          Option.some.injEq]
        intro hv
        exact hv.1

/-- Claim C5, allele-flip complement.  For a matched record with reference
allele `R`, alternate `A` different from `R` up to case, and frequency `f`,
`find` with `(a1, a2) = (A, R)` and `find` with `(R, A)`, run from the same
handler state, both match, and the two values add up to exactly `1`. -/
theorem find_flip_complement (h h1 : freq_handler) (chr pos : Nat) (id R A : Str) (f : ℚ)
    (hal : align h chr pos id = .ok (true, h1))
    (hR : h1._ref = R) (hA : h1._alt = [A]) (hf : h1._freq = [f])
    (hne : cicompare A R = false) :
    ∃ v1 v2, find h chr pos id A R = .ok ((true, v1), h1) ∧
      find h chr pos id R A = .ok ((true, v2), h1) ∧ v1 + v2 = 1 := by
  have hneq : A ≠ R := by
    intro heq
    rw [heq, cicompare_refl] at hne
    exact Bool.noConfusion hne
  refine ⟨1 - f, f, ?_, ?_, by ring⟩
  · rw [find_of_align_true h h1 chr pos id A R hal, find_resolve_single h1 A f A R hA hf, hR]
    simp [hne, cicompare_refl, hneq, Except.map]
  · rw [find_of_align_true h h1 chr pos id R A hal, find_resolve_single h1 A f R A hA hf, hR]
    simp [cicompare_refl, Except.map]

theorem find_alt_congr (t t1 a2 b2 : Str) (ht : same_up_to_case t t1)
    (hflag : t = a2 ↔ t1 = b2) (alts alts1 : List Str)
    (halts : List.Forall₂ same_up_to_case alts alts1) :
    ∀ freqs : List ℚ, find_alt t a2 alts freqs = find_alt t1 b2 alts1 freqs := by
  induction halts with
  | nil => intro freqs; simp [find_alt]
  | cons hab _ ih =>
    intro freqs
    simp only [find_alt]
    rw [cicompare_congr ht hab, ih freqs.tail]
    by_cases hc : t = a2
    · simp [hc, hflag.1 hc]
    · have hc1 : t1 ≠ b2 := fun hh => hc (hflag.2 hh)
      simp [hc, hc1]

theorem find_resolve_congr (h1 g1 : freq_handler) (a1 a2 b1 b2 : Str)
    (href : same_up_to_case h1._ref g1._ref)
    (halt : List.Forall₂ same_up_to_case h1._alt g1._alt)
    (hfreq : h1._freq = g1._freq)
    (ha1 : same_up_to_case a1 b1) (ha2 : same_up_to_case a2 b2) :
    find_resolve h1 a1 a2 = find_resolve g1 b1 b2 := by
  unfold find_resolve
  rw [cicompare_congr ha1 href, cicompare_congr ha2 href, hfreq]
  cases c1 : cicompare b1 g1._ref
  · cases c2 : cicompare b2 g1._ref
    · simp
    · simp only [Bool.false_eq_true, ↓reduceIte]
      apply find_alt_congr _ _ _ _ ha1 _ _ _ halt
      have n1 : a1 ≠ a2 := by
        intro heq
        have := cicompare_congr ha1 href
        rw [heq, cicompare_congr ha2 href, c2, c1] at this
        exact Bool.noConfusion this
      have n2 : b1 ≠ b2 := by
        intro heq
        rw [heq, c2] at c1
        exact Bool.noConfusion c1
      simp [n1, n2]
  · simp only [↓reduceIte]
    exact find_alt_congr _ _ _ _ ha2 (by simp) _ _ halt _

/-- Claim C10, allele comparison is case-insensitive.  Two runs of `find`
for the same coordinate and identifier, on records that agree up to the case
of the letters of the reference and alternate alleles and with caller alleles
that agree up to case, return the same flag and the same frequency. -/
theorem find_case_insensitive (h g h1 g1 : freq_handler) (chr pos : Nat) (id : Str)
    (found : Bool) (a1 a2 b1 b2 : Str)
    (hal : align h chr pos id = .ok (found, h1))
    (gal : align g chr pos id = .ok (found, g1))
    (href : same_up_to_case h1._ref g1._ref)
    (halt : List.Forall₂ same_up_to_case h1._alt g1._alt)
    (hfreq : h1._freq = g1._freq)
    (ha1 : same_up_to_case a1 b1) (ha2 : same_up_to_case a2 b2) :
    (find h chr pos id a1 a2).map Prod.fst = (find g chr pos id b1 b2).map Prod.fst := by
  cases found with
  | false =>
    rw [find_of_align_false h h1 chr pos id a1 a2 hal, find_of_align_false g g1 chr pos id b1 b2 gal]
    rfl
  | true =>
    rw [find_of_align_true h h1 chr pos id a1 a2 hal, find_of_align_true g g1 chr pos id b1 b2 gal,
      find_resolve_congr h1 g1 a1 a2 b1 b2 href halt hfreq ha1 ha2]
    cases find_resolve g1 b1 b2 <;> rfl

/-! ## The worked example -/

theorem read_double_of_scan {s rest : Str} {x : float_literal}
    (h : scan_double s = some (x, rest)) (ho : x.overflows = false) :
    read_double s = some (x.value, rest) := by
  simp [read_double, h, ho]

theorem read_double_overflow {s rest : Str} {x : float_literal}
    (h : scan_double s = some (x, rest)) (ho : x.overflows = true) :
    read_double s = none := by
  simp [read_double, h, ho]

theorem double_overflow_bound_eq : double_overflow_bound = 2 ^ 1024 - 2 ^ 970 := by
  decide!

theorem float_literal_abs_value (x : float_literal) :
    |x.value| = (x.mantissa : ℚ) * (10 : ℚ) ^ (x.exponent - (x.frac_len : Int)) := by
  have h : (0 : ℚ) ≤ (x.mantissa : ℚ) * (10 : ℚ) ^ (x.exponent - (x.frac_len : Int)) := by
    positivity
  unfold float_literal.value
  cases x.neg <;> simp [abs_of_nonneg h]

/-- A scanned literal is out of range exactly when its magnitude reaches
`double_overflow_bound`. -/
theorem overflows_iff (x : float_literal) :
    x.overflows = true ↔ (double_overflow_bound : ℚ) ≤ |x.value| := by
  rw [float_literal_abs_value]
  unfold float_literal.overflows
  by_cases he : 0 ≤ x.exponent - (x.frac_len : Int)
  · rw [if_pos he]
    obtain ⟨n, hn⟩ := Int.eq_ofNat_of_zero_le he
    simp only [hn, Int.toNat_ofNat, decide_eq_true_eq, zpow_natCast]
    exact_mod_cast Iff.rfl
  · rw [if_neg he]
    have he1 : 0 ≤ (x.frac_len : Int) - x.exponent := by omega
    obtain ⟨n, hn⟩ := Int.eq_ofNat_of_zero_le he1
    have hn1 : x.exponent - (x.frac_len : Int) = -(n : Int) := by omega
    simp only [hn, hn1, Int.toNat_ofNat, decide_eq_true_eq, zpow_neg, zpow_natCast]
    have hp : (0 : ℚ) < (10 : ℚ) ^ n := by positivity
    rw [← div_eq_mul_inv, le_div_iff₀ hp]
    exact_mod_cast Iff.rfl

/-- The extraction of a `double` fails on `1e999`, and on the literals just
above the largest finite value; it reads the literals just below. -/
theorem read_double_range :
    read_double "1e999".toList = none ∧ read_double " -1e999 0.5".toList = none ∧
    read_double "1.797693134862315808e308".toList = none ∧
    (∃ f, read_double "1.797693134862315807e308".toList = some (f, [])) ∧
    (∃ f, read_double "1e-999".toList = some (f, [])) :=
  ⟨read_double_overflow
      (by decide : scan_double "1e999".toList = some (⟨false, 1, 0, 999⟩, [])) (by decide!),
    read_double_overflow
      (by decide : scan_double " -1e999 0.5".toList = some (⟨true, 1, 0, 999⟩, " 0.5".toList))
      (by decide!),
    read_double_overflow
      (by decide : scan_double "1.797693134862315808e308".toList =
        some (⟨false, 1797693134862315808, 18, 308⟩, [])) (by decide!),
    ⟨_, read_double_of_scan
      (by decide : scan_double "1.797693134862315807e308".toList =
        some (⟨false, 1797693134862315807, 18, 308⟩, [])) (by decide!)⟩,
    ⟨_, read_double_of_scan
      (by decide : scan_double "1e-999".toList = some (⟨false, 1, 0, -999⟩, [])) (by decide!)⟩⟩

theorem read_combined_freq_seven (strm1 tok rest rest2 : Str) (x : float_literal)
    (h1 : read_string strm1 = some (tok, rest)) (h2 : scan_double rest = some (x, rest2))
    (ho : x.overflows = false) :
    read_combined_freq 7 strm1 = some x.value := by
  simp [read_combined_freq, h1, read_freq_columns, read_double_of_scan h2 ho]

theorem coord_le_zero (c : Nat × Nat) : coord_le (0, 0) c := by
  unfold coord_le
  rcases Nat.eq_zero_or_pos c.1 with h | h
  · right; exact ⟨h.symm, Nat.zero_le _⟩
  · left; exact h

theorem align_combined_first (h : freq_handler) (chr pos : Nat) (id line : Str)
    (input : List Str) (r : ref_line) (f : ℚ)
    (hin : h._input = some (line :: input)) (hmd : h._input_metadata = none)
    (hm : h._metadata = []) (hid : 3 ≤ id.length)
    (hp : parse_ref_line line = some r) (heq : r.catcher = id.drop 3)
    (hf : read_combined_freq h._target_index r.strm1 = some f) :
    align h chr pos id = .ok (true, matched h input r.next_chr r.next_pos r.ref r.alt f) := by
  rw [align_eq h chr pos id ⟨by simp [hin], fun _ => hm⟩]
  simp only [hmd, Option.isSome_none, unread, hin, Option.getD_some]
  rw [align_loop_hit_combined chr pos id line input _ 0 0 false h r f (coord_le_zero _) hid hp heq hf]
  simp [Except.map, align_finish, matched]

theorem one_fifth_value : float_literal.value ⟨false, 20, 2, 0⟩ = 1 / 5 := by
  norm_num [float_literal.value]

theorem align_row_rs1 :
    align (combined_handler [row_rs1]) 1 1000 id_rs1 =
      .ok (true, matched (combined_handler []) [] 1 1000 ['A'] ['G'] (1 / 5)) := by
  have hp : parse_ref_line row_rs1 = some ⟨"rs1".toList, 1, 1000, ['A'], ['G'], " 0.10 0.20".toList⟩ := by
    decide
  have hf : read_combined_freq 7 " 0.10 0.20".toList = some (1 / 5) := by
    rw [← one_fifth_value]
    exact read_combined_freq_seven _ "0.10".toList " 0.20".toList [] ⟨false, 20, 2, 0⟩ (by decide)
      (by decide) (by decide)
  rw [align_combined_first (combined_handler [row_rs1]) 1 1000 id_rs1 row_rs1 [] _ (1 / 5) rfl rfl rfl
    (by decide) hp (by decide) hf]
  rfl

theorem align_row_rs1_lower :
    align (combined_handler [row_rs1_lower]) 1 1000 id_rs1 =
      .ok (true, matched (combined_handler []) [] 1 1000 ['a'] ['g'] (1 / 5)) := by
  have hp : parse_ref_line row_rs1_lower =
      some ⟨"rs1".toList, 1, 1000, ['a'], ['g'], " 0.10 0.20".toList⟩ := by
    decide
  have hf : read_combined_freq 7 " 0.10 0.20".toList = some (1 / 5) := by
    rw [← one_fifth_value]
    exact read_combined_freq_seven _ "0.10".toList " 0.20".toList [] ⟨false, 20, 2, 0⟩ (by decide)
      (by decide) (by decide)
  rw [align_combined_first (combined_handler [row_rs1_lower]) 1 1000 id_rs1 row_rs1_lower [] _
    (1 / 5) rfl rfl rfl (by decide) hp (by decide) hf]
  rfl

/-- Witness of claim C4 on the worked example: `align` matches the row, and
the three cases of the allele resolution are met by `(a, g)`, `(g, a)` and
`(A, T)`. -/
theorem find_allele_resolution_witness :
    align (combined_handler [row_rs1]) 1 1000 id_rs1 =
        .ok (true, matched (combined_handler []) [] 1 1000 ['A'] ['G'] (1 / 5)) ∧
      find (combined_handler [row_rs1]) 1 1000 id_rs1 ['a'] ['g'] =
        .ok ((true, 1 / 5), matched (combined_handler []) [] 1 1000 ['A'] ['G'] (1 / 5)) ∧
      find (combined_handler [row_rs1]) 1 1000 id_rs1 ['g'] ['a'] =
        .ok ((true, 1 - 1 / 5), matched (combined_handler []) [] 1 1000 ['A'] ['G'] (1 / 5)) ∧
      find (combined_handler [row_rs1]) 1 1000 id_rs1 ['A'] ['T'] =
        .ok ((false, -1), matched (combined_handler []) [] 1 1000 ['A'] ['G'] (1 / 5)) := by
  obtain ⟨A, f, hA, hf, hall⟩ :=
    find_allele_resolution (combined_handler [row_rs1])
      (matched (combined_handler []) [] 1 1000 ['A'] ['G'] (1 / 5)) 1 1000 id_rs1 align_row_rs1
  have hA1 : A = ['G'] := by
    have := hA
    simp only [matched, List.cons.injEq, and_true] at this
    exact this.symm
  have hf1 : f = 1 / 5 := by
    have := hf
    simp only [matched, List.cons.injEq, and_true] at this
    exact this.symm
  subst hA1 hf1
  refine ⟨align_row_rs1, ?_, ?_, ?_⟩
  · exact (hall ['a'] ['g']).1 (by decide) (by decide)
  · exact (hall ['g'] ['a']).2.1 (by decide) (by decide) (by decide)
  · exact (hall ['A'] ['T']).2.2.1 (by decide) (by decide)

/-- Witness of claim C5 on the worked example: the reference allele is `A`,
the alternate `G`, and the two orders of the query add up to `1`. -/
theorem find_flip_complement_witness :
    align (combined_handler [row_rs1]) 1 1000 id_rs1 =
        .ok (true, matched (combined_handler []) [] 1 1000 ['A'] ['G'] (1 / 5)) ∧
      cicompare ['G'] ['A'] = false ∧
      ∃ v1 v2,
        find (combined_handler [row_rs1]) 1 1000 id_rs1 ['G'] ['A'] =
          .ok ((true, v1), matched (combined_handler []) [] 1 1000 ['A'] ['G'] (1 / 5)) ∧
        find (combined_handler [row_rs1]) 1 1000 id_rs1 ['A'] ['G'] =
          .ok ((true, v2), matched (combined_handler []) [] 1 1000 ['A'] ['G'] (1 / 5)) ∧
        v1 + v2 = 1 :=
  ⟨align_row_rs1, by decide,
    find_flip_complement (combined_handler [row_rs1])
      (matched (combined_handler []) [] 1 1000 ['A'] ['G'] (1 / 5)) 1 1000 id_rs1 ['A'] ['G'] (1 / 5)
      align_row_rs1 rfl rfl rfl (by decide)⟩

/-- Witness of claim C10: the worked example with alleles `A G` queried with
`(G, A)`, against its spelling `a g` queried with `(g, a)`. -/
theorem find_case_insensitive_witness :
    (find (combined_handler [row_rs1]) 1 1000 id_rs1 ['G'] ['A']).map Prod.fst =
      (find (combined_handler [row_rs1_lower]) 1 1000 id_rs1 ['g'] ['a']).map Prod.fst :=
  find_case_insensitive (combined_handler [row_rs1]) (combined_handler [row_rs1_lower])
    (matched (combined_handler []) [] 1 1000 ['A'] ['G'] (1 / 5))
    (matched (combined_handler []) [] 1 1000 ['a'] ['g'] (1 / 5)) 1 1000 id_rs1 true
    ['G'] ['A'] ['g'] ['a'] align_row_rs1 align_row_rs1_lower (by decide)
    (List.Forall₂.cons (by decide) List.Forall₂.nil) rfl (by decide) (by decide)

/-! ## The sorted merge -/

theorem align_hits (h : freq_handler) (chr pos : Nat) (id : Str) (pre rest : List Str)
    (line : Str) (r : ref_line) (f : ℚ)
    (hready : ready h) (hid : 3 ≤ id.length)
    (hun : unread h = pre ++ line :: rest)
    (hpre : ∀ l ∈ pre, ∃ r1, parse_ref_line l = some r1 ∧ r1.catcher ≠ id.drop 3 ∧
      coord_le (r1.next_chr, r1.next_pos) (chr, pos))
    (hp : parse_ref_line line = some r) (hrid : r.catcher = id.drop 3)
    (hf : supplied_freq h pre.length r = some f) :
    ∃ h1, align h chr pos id = .ok (true, h1) ∧ unread h1 = rest ∧
      h1._chr = r.next_chr ∧ h1._pos = r.next_pos ∧ h1._ref = r.ref ∧ h1._alt = [r.alt] ∧
      h1._freq = [f] := by
  rw [align_eq h chr pos id hready, hun]
  obtain ⟨nc1, np1, hle1, heq⟩ := align_loop_skip h._input_metadata.isSome chr pos id hid pre
    (line :: rest) (freq_lines h) 0 0 false h (coord_le_zero _) hpre
  rw [heq]
  cases hm : h._input_metadata with
  | none =>
    simp only [supplied_freq, hm] at hf
    simp only [Option.isSome_none, Bool.false_eq_true, ↓reduceIte]
    rw [align_loop_hit_combined chr pos id line rest _ nc1 np1 _ h r f hle1 hid hp hrid hf]
    refine ⟨_, rfl, ?_⟩
    simp [align_finish, unread, hm]
  | some md =>
    simp only [supplied_freq, hm] at hf
    simp only [Option.isSome_some, ↓reduceIte]
    cases hfl : (freq_lines h)[pre.length]? with
    | none => simp [hfl] at hf
    | some freqline =>
      simp only [hfl, Option.map_eq_some'] at hf
      obtain ⟨⟨f1, frest⟩, hrd, hf1⟩ := hf
      simp only at hf1
      subst hf1
      have hdrop : (freq_lines h).drop pre.length = freqline :: (freq_lines h).drop (pre.length + 1) := by
        have hlt : pre.length < (freq_lines h).length := by
          by_contra hge
          rw [List.getElem?_eq_none (by omega)] at hfl
          exact Option.noConfusion hfl
        rw [List.getElem?_eq_getElem hlt] at hfl
        simp only [Option.some.injEq] at hfl
        rw [List.drop_eq_getElem_cons hlt, hfl]
      rw [hdrop, align_loop_hit_split chr pos id line freqline rest _ nc1 np1 _ h r f1 frest hle1 hid hp
        hrid hrd]
      refine ⟨_, rfl, ?_⟩
      simp [align_finish, unread]

theorem find_true_inv (h h1 : freq_handler) (chr pos : Nat) (id a1 a2 : Str) (v : ℚ)
    (hfind : find h chr pos id a1 a2 = .ok ((true, v), h1)) :
    align h chr pos id = .ok (true, h1) ∧ find_resolve h1 a1 a2 = .ok (true, v) := by
  unfold find at hfind
  cases hal : align h chr pos id with
  | error e => simp [hal] at hfind
  | ok res =>
    obtain ⟨b, h2⟩ := res
    cases b with
    | false => simp [hal] at hfind
    | true =>
      simp only [hal] at hfind
      cases hres : find_resolve h2 a1 a2 with
      | error e => simp [hres, Except.map] at hfind
      | ok rv =>
        simp only [hres, Except.map, Except.ok.injEq, Prod.mk.injEq] at hfind
        obtain ⟨hrv, hh⟩ := hfind
        subst hh
        exact ⟨rfl, by rw [hres, hrv]⟩

/-- Claim C1 as amended, sorted-merge hit.  On a well-formed unread
reference that is non-decreasing in (chromosome, position), for a query whose
identifier has at least 3 characters: if the first unread line that carries
the identifier without its first 3 characters lies at the queried coordinate
and has the two caller alleles as its reference and alternate alleles, in
either order and up to case, then `find` returns a match; the value is the
frequency the reference supplies for that line, or its complement when `a1`
is not the reference allele, and the line is the last one consumed. -/
theorem sorted_merge_hit (h : freq_handler) (chr pos : Nat) (id a1 a2 : Str)
    (pre rest : List Str) (line : Str) (r : ref_line)
    (hready : ready h) (hwf : well_formed h) (hsorted : sorted_stream (unread h))
    (hid : 3 ≤ id.length)
    (hun : unread h = pre ++ line :: rest)
    (hp : parse_ref_line line = some r)
    (hcoord : (r.next_chr, r.next_pos) = (chr, pos))
    (hrid : r.catcher = id.drop 3)
    (hfirst : ∀ l ∈ pre, line_id l ≠ some (id.drop 3))
    (halleles : (cicompare a1 r.ref = true ∧ cicompare a2 r.alt = true) ∨
      (cicompare a1 r.alt = true ∧ cicompare a2 r.ref = true)) :
    ∃ f h1, supplied_freq h pre.length r = some f ∧
      find h chr pos id a1 a2 = .ok ((true, if cicompare a1 r.ref then f else 1 - f), h1) ∧
      unread h1 = rest ∧ (h1._chr, h1._pos) = (chr, pos) := by
  have hpre : ∀ l ∈ pre, ∃ r1, parse_ref_line l = some r1 ∧ r1.catcher ≠ id.drop 3 ∧
      coord_le (r1.next_chr, r1.next_pos) (chr, pos) := by
    intro l hl
    obtain ⟨n, hn, hnl⟩ := List.getElem_of_mem hl
    have hget : (unread h)[n]? = some l := by
      rw [hun, List.getElem?_append_left hn, List.getElem?_eq_getElem hn, hnl]
    obtain ⟨r1, hp1, _⟩ := hwf n l hget
    refine ⟨r1, hp1, ?_, ?_⟩
    · intro hc
      apply hfirst l hl
      simp [line_id, hp1, hc]
    · rw [hun] at hsorted
      have := (List.pairwise_append.1 hsorted).2.2 l hl line (List.mem_cons_self _ _)
      simpa [line_coord, hp1, hp, hcoord] using this
  obtain ⟨r2, hp2, hsome⟩ := hwf pre.length line (by rw [hun, List.getElem?_append_right (Nat.le_refl _)]; simp)
  rw [hp] at hp2
  simp only [Option.some.injEq] at hp2
  subst hp2
  obtain ⟨f, hf⟩ := Option.isSome_iff_exists.1 hsome
  obtain ⟨h1, hal, hun1, hc1, hp1, href, halt, hfreq⟩ :=
    align_hits h chr pos id pre rest line r f hready hid hun hpre hp hrid hf
  refine ⟨f, h1, hf, ?_, hun1, ?_⟩
  · rw [find_of_align_true h h1 chr pos id a1 a2 hal, find_resolve_single h1 r.alt f a1 a2 halt hfreq,
      href]
    cases c1 : cicompare a1 r.ref
    · rcases halleles with ⟨h1', _⟩ | ⟨h3, h4⟩
      · rw [c1] at h1'; exact Bool.noConfusion h1'
      · have hne : a1 ≠ a2 := by
          intro heq
          rw [heq, h4] at c1
          exact Bool.noConfusion c1
        simp [h3, h4, hne, Except.map]
    · have c2 : cicompare a2 r.alt = true := by
        rcases halleles with ⟨_, h2'⟩ | ⟨h3, h4⟩
        · exact h2'
        · exact cicompare_trans h4 (cicompare_trans (cicompare_symm c1) h3)
      simp [c2, Except.map]
  · rw [hc1, hp1, hcoord]

/-- Claim C2 as amended, the cursor never rewinds.  On a sorted reference of
which a line with a coordinate strictly greater than `(chr, pos)` has been
consumed, a later `find` at `(chr, pos)` with an identifier of at least 3
characters returns no-match for every allele pair and consumes one line at
most, provided the next unread line, if there is one, parses and does not
carry that identifier.  When instead the next unread line carries the
identifier and supplies a frequency `f`, its coordinate is greater than
`(chr, pos)` and yet `find` at `(chr, pos)` with the reference and alternate
alleles of that line returns a match with `f`, and consumes the line. -/
theorem no_match_after_passing (h : freq_handler) (chr pos : Nat) (id : Str)
    (consumed : List Str) (passed : Str) (rp : ref_line)
    (hready : ready h) (hid : 3 ≤ id.length)
    (hsorted : sorted_stream (consumed ++ unread h))
    (hmem : passed ∈ consumed) (hpp : parse_ref_line passed = some rp)
    (hgt : ¬ coord_le (rp.next_chr, rp.next_pos) (chr, pos)) :
    ((∀ l, (unread h).head? = some l →
        ∃ r, parse_ref_line l = some r ∧ r.catcher ≠ id.drop 3) →
      ∀ a1 a2 : Str, ∃ h1, find h chr pos id a1 a2 = .ok ((false, -1), h1) ∧
        unread h1 = (unread h).tail) ∧
    (∀ (l : Str) (r : ref_line) (f : ℚ), (unread h).head? = some l →
      parse_ref_line l = some r → r.catcher = id.drop 3 → supplied_freq h 0 r = some f →
      ¬ coord_le (r.next_chr, r.next_pos) (chr, pos) ∧
      ∃ h1, find h chr pos id r.ref r.alt = .ok ((true, f), h1) ∧
        unread h1 = (unread h).tail) := by
  have hpast : ∀ (l : Str) (r : ref_line), l ∈ unread h → parse_ref_line l = some r →
      ¬ coord_le (r.next_chr, r.next_pos) (chr, pos) := by
    intro l r hl hp hle
    apply hgt
    have := (List.pairwise_append.1 hsorted).2.2 passed hmem l hl
    simp only [line_coord, hpp, hp] at this
    unfold coord_le at *
    simp only at *
    omega
  refine ⟨?_, ?_⟩
  · intro hnext a1 a2
    have key : ∃ h1, align h chr pos id = .ok (false, h1) ∧ unread h1 = (unread h).tail := by
      rw [align_eq h chr pos id hready]
      cases hun : unread h with
      | nil =>
        refine ⟨_, rfl, ?_⟩
        cases hm : h._input_metadata <;> simp [align_loop, align_finish, unread, hm, Except.map]
      | cons line rest =>
        obtain ⟨r, hp, hne⟩ := hnext line (by simp [hun])
        have hr : ¬ coord_le (r.next_chr, r.next_pos) (chr, pos) :=
          hpast line r (by simp [hun]) hp
        rw [align_loop_miss _ chr pos id line rest _ 0 0 false h r (coord_le_zero _) hid hp hne,
          align_loop_stop _ chr pos id rest _ _ _ _ h hr]
        refine ⟨_, rfl, ?_⟩
        cases hm : h._input_metadata <;>
          cases hd : (false || (r.next_chr == chr && r.next_pos == pos)) <;>
          simp [align_finish, unread, hm, Except.map, hd]
    obtain ⟨h1, hal, hun1⟩ := key
    exact ⟨h1, find_of_align_false h h1 chr pos id a1 a2 hal, hun1⟩
  · intro l r f hl hp hrid hf
    cases hun : unread h with
    | nil => simp [hun] at hl
    | cons line rest =>
      have hline : line = l := by simpa [hun] using hl
      subst hline
      refine ⟨hpast line r (by simp [hun]) hp, ?_⟩
      obtain ⟨h1, hal, hun1, _, _, href, halt, hfreq⟩ :=
        align_hits h chr pos id [] rest line r f hready hid (by simpa using hun)
          (fun l hl => absurd hl (List.not_mem_nil l)) hp hrid hf
      refine ⟨h1, ?_, by simpa using hun1⟩
      rw [find_of_align_true h h1 chr pos id r.ref r.alt hal,
        find_resolve_single h1 r.alt f r.ref r.alt halt hfreq, href]
      simp [cicompare_refl, Except.map]

/-- Claim C3 as amended, records are matched by identifier.  Whenever `find`
returns a match, the reference record that supplied the frequency is the
first unread line whose identifier equals the query identifier without its
first 3 characters; the handler stores the coordinate and alleles of that
line, and every line consumed before it has a coordinate not greater than
`(chr, pos)`.  The coordinate of the record itself is not compared. -/
theorem match_is_first_identified (h h1 : freq_handler) (chr pos : Nat) (id a1 a2 : Str) (v : ℚ)
    (hfind : find h chr pos id a1 a2 = .ok ((true, v), h1)) :
    ∃ pre line r, unread h = pre ++ line :: unread h1 ∧ parse_ref_line line = some r ∧
      r.catcher = id.drop 3 ∧ (h1._chr, h1._pos) = (r.next_chr, r.next_pos) ∧
      h1._ref = r.ref ∧ h1._alt = [r.alt] ∧
      (∀ l ∈ pre, line_id l ≠ some (id.drop 3) ∧ coord_le (line_coord l) (chr, pos)) := by
  obtain ⟨hal, _⟩ := find_true_inv h h1 chr pos id a1 a2 v hfind
  obtain ⟨_, _, pre, line, r, f, hun, hp, hrid, hc, hps, href, halt, _, _, _, _, hpre⟩ :=
    align_found_inv h h1 chr pos id hal
  refine ⟨pre, line, r, hun, hp, hrid, by rw [hc, hps], href, halt, ?_⟩
  intro l hl
  obtain ⟨r1, hp1, hne, hle⟩ := hpre l hl
  refine ⟨?_, by simpa [line_coord, hp1] using hle⟩
  simp only [line_id, hp1, Option.map_some', ne_eq, Option.some.injEq]
  exact hne

theorem find_eval (h h1 : freq_handler) (chr pos : Nat) (id a1 a2 : Str) (res : Bool × ℚ)
    (hal : align h chr pos id = .ok (true, h1)) (hres : find_resolve h1 a1 a2 = .ok res) :
    find h chr pos id a1 a2 = .ok (res, h1) := by
  rw [find_of_align_true h h1 chr pos id a1 a2 hal, hres]
  rfl

theorem well_formed_combined (lines : List Str)
    (hl : ∀ l ∈ lines, ∃ r, parse_ref_line l = some r ∧
      (read_combined_freq 7 r.strm1).isSome = true) :
    well_formed (combined_handler lines) := by
  intro n l hn
  have hmem : l ∈ lines := by
    have : (unread (combined_handler lines)) = lines := rfl
    rw [this] at hn
    exact List.getElem?_mem hn
  obtain ⟨r, hp, hs⟩ := hl l hmem
  exact ⟨r, hp, hs⟩

theorem ready_combined (lines : List Str) : ready (combined_handler lines) :=
  ⟨by simp [combined_handler], fun _ => rfl⟩

theorem parse_row_rs1 : parse_ref_line row_rs1 =
    some ⟨"rs1".toList, 1, 1000, ['A'], ['G'], " 0.10 0.20".toList⟩ := by decide

theorem parse_row_rs1_T : parse_ref_line row_rs1_T =
    some ⟨"rs1".toList, 1, 1000, ['A'], ['T'], " 0.30 0.40".toList⟩ := by decide

theorem parse_row_rs0 : parse_ref_line row_rs0 =
    some ⟨"rs0".toList, 1, 900, ['C'], ['T'], " 0.50 0.60".toList⟩ := by decide

theorem parse_row_rs2 : parse_ref_line row_rs2 =
    some ⟨"rs2".toList, 1, 2000, ['A'], ['G'], " 0.10 0.20".toList⟩ := by decide

theorem freq_0_20 : read_combined_freq 7 " 0.10 0.20".toList = some (1 / 5) := by
  rw [← one_fifth_value]
  exact read_combined_freq_seven _ "0.10".toList " 0.20".toList [] ⟨false, 20, 2, 0⟩ (by decide)
    (by decide) (by decide)

theorem freq_0_40 : (read_combined_freq 7 " 0.30 0.40".toList).isSome = true := by
  rw [read_combined_freq_seven _ "0.30".toList " 0.40".toList [] ⟨false, 40, 2, 0⟩ (by decide)
    (by decide) (by decide)]
  rfl

theorem freq_0_60 : (read_combined_freq 7 " 0.50 0.60".toList).isSome = true := by
  rw [read_combined_freq_seven _ "0.50".toList " 0.60".toList [] ⟨false, 60, 2, 0⟩ (by decide)
    (by decide) (by decide)]
  rfl

/-- Counterexample to claim C1 as stated: a sorted, well-formed reference
holds two lines for the identifier `rs1` at `(1, 1000)`, alleles `A G` and
`A T`.  The query `(1, 1000, xx:rs1, A, T)` has its record in the unread
stream, yet `find` stops at the first line and returns no-match. -/
theorem sorted_merge_hit_counterexample :
    ready (combined_handler [row_rs1, row_rs1_T]) ∧
    well_formed (combined_handler [row_rs1, row_rs1_T]) ∧
    sorted_stream (unread (combined_handler [row_rs1, row_rs1_T])) ∧
    3 ≤ id_rs1.length ∧
    row_rs1_T ∈ unread (combined_handler [row_rs1, row_rs1_T]) ∧
    parse_ref_line row_rs1_T =
      some ⟨id_rs1.drop 3, 1, 1000, ['A'], ['T'], " 0.30 0.40".toList⟩ ∧
    cicompare ['A'] ['A'] = true ∧ cicompare ['T'] ['T'] = true ∧
    find (combined_handler [row_rs1, row_rs1_T]) 1 1000 id_rs1 ['A'] ['T'] =
      .ok ((false, -1), matched (combined_handler [row_rs1, row_rs1_T]) [row_rs1_T] 1 1000
        ['A'] ['G'] (1 / 5)) := by
  refine ⟨ready_combined _, ?_, by decide, by decide, by decide, parse_row_rs1_T, by decide,
    by decide, ?_⟩
  · apply well_formed_combined
    intro l hl
    simp only [List.mem_cons, List.mem_singleton, List.not_mem_nil, or_false] at hl
    rcases hl with rfl | rfl
    · exact ⟨_, parse_row_rs1, by rw [freq_0_20]; rfl⟩
    · exact ⟨_, parse_row_rs1_T, freq_0_40⟩
  · apply find_eval
    · exact align_combined_first (combined_handler [row_rs1, row_rs1_T]) 1 1000 id_rs1 row_rs1
        [row_rs1_T] _ (1 / 5) rfl rfl rfl (by decide) parse_row_rs1 (by decide) freq_0_20
    · rfl

/-- Witness of claim C1 as amended: the row `rs1` behind the row `rs0` of a
smaller coordinate, queried at `(1, 1000)` with the alleles `(g, a)`. -/
theorem sorted_merge_hit_witness :
    ready (combined_handler [row_rs0, row_rs1]) ∧
    well_formed (combined_handler [row_rs0, row_rs1]) ∧
    sorted_stream (unread (combined_handler [row_rs0, row_rs1])) ∧
    ∃ f h1,
      supplied_freq (combined_handler [row_rs0, row_rs1]) 1
        ⟨"rs1".toList, 1, 1000, ['A'], ['G'], " 0.10 0.20".toList⟩ = some f ∧
      find (combined_handler [row_rs0, row_rs1]) 1 1000 id_rs1 ['g'] ['a'] =
        .ok ((true, if cicompare ['g'] ['A'] then f else 1 - f), h1) ∧
      unread h1 = [] ∧ (h1._chr, h1._pos) = (1, 1000) := by
  have hwf : well_formed (combined_handler [row_rs0, row_rs1]) := by
    apply well_formed_combined
    intro l hl
    simp only [List.mem_cons, List.mem_singleton, List.not_mem_nil, or_false] at hl
    rcases hl with rfl | rfl
    · exact ⟨_, parse_row_rs0, freq_0_60⟩
    · exact ⟨_, parse_row_rs1, by rw [freq_0_20]; rfl⟩
  exact ⟨ready_combined _, hwf, by decide,
    sorted_merge_hit (combined_handler [row_rs0, row_rs1]) 1 1000 id_rs1 ['g'] ['a']
      [row_rs0] [] row_rs1 _ (ready_combined _) hwf (by decide) (by decide) rfl parse_row_rs1 rfl
      (by decide) (by decide) (Or.inr ⟨by decide, by decide⟩)⟩

/-- Counterexample to claim C2 as stated: on the sorted reference
`rs1 (1, 1000)`, `rs2 (1, 2000)` a first `find` consumes the line at
`(1, 1000)`, a coordinate greater than `(1, 500)`; the next `find` at
`(1, 500)` with the identifier of `rs2` returns a match. -/
theorem no_match_after_passing_counterexample :
    sorted_stream [row_rs1, row_rs2] ∧
    find (combined_handler [row_rs1, row_rs2]) 1 1000 id_rs1 ['A'] ['G'] =
      .ok ((true, 1 / 5),
        matched (combined_handler [row_rs1, row_rs2]) [row_rs2] 1 1000 ['A'] ['G'] (1 / 5)) ∧
    line_coord row_rs1 = (1, 1000) ∧ ¬ coord_le (1, 1000) (1, 500) ∧
    find (matched (combined_handler [row_rs1, row_rs2]) [row_rs2] 1 1000 ['A'] ['G'] (1 / 5))
        1 500 id_rs2 ['A'] ['G'] =
      .ok ((true, 1 / 5),
        matched (matched (combined_handler [row_rs1, row_rs2]) [row_rs2] 1 1000 ['A'] ['G'] (1 / 5))
          [] 1 2000 ['A'] ['G'] (1 / 5)) := by
  refine ⟨by decide, ?_, by decide, by decide, ?_⟩
  · apply find_eval
    · exact align_combined_first (combined_handler [row_rs1, row_rs2]) 1 1000 id_rs1 row_rs1
        [row_rs2] _ (1 / 5) rfl rfl rfl (by decide) parse_row_rs1 (by decide) freq_0_20
    · rfl
  · apply find_eval
    · exact align_combined_first
        (matched (combined_handler [row_rs1, row_rs2]) [row_rs2] 1 1000 ['A'] ['G'] (1 / 5))
        1 500 id_rs2 row_rs2 [] _ (1 / 5) rfl rfl rfl (by decide) parse_row_rs2 (by decide) freq_0_20
    · rfl

/-- Witness of claim C2 as amended: after the line at `(1, 1000)` has been
consumed, the query at `(1, 500)` with an identifier the next line does not
carry returns no-match, and the query at `(1, 500)` with the identifier and
the alleles of the next line, at `(1, 2000)`, returns a match. -/
theorem no_match_after_passing_witness :
    sorted_stream ([row_rs1] ++
      unread (matched (combined_handler [row_rs1, row_rs2]) [row_rs2] 1 1000 ['A'] ['G'] (1 / 5))) ∧
    ¬ coord_le (1, 1000) (1, 500) ∧
    (∃ h1,
      find (matched (combined_handler [row_rs1, row_rs2]) [row_rs2] 1 1000 ['A'] ['G'] (1 / 5))
        1 500 id_rs9 ['A'] ['G'] = .ok ((false, -1), h1) ∧
      unread h1 =
        (unread (matched (combined_handler [row_rs1, row_rs2]) [row_rs2] 1 1000 ['A'] ['G']
          (1 / 5))).tail) ∧
    ¬ coord_le (1, 2000) (1, 500) ∧
    ∃ h1,
      find (matched (combined_handler [row_rs1, row_rs2]) [row_rs2] 1 1000 ['A'] ['G'] (1 / 5))
        1 500 id_rs2 ['A'] ['G'] = .ok ((true, 1 / 5), h1) ∧
      unread h1 =
        (unread (matched (combined_handler [row_rs1, row_rs2]) [row_rs2] 1 1000 ['A'] ['G']
          (1 / 5))).tail :=
  ⟨by decide, by decide,
    (no_match_after_passing
      (matched (combined_handler [row_rs1, row_rs2]) [row_rs2] 1 1000 ['A'] ['G'] (1 / 5))
      1 500 id_rs9 [row_rs1] row_rs1 _
      ⟨by simp [matched], fun _ => rfl⟩ (by decide) (by decide)
      (List.mem_singleton.2 rfl) parse_row_rs1 (by decide)).1
      (by
        intro l hl
        have hl1 : l = row_rs2 := by
          have : (unread (matched (combined_handler [row_rs1, row_rs2]) [row_rs2] 1 1000 ['A'] ['G']
            (1 / 5))).head? = some row_rs2 := rfl
          rw [this] at hl
          exact (Option.some.inj hl).symm
        subst hl1
        exact ⟨_, parse_row_rs2, by decide⟩) ['A'] ['G'],
    (no_match_after_passing
      (matched (combined_handler [row_rs1, row_rs2]) [row_rs2] 1 1000 ['A'] ['G'] (1 / 5))
      1 500 id_rs2 [row_rs1] row_rs1 _
      ⟨by simp [matched], fun _ => rfl⟩ (by decide) (by decide)
      (List.mem_singleton.2 rfl) parse_row_rs1 (by decide)).2
      row_rs2 ⟨"rs2".toList, 1, 2000, ['A'], ['G'], " 0.10 0.20".toList⟩ (1 / 5) rfl parse_row_rs2
      (by decide) freq_0_20⟩

/-- Counterexample to claim C3 as stated: the query at `(2, 5)` with the
identifier of `rs1` matches the record at `(1, 1000)`, and the coordinate
stored in the handler is not the queried one. -/
theorem match_by_coordinate_counterexample :
    find (combined_handler [row_rs1]) 2 5 id_rs1 ['A'] ['G'] =
      .ok ((true, 1 / 5), matched (combined_handler [row_rs1]) [] 1 1000 ['A'] ['G'] (1 / 5)) ∧
    ((matched (combined_handler [row_rs1]) [] 1 1000 ['A'] ['G'] (1 / 5))._chr,
     (matched (combined_handler [row_rs1]) [] 1 1000 ['A'] ['G'] (1 / 5))._pos) ≠ (2, 5) := by
  refine ⟨?_, by decide⟩
  apply find_eval
  · exact align_combined_first (combined_handler [row_rs1]) 2 5 id_rs1 row_rs1 [] _ (1 / 5)
      rfl rfl rfl (by decide) parse_row_rs1 (by decide) freq_0_20
  · rfl

/-- Witness of claim C3 as amended: the match of the query at `(2, 5)` is
the first unread line with the identifier `rs1`. -/
theorem match_is_first_identified_witness :
    find (combined_handler [row_rs1]) 2 5 id_rs1 ['A'] ['G'] =
      .ok ((true, 1 / 5), matched (combined_handler [row_rs1]) [] 1 1000 ['A'] ['G'] (1 / 5)) ∧
    ∃ pre line r,
      unread (combined_handler [row_rs1]) =
        pre ++ line :: unread (matched (combined_handler [row_rs1]) [] 1 1000 ['A'] ['G'] (1 / 5)) ∧
      parse_ref_line line = some r ∧ r.catcher = id_rs1.drop 3 ∧
      ((matched (combined_handler [row_rs1]) [] 1 1000 ['A'] ['G'] (1 / 5))._chr,
       (matched (combined_handler [row_rs1]) [] 1 1000 ['A'] ['G'] (1 / 5))._pos) =
        (r.next_chr, r.next_pos) ∧
      (matched (combined_handler [row_rs1]) [] 1 1000 ['A'] ['G'] (1 / 5))._ref = r.ref ∧
      (matched (combined_handler [row_rs1]) [] 1 1000 ['A'] ['G'] (1 / 5))._alt = [r.alt] ∧
      (∀ l ∈ pre, line_id l ≠ some (id_rs1.drop 3) ∧ coord_le (line_coord l) (2, 5)) := by
  have hfind : find (combined_handler [row_rs1]) 2 5 id_rs1 ['A'] ['G'] =
      .ok ((true, 1 / 5), matched (combined_handler [row_rs1]) [] 1 1000 ['A'] ['G'] (1 / 5)) := by
    apply find_eval
    · exact align_combined_first (combined_handler [row_rs1]) 2 5 id_rs1 row_rs1 [] _ (1 / 5)
        rfl rfl rfl (by decide) parse_row_rs1 (by decide) freq_0_20
    · rfl
  exact ⟨hfind, match_is_first_identified (combined_handler [row_rs1])
    (matched (combined_handler [row_rs1]) [] 1 1000 ['A'] ['G'] (1 / 5)) 2 5 id_rs1 ['A'] ['G']
    (1 / 5) hfind⟩

/-! ## The header and the worked example -/

theorem tokens_aux_cur (s : Str) : ∀ cur : Str, cur ≠ [] →
    tokens_aux s cur =
      (cur ++ s.takeWhile (fun c => !isspace c)) :: tokens (s.dropWhile (fun c => !isspace c)) := by
  induction s with
  | nil => intro cur hcur; simp [tokens_aux, tokens, hcur]
  | cons c s ih =>
    intro cur hcur
    by_cases hc : isspace c = true
    · simp [tokens_aux, tokens, hc, hcur]
    · have hc1 : isspace c = false := by simpa using hc
      simp only [tokens_aux, hc1, Bool.false_eq_true, ↓reduceIte]
      rw [ih (cur ++ [c]) (by simp)]
      simp [hc1]

theorem tokens_skipws (s : Str) : tokens (skipws s) = tokens s := by
  induction s with
  | nil => rfl
  | cons c s ih =>
    by_cases hc : isspace c = true
    · have h1 : skipws (c :: s) = skipws s := by simp [skipws, hc]
      rw [h1, ih]
      simp [tokens, tokens_aux, hc]
    · have h1 : skipws (c :: s) = c :: s := by simp [skipws, hc]
      rw [h1]

theorem skipws_head (s : Str) (c : Char) (rest : Str) (h : skipws s = c :: rest) :
    isspace c = false := by
  induction s with
  | nil => simp [skipws] at h
  | cons d s ih =>
    by_cases hd : isspace d = true
    · have h1 : skipws (d :: s) = skipws s := by simp [skipws, hd]
      rw [h1] at h
      exact ih h
    · have h1 : skipws (d :: s) = d :: s := by simp [skipws, hd]
      rw [h1] at h
      simp only [List.cons.injEq] at h
      rw [← h.1]
      simpa using hd

theorem read_string_none_iff (s : Str) : read_string s = none ↔ skipws s = [] := by
  unfold read_string
  cases hs : skipws s with
  | nil => simp
  | cons c rest =>
    have hc := skipws_head s c rest hs
    simp [hc]

theorem tokens_of_read_string_none (s : Str) (h : read_string s = none) : tokens s = [] := by
  rw [← tokens_skipws, (read_string_none_iff s).1 h]
  rfl

theorem tokens_of_read_string (s t rest : Str) (h : read_string s = some (t, rest)) :
    tokens s = t :: tokens rest := by
  rw [← tokens_skipws]
  unfold read_string at h
  cases hs : skipws s with
  | nil => simp [hs] at h
  | cons c r =>
    have hc := skipws_head s c r hs
    simp only [hs, List.takeWhile_cons, hc, Bool.not_false, ↓reduceIte, List.dropWhile_cons,
      Option.some.injEq, Prod.mk.injEq] at h
    obtain ⟨h1, h2⟩ := h
    simp only [tokens, tokens_aux, hc, Bool.false_eq_true, ↓reduceIte, List.nil_append]
    rw [tokens_aux_cur r [c] (by simp)]
    rfl

theorem read_string_of_tokens (s t : Str) (ts : List Str) (h : tokens s = t :: ts) :
    ∃ rest, read_string s = some (t, rest) ∧ tokens rest = ts := by
  cases hr : read_string s with
  | none =>
    rw [tokens_of_read_string_none s hr] at h
    exact List.noConfusion h
  | some res =>
    obtain ⟨t1, rest⟩ := res
    have := tokens_of_read_string s t1 rest hr
    rw [this] at h
    simp only [List.cons.injEq] at h
    exact ⟨rest, by rw [h.1], h.2⟩

theorem skip_tokens_some (n : Nat) : ∀ s : Str, n ≤ (tokens s).length →
    ∃ rest, skip_tokens n s = some rest ∧ tokens rest = (tokens s).drop n := by
  induction n with
  | zero => intro s _; exact ⟨s, rfl, by simp⟩
  | succ n ih =>
    intro s hn
    cases hts : tokens s with
    | nil => rw [hts] at hn; simp at hn
    | cons t ts =>
      obtain ⟨rest, hr, hrest⟩ := read_string_of_tokens s t ts hts
      rw [hts] at hn
      obtain ⟨rest1, h1, h2⟩ := ih rest (by rw [hrest]; simpa using hn)
      refine ⟨rest1, ?_, ?_⟩
      · simp [skip_tokens, hr, h1]
      · rw [h2, hrest]; simp

theorem skip_tokens_none (n : Nat) : ∀ s : Str, (tokens s).length < n → skip_tokens n s = none := by
  induction n with
  | zero => intro s hn; simp at hn
  | succ n ih =>
    intro s hn
    cases hr : read_string s with
    | none => simp [skip_tokens, hr]
    | some res =>
      obtain ⟨t, rest⟩ := res
      have := tokens_of_read_string s t rest hr
      rw [this] at hn
      simp only [skip_tokens, hr]
      exact ih rest (by simpa using hn)

theorem header_scan_eq (label : Str) (init : Nat) (toks : List Str) : ∀ counter : Nat,
    header_scan label init toks counter =
      match toks.findIdx? (fun t => cicompare t label) with
      | some j => counter + j + 6
      | none => init := by
  induction toks with
  | nil => intro counter; simp [header_scan]
  | cons t toks ih =>
    intro counter
    by_cases ht : cicompare t label = true
    · simp [header_scan, ht, List.findIdx?_cons]
    · have ht1 : cicompare t label = false := by simpa using ht
      simp only [header_scan, ht1, Bool.false_eq_true, ↓reduceIte, List.findIdx?_cons]
      rw [ih (counter + 1)]
      cases hf : List.findIdx? (fun t => cicompare t label) toks with
      | none => simp [hf]
      | some j => simp [hf]; omega

/-- Claim C7, target column from the header in combined mode.  On a fresh
handler without metadata file `initialise` fails when the file cannot be
opened, has no header line, or the header has fewer than six tokens;
otherwise it sets `_target_index` to `6 + j`, where `j`, counted from 1, is
the place of the first token after the first six that equals the label up to
case, and it fails exactly when there is no such token. -/
theorem initialise_target_column (fs : Files) (h : freq_handler) (label : Str)
    (hmd : h._metadata = []) (hnew : h._target_index = 0) :
    initialise fs h label =
      match fs h._filename with
      | none => .error (.resource h._filename)
      | some [] => .error .no_header
      | some (line :: input) =>
        if (tokens line).length < 6 then .error .header_intro
        else
          match ((tokens line).drop 6).findIdx? (fun t => cicompare t label) with
          | none => .error .header_not_found
          | some j => .ok { h with _input := some input, _input_metadata := none,
                                   _target_index := 6 + (j + 1) } := by
  unfold initialise reconcile_reader
  cases hf : fs h._filename with
  | none => simp
  | some ls =>
    cases ls with
    | nil => simp [hmd]
    | cons line input =>
      simp only [hmd, ne_eq, not_true_eq_false, ↓reduceIte]
      by_cases h6 : (tokens line).length < 6
      · simp [skip_tokens_none 6 line h6, h6]
      · obtain ⟨rest, hr, hrest⟩ := skip_tokens_some 6 line (by omega)
        simp only [hr, h6, ↓reduceIte, hrest, hnew]
        rw [header_scan_eq]
        cases hfi : List.findIdx? (fun t => cicompare t label) (List.drop 6 (tokens line)) with
        | none => simp
        | some j =>
          have hne : 1 + j + 6 ≠ 0 := by omega
          have e : 1 + j + 6 = 6 + (j + 1) := by omega
          simp only [hne, ↓reduceIte]
          rw [e]

/-- Witness of claim C7: the header `id chr pos ref alt x EUR AFR` with the
label `eur` gives the target column 7. -/
theorem initialise_target_column_witness :
    (freq_handler.new "freq".toList [])._metadata = [] ∧
    (freq_handler.new "freq".toList [])._target_index = 0 ∧
    initialise example_files (freq_handler.new "freq".toList []) "eur".toList =
      .ok (combined_handler [row_rs1]) :=
  ⟨rfl, rfl, (initialise_target_column example_files (freq_handler.new "freq".toList [])
    "eur".toList rfl rfl).trans (by rfl)⟩

theorem one_tenth_value : float_literal.value ⟨false, 10, 2, 0⟩ = 1 / 10 := by
  norm_num [float_literal.value]

theorem parse_row_rs1_x : parse_ref_line row_rs1_x =
    some ⟨"rs1".toList, 1, 1000, ['A'], ['G'], " x 0.10 0.20".toList⟩ := by decide

theorem freq_x_0_10 : read_combined_freq 7 " x 0.10 0.20".toList = some (1 / 10) := by
  rw [← one_tenth_value]
  exact read_combined_freq_seven _ "x".toList " 0.10 0.20".toList " 0.20".toList ⟨false, 10, 2, 0⟩
    (by decide) (by decide) (by decide)

/-- Counterexample to claim C8 as stated: on the combined file of the worked
example, target `EUR`, the queries with the identifier `rs1` and the alleles
`(G, A)` and `(A, G)` both return no-match and log a warning: `align`
compares the reference identifier with the query identifier stripped of its
first 3 characters, which is empty here. -/
theorem worked_example_counterexample :
    initialise example_files (freq_handler.new "freq".toList []) "EUR".toList =
      .ok (combined_handler [row_rs1]) ∧
    find (combined_handler [row_rs1]) 1 1000 "rs1".toList ['G'] ['A'] =
      .ok ((false, -1), { combined_handler [] with cerr := [(1, 1000)] }) ∧
    find (combined_handler [row_rs1]) 1 1000 "rs1".toList ['A'] ['G'] =
      .ok ((false, -1), { combined_handler [] with cerr := [(1, 1000)] }) := by
  refine ⟨by rfl, by rfl, by rfl⟩

/-- Claim C8 as amended, the worked example.  With the header ending in
`EUR AFR`, the target `EUR` and the query identifier `xx:rs1` (three
characters of prefix, then `rs1`): on the data row `rs1 1 1000 A G 0.10 0.20`
the column of `EUR` is the seventh, `0.20`, so `find` with `(G, A)` returns
`0.80` and with `(A, G)` returns `0.20`; on the row
`rs1 1 1000 A G x 0.10 0.20`, which has the sixth column of the file format,
they return `0.90` and `0.10`. -/
theorem worked_example :
    initialise example_files (freq_handler.new "freq".toList []) "EUR".toList =
      .ok (combined_handler [row_rs1]) ∧
    find (combined_handler [row_rs1]) 1 1000 id_rs1 ['G'] ['A'] =
      .ok ((true, 4 / 5), matched (combined_handler [row_rs1]) [] 1 1000 ['A'] ['G'] (1 / 5)) ∧
    find (combined_handler [row_rs1]) 1 1000 id_rs1 ['A'] ['G'] =
      .ok ((true, 1 / 5), matched (combined_handler [row_rs1]) [] 1 1000 ['A'] ['G'] (1 / 5)) ∧
    initialise example_files_x (freq_handler.new "freq".toList []) "EUR".toList =
      .ok (combined_handler [row_rs1_x]) ∧
    find (combined_handler [row_rs1_x]) 1 1000 id_rs1 ['G'] ['A'] =
      .ok ((true, 9 / 10), matched (combined_handler [row_rs1_x]) [] 1 1000 ['A'] ['G'] (1 / 10)) ∧
    find (combined_handler [row_rs1_x]) 1 1000 id_rs1 ['A'] ['G'] =
      .ok ((true, 1 / 10), matched (combined_handler [row_rs1_x]) [] 1 1000 ['A'] ['G'] (1 / 10)) := by
  have e1 : (4 / 5 : ℚ) = 1 - 1 / 5 := by norm_num
  have e2 : (9 / 10 : ℚ) = 1 - 1 / 10 := by norm_num
  have a1 := align_combined_first (combined_handler [row_rs1]) 1 1000 id_rs1 row_rs1 [] _ (1 / 5)
    rfl rfl rfl (by decide) parse_row_rs1 (by decide) freq_0_20
  have a2 := align_combined_first (combined_handler [row_rs1_x]) 1 1000 id_rs1 row_rs1_x [] _
    (1 / 10) rfl rfl rfl (by decide) parse_row_rs1_x (by decide) freq_x_0_10
  refine ⟨by rfl, ?_, ?_, by rfl, ?_, ?_⟩
  · rw [e1]; exact find_eval _ _ _ _ _ _ _ _ a1 (by rfl)
  · exact find_eval _ _ _ _ _ _ _ _ a1 (by rfl)
  · rw [e2]; exact find_eval _ _ _ _ _ _ _ _ a2 (by rfl)
  · exact find_eval _ _ _ _ _ _ _ _ a2 (by rfl)

/-! ## The driver's frequency convention -/

theorem find_resolve_value (h1 : freq_handler) (A : Str) (f v : ℚ) (a1 a2 : Str)
    (hA : h1._alt = [A]) (hf : h1._freq = [f])
    (hres : find_resolve h1 a1 a2 = .ok (true, v)) :
    allele_frequency h1._ref A f a2 = some v := by
  rw [find_resolve_single h1 A f a1 a2 hA hf] at hres
  unfold allele_frequency
  cases c1 : cicompare a1 h1._ref
  · cases c2 : cicompare a2 h1._ref
    · simp [c1, c2] at hres
    · cases c3 : cicompare a1 A
      · simp [c1, c2, c3] at hres
      · have hne : a1 ≠ a2 := by
          intro heq
          rw [heq, c2] at c1
          exact Bool.noConfusion c1
        have c4 : cicompare a2 A = false := by
          cases c4 : cicompare a2 A
          · rfl
          · have := cicompare_trans (cicompare_trans c3 (cicompare_symm c4)) c2
            rw [c1] at this
            exact Bool.noConfusion this
        simp only [c1, c2, c3, hne, Bool.false_eq_true, ↓reduceIte, Except.ok.injEq,
          Prod.mk.injEq, true_and] at hres
        simp [c4, hres]
  · cases c2 : cicompare a2 A
    · simp [c1, c2] at hres
    · simp only [c1, c2, ↓reduceIte, Except.ok.injEq, Prod.mk.injEq, true_and] at hres
      simp [hres]

/-- Claim C9 as amended, the driver's frequency convention.  For an input
row that parses and is matched against a record with reference allele `R`,
alternate `A` and frequency `f`, the frequency written to the output row is
the reference frequency of the row's allele1: `f` when allele1 equals `A` up
to case, and otherwise allele1 equals `R` and the value is `1 - f`.  The line
written is the row formatted with that value. -/
theorem driver_reports_allele1 (fmt : ℚ → Str) (h h1 : freq_handler) (line : Str)
    (input : List Str) (r : input_row) (v : ℚ)
    (hp : parse_input_row line = some r)
    (hfind : driver_find h r = .ok ((true, v), h1)) :
    ∃ A f, h1._alt = [A] ∧ h1._freq = [f] ∧
      (cicompare r.a1 A = true → v = f) ∧
      (cicompare r.a1 A = false → cicompare r.a1 h1._ref = true ∧ v = 1 - f) ∧
      (process_rows fmt (line :: input) h).output =
        format_row fmt r v :: (process_rows fmt input h1).output := by
  obtain ⟨hal, hres⟩ := find_true_inv h h1 r.chr r.pos r.id r.a2 r.a1 v hfind
  obtain ⟨_, _, pre, l, rl, f, _, _, _, _, _, _, hA, hf, _⟩ :=
    align_found_inv h h1 r.chr r.pos r.id hal
  have hv := find_resolve_value h1 rl.alt f v r.a2 r.a1 hA hf hres
  unfold allele_frequency at hv
  refine ⟨rl.alt, f, hA, hf, ?_, ?_, ?_⟩
  · intro c
    simp only [c, ↓reduceIte, Option.some.injEq] at hv
    exact hv.symm
  · intro c
    cases c2 : cicompare r.a1 h1._ref
    · simp [c, c2] at hv
    · simp only [c, c2, Bool.false_eq_true, ↓reduceIte, Option.some.injEq] at hv
      exact ⟨rfl, hv.symm⟩
  · simp [process_rows, hp, hfind]

theorem parse_input_rs1 : parse_input_row input_rs1 =
    some ⟨1, 1000, id_rs1, ['A'], ['G'], "0.5".toList, "0.1".toList, "0.01".toList,
      "0.001".toList, "100".toList, " extra".toList⟩ := by decide

theorem driver_find_input_rs1 :
    driver_find (combined_handler [row_rs1])
      ⟨1, 1000, id_rs1, ['A'], ['G'], "0.5".toList, "0.1".toList, "0.01".toList,
        "0.001".toList, "100".toList, " extra".toList⟩ =
      .ok ((true, 1 - 1 / 5), matched (combined_handler [row_rs1]) [] 1 1000 ['A'] ['G'] (1 / 5)) :=
  find_eval _ _ _ _ _ _ _ _
    (align_combined_first (combined_handler [row_rs1]) 1 1000 id_rs1 row_rs1 [] _ (1 / 5)
      rfl rfl rfl (by decide) parse_row_rs1 (by decide) freq_0_20) (by rfl)

/-- Counterexample to claim C9 as stated: the input row has allele1 `A` and
allele2 `G`, the reference record has reference `A`, alternate `G` and
frequency `1 / 5`.  Allele2 equals the alternate, yet the value found for the
row is `1 - 1 / 5`, not `1 / 5`. -/
theorem driver_convention_counterexample :
    parse_input_row input_rs1 =
      some ⟨1, 1000, id_rs1, ['A'], ['G'], "0.5".toList, "0.1".toList, "0.01".toList,
        "0.001".toList, "100".toList, " extra".toList⟩ ∧
    driver_find (combined_handler [row_rs1])
      ⟨1, 1000, id_rs1, ['A'], ['G'], "0.5".toList, "0.1".toList, "0.01".toList,
        "0.001".toList, "100".toList, " extra".toList⟩ =
      .ok ((true, 1 - 1 / 5), matched (combined_handler [row_rs1]) [] 1 1000 ['A'] ['G'] (1 / 5)) ∧
    cicompare ['G'] ['G'] = true ∧ (1 - 1 / 5 : ℚ) ≠ 1 / 5 :=
  ⟨parse_input_rs1, driver_find_input_rs1, by decide, by norm_num⟩

/-- Witness of claim C9 as amended: the input row with allele1 `A` against
the record `A G` of the worked example. -/
theorem driver_reports_allele1_witness :
    parse_input_row input_rs1 =
      some ⟨1, 1000, id_rs1, ['A'], ['G'], "0.5".toList, "0.1".toList, "0.01".toList,
        "0.001".toList, "100".toList, " extra".toList⟩ ∧
    ∃ A f, (matched (combined_handler [row_rs1]) [] 1 1000 ['A'] ['G'] (1 / 5))._alt = [A] ∧
      (matched (combined_handler [row_rs1]) [] 1 1000 ['A'] ['G'] (1 / 5))._freq = [f] ∧
      (cicompare ['A'] A = true → (1 - 1 / 5 : ℚ) = f) ∧
      (cicompare ['A'] A = false →
        cicompare ['A'] (matched (combined_handler [row_rs1]) [] 1 1000 ['A'] ['G'] (1 / 5))._ref
          = true ∧ (1 - 1 / 5 : ℚ) = 1 - f) ∧
      (process_rows (fun _ => "NA".toList) [input_rs1] (combined_handler [row_rs1])).output =
        format_row (fun _ => "NA".toList)
          ⟨1, 1000, id_rs1, ['A'], ['G'], "0.5".toList, "0.1".toList, "0.01".toList,
            "0.001".toList, "100".toList, " extra".toList⟩ (1 - 1 / 5) ::
          (process_rows (fun _ => "NA".toList) []
            (matched (combined_handler [row_rs1]) [] 1 1000 ['A'] ['G'] (1 / 5))).output :=
  ⟨parse_input_rs1,
    driver_reports_allele1 (fun _ => "NA".toList) (combined_handler [row_rs1])
      (matched (combined_handler [row_rs1]) [] 1 1000 ['A'] ['G'] (1 / 5)) input_rs1 [] _
      (1 - 1 / 5) parse_input_rs1 driver_find_input_rs1⟩

/-! ## Tokens and numeric extraction -/

theorem isspace_facts (c : Char) (h : isspace c = true) :
    isdigit c = false ∧ c ≠ '-' ∧ c ≠ '+' ∧ c ≠ '.' ∧ c ≠ 'e' ∧ c ≠ 'E' := by
  have hn : c.toNat = 32 ∨ (9 ≤ c.toNat ∧ c.toNat ≤ 13) := by
    simpa [isspace] using h
  refine ⟨?_, ?_, ?_, ?_, ?_, ?_⟩
  · cases hd : isdigit c
    · rfl
    · have : 48 ≤ c.toNat ∧ c.toNat ≤ 57 := by simpa [isdigit] using hd
      omega
  all_goals
    intro hc
    subst hc
    revert hn
    decide

theorem dropWhile_not_space_ends (s : Str) :
    ends_token (s.dropWhile (fun c => !isspace c)) := by
  induction s with
  | nil => intro c r h; simp at h
  | cons d s ih =>
    by_cases hd : isspace d = true
    · intro c r h
      simp only [List.dropWhile_cons, hd, Bool.not_true, Bool.false_eq_true, ↓reduceIte,
        List.cons.injEq] at h
      rw [← h.1]; exact hd
    · have hd1 : isspace d = false := by simpa using hd
      simp only [List.dropWhile_cons, hd1, Bool.not_false, ↓reduceIte]
      exact ih

theorem read_string_shape (s t rest : Str) (h : read_string s = some (t, rest)) :
    skipws s = t ++ rest ∧ t ≠ [] ∧ (∀ c ∈ t, isspace c = false) ∧ ends_token rest := by
  unfold read_string at h
  by_cases ht : (skipws s).takeWhile (fun c => !isspace c) = []
  · simp [ht] at h
  · simp only [ht, ↓reduceIte, Option.some.injEq, Prod.mk.injEq] at h
    obtain ⟨h1, h2⟩ := h
    refine ⟨?_, ?_, ?_, ?_⟩
    · rw [← h1, ← h2, List.takeWhile_append_dropWhile]
    · rw [← h1]; exact ht
    · intro c hc
      rw [← h1] at hc
      have := List.mem_takeWhile_imp hc
      simpa using this
    · rw [← h2]; exact dropWhile_not_space_ends _

theorem takeWhile_digit_append (u rest : Str) (hr : ends_token rest) :
    (u ++ rest).takeWhile isdigit = u.takeWhile isdigit ∧
    (u ++ rest).dropWhile isdigit = u.dropWhile isdigit ++ rest := by
  induction u with
  | nil =>
    cases rest with
    | nil => simp
    | cons c r =>
      have := (isspace_facts c (hr c r rfl)).1
      simp [this]
  | cons d u ih =>
    by_cases hd : isdigit d = true
    · simp [hd, ih]
    · simp [hd]

theorem read_sign_append (u rest : Str) (hr : ends_token rest) :
    read_sign (u ++ rest) = ((read_sign u).1, (read_sign u).2 ++ rest) := by
  cases u with
  | nil =>
    cases rest with
    | nil => rfl
    | cons c r =>
      obtain ⟨_, h1, h2, _⟩ := isspace_facts c (hr c r rfl)
      simp only [List.nil_append]
      unfold read_sign
      split
      · rename_i heq; simp only [List.cons.injEq] at heq; exact absurd heq.1 h1
      · rename_i heq; simp only [List.cons.injEq] at heq; exact absurd heq.1 h2
      · rfl
  | cons d u =>
    by_cases h1 : d = '-'
    · subst h1; rfl
    · by_cases h2 : d = '+'
      · subst h2; rfl
      · have e1 : ∀ w : Str, read_sign (d :: w) = (false, d :: w) := by
          intro w
          unfold read_sign
          split
          · rename_i heq; simp only [List.cons.injEq] at heq; exact absurd heq.1 h1
          · rename_i heq; simp only [List.cons.injEq] at heq; exact absurd heq.1 h2
          · rfl
        rw [List.cons_append, e1, e1]
        rfl

theorem read_fraction_append (u rest : Str) (hr : ends_token rest) :
    read_fraction (u ++ rest) = ((read_fraction u).1, (read_fraction u).2 ++ rest) := by
  have e0 : ∀ (d : Char) (w : Str), d ≠ '.' → read_fraction (d :: w) = ([], d :: w) := by
    intro d w hd
    unfold read_fraction
    split
    · rename_i heq; simp only [List.cons.injEq] at heq; exact absurd heq.1 hd
    · rfl
  cases u with
  | nil =>
    cases rest with
    | nil => rfl
    | cons c r =>
      obtain ⟨_, _, _, h3, _⟩ := isspace_facts c (hr c r rfl)
      simp only [List.nil_append]
      rw [e0 c r h3]
      rfl
  | cons d u =>
    by_cases h1 : d = '.'
    · subst h1
      simp only [List.cons_append, read_fraction]
      rw [(takeWhile_digit_append u rest hr).1, (takeWhile_digit_append u rest hr).2]
    · rw [List.cons_append, e0 d _ h1, e0 d _ h1]
      rfl

theorem read_exponent_append (u rest : Str) (hr : ends_token rest) :
    read_exponent (u ++ rest) = (read_exponent u).map (fun er => (er.1, er.2 ++ rest)) := by
  cases u with
  | nil =>
    cases rest with
    | nil => rfl
    | cons c r =>
      obtain ⟨_, _, _, _, h4, h5⟩ := isspace_facts c (hr c r rfl)
      simp [read_exponent, h4, h5]
  | cons d u =>
    simp only [List.cons_append, read_exponent]
    by_cases hd : d = 'e' ∨ d = 'E'
    · simp only [hd, ↓reduceIte]
      rw [read_sign_append u rest hr]
      simp only
      rw [(takeWhile_digit_append (read_sign u).2 rest hr).1,
        (takeWhile_digit_append (read_sign u).2 rest hr).2]
      by_cases hds : List.takeWhile isdigit (read_sign u).2 = []
      · simp [hds]
      · simp [hds]
    · simp [hd]

theorem skipws_of_head (c : Char) (w : Str) (hc : isspace c = false) :
    skipws (c :: w) = c :: w := by
  simp [skipws, hc]

theorem skipws_idem (s : Str) : skipws (skipws s) = skipws s := by
  cases hs : skipws s with
  | nil => rfl
  | cons c r => exact skipws_of_head c r (skipws_head s c r hs)

theorem scan_double_skipws (s : Str) : scan_double (skipws s) = scan_double s := by
  unfold scan_double
  rw [skipws_idem]

theorem scan_double_append (t rest : Str) (x : float_literal)
    (ht : ∀ c ∈ t, isspace c = false) (hr : ends_token rest)
    (hx : scan_double t = some (x, [])) : scan_double (t ++ rest) = some (x, rest) := by
  cases t with
  | nil =>
    have : scan_double [] = none := by decide
    rw [this] at hx
    exact Option.noConfusion hx
  | cons c w =>
    have hc : isspace c = false := ht c (List.mem_cons_self _ _)
    unfold scan_double at hx ⊢
    rw [List.cons_append, skipws_of_head c _ hc, ← List.cons_append]
    rw [skipws_of_head c _ hc] at hx
    rw [read_sign_append (c :: w) rest hr]
    simp only
    rw [(takeWhile_digit_append (read_sign (c :: w)).2 rest hr).1,
      (takeWhile_digit_append (read_sign (c :: w)).2 rest hr).2,
      read_fraction_append _ rest hr]
    simp only
    rw [read_exponent_append _ rest hr]
    by_cases hm : List.takeWhile isdigit (read_sign (c :: w)).2 = [] ∧
        (read_fraction (List.dropWhile isdigit (read_sign (c :: w)).2)).1 = []
    · simp [hm] at hx
    · simp only [hm, ↓reduceIte] at hx ⊢
      cases he : read_exponent (read_fraction (List.dropWhile isdigit (read_sign (c :: w)).2)).2 with
      | none => simp [he] at hx
      | some er =>
        obtain ⟨e, s4⟩ := er
        simp only [he, Option.some.injEq, Prod.mk.injEq] at hx
        obtain ⟨hx1, hx2⟩ := hx
        subst hx2
        simp [hx1]

theorem read_double_of_token (s t rest : Str) (x : float_literal)
    (hs : read_string s = some (t, rest)) (hx : scan_double t = some (x, []))
    (ho : x.overflows = false) :
    read_double s = some (x.value, rest) := by
  obtain ⟨h1, _, h3, h4⟩ := read_string_shape s t rest hs
  apply read_double_of_scan _ ho
  rw [← scan_double_skipws, h1]
  exact scan_double_append t rest x h3 h4 hx

theorem read_unsigned_of_token (s t rest : Str)
    (hs : read_string s = some (t, rest)) (ht : is_unsigned_token t) :
    read_unsigned s = some (digits_value t, rest) := by
  obtain ⟨h1, _, _, h4⟩ := read_string_shape s t rest hs
  obtain ⟨hne, hdig, hlt⟩ := ht
  have hsign : read_sign (t ++ rest) = (false, t ++ rest) := by
    rw [read_sign_append t rest h4]
    cases t with
    | nil => exact absurd rfl hne
    | cons d w =>
      have hd := hdig d (List.mem_cons_self _ _)
      have h1 : d ≠ '-' := by intro h; subst h; revert hd; decide
      have h2 : d ≠ '+' := by intro h; subst h; revert hd; decide
      have : read_sign (d :: w) = (false, d :: w) := by
        unfold read_sign
        split
        · rename_i heq; simp only [List.cons.injEq] at heq; exact absurd heq.1 h1
        · rename_i heq; simp only [List.cons.injEq] at heq; exact absurd heq.1 h2
        · rfl
      rw [this]
  have htw : t.takeWhile isdigit = t := List.takeWhile_eq_self_iff.2 hdig
  have hdw : t.dropWhile isdigit = [] := List.dropWhile_eq_nil_iff.2 hdig
  unfold read_unsigned
  rw [h1, hsign]
  simp only
  rw [(takeWhile_digit_append t rest h4).1, (takeWhile_digit_append t rest h4).2, htw, hdw]
  have : ¬ (t = [] ∨ 2 ^ 32 ≤ digits_value t) := by
    intro h
    rcases h with h | h
    · exact hne h
    · omega
  rw [if_neg this]
  simp

theorem parse_ref_line_of_tokens (line id c p ref alt : Str) (more : List Str)
    (ht : tokens line = id :: c :: p :: ref :: alt :: more)
    (hc : is_unsigned_token c) (hp : is_unsigned_token p) :
    ∃ s5, parse_ref_line line = some ⟨id, digits_value c, digits_value p, ref, alt, s5⟩ ∧
      tokens s5 = more := by
  obtain ⟨s1, h1, t1⟩ := read_string_of_tokens line id _ ht
  obtain ⟨s2, h2, t2⟩ := read_string_of_tokens s1 c _ t1
  obtain ⟨s3, h3, t3⟩ := read_string_of_tokens s2 p _ t2
  obtain ⟨s4, h4, t4⟩ := read_string_of_tokens s3 ref _ t3
  obtain ⟨s5, h5, t5⟩ := read_string_of_tokens s4 alt _ t4
  refine ⟨s5, ?_, t5⟩
  simp [parse_ref_line, h1, read_unsigned_of_token s1 c s2 h2 hc,
    read_unsigned_of_token s2 p s3 h3 hp, h4, h5]

theorem token_value_of_scan (t : Str) (x : float_literal) (rest : Str)
    (h : scan_double t = some (x, rest)) : token_value t = x.value := by
  simp [token_value, h]

theorem read_freq_columns_of_tokens : ∀ (n : Nat) (s : Str) (vs : List Str) (vk : Str) (f0 : ℚ),
    tokens s = vs → (∀ v ∈ vs.take (n + 1), is_number_token v) → vs[n]? = some vk →
    read_freq_columns (n + 1) s f0 = some (token_value vk) := by
  intro n
  induction n with
  | zero =>
    intro s vs vk f0 hts hnum hvk
    cases vs with
    | nil => simp at hvk
    | cons v vs =>
      simp only [List.getElem?_cons_zero, Option.some.injEq] at hvk
      subst hvk
      obtain ⟨rest, hr, _⟩ := read_string_of_tokens s v vs hts
      obtain ⟨x, hx, ho⟩ := hnum v (by simp)
      simp [read_freq_columns, read_double_of_token s v rest x hr hx ho,
        token_value_of_scan v x [] hx]
  | succ n ih =>
    intro s vs vk f0 hts hnum hvk
    cases vs with
    | nil => simp at hvk
    | cons v vs =>
      simp only [List.getElem?_cons_succ] at hvk
      obtain ⟨rest, hr, hrest⟩ := read_string_of_tokens s v vs hts
      obtain ⟨x, hx, ho⟩ := hnum v (by simp)
      have hnum1 : ∀ w ∈ vs.take (n + 1), is_number_token w := by
        intro w hw
        apply hnum w
        rw [List.take_succ_cons]
        exact List.mem_cons_of_mem _ hw
      have := ih rest vs vk x.value hrest hnum1 hvk
      rw [read_freq_columns]
      simp only [read_double_of_token s v rest x hr hx ho]
      exact this

theorem read_combined_freq_of_tokens (k : Nat) (hk : 7 ≤ k) (s5 x vk : Str) (vs : List Str)
    (hts : tokens s5 = x :: vs) (hnum : ∀ v ∈ vs.take (k - 6), is_number_token v)
    (hvk : vs[k - 7]? = some vk) :
    read_combined_freq k s5 = some (token_value vk) := by
  obtain ⟨s6, h6, t6⟩ := read_string_of_tokens s5 x vs hts
  have e : k - 6 = (k - 7) + 1 := by omega
  simp only [read_combined_freq, h6]
  rw [e]
  rw [e] at hnum
  exact read_freq_columns_of_tokens (k - 7) s6 vs vk 0 t6 hnum hvk

theorem read_double_of_single (fr vk : Str) (hts : tokens fr = [vk]) (hnum : is_number_token vk) :
    ∃ rest, read_double fr = some (token_value vk, rest) := by
  obtain ⟨rest, hr, _⟩ := read_string_of_tokens fr vk [] hts
  obtain ⟨x, hx, ho⟩ := hnum
  exact ⟨rest, by rw [read_double_of_token fr vk rest x hr hx ho, token_value_of_scan vk x [] hx]⟩

theorem same_data_parse (k : Nat) (hk : 7 ≤ k) (row md fr : Str) (h : same_data k row md fr) :
    ∃ (id ref alt s5 s5m frest : Str) (c p : Nat) (f : ℚ),
      parse_ref_line row = some ⟨id, c, p, ref, alt, s5⟩ ∧
      parse_ref_line md = some ⟨id, c, p, ref, alt, s5m⟩ ∧
      read_combined_freq k s5 = some f ∧ read_double fr = some (f, frest) := by
  obtain ⟨id, c, p, ref, alt, x, vk, vs, htr, htm, hc, hp, hnum, hvk, htf⟩ := h
  obtain ⟨s5, hp1, ht5⟩ := parse_ref_line_of_tokens row id c p ref alt _ htr hc hp
  obtain ⟨s5m, hp2, _⟩ := parse_ref_line_of_tokens md id c p ref alt _ htm hc hp
  have hvknum : is_number_token vk := by
    apply hnum vk
    have hlt : k - 7 < k - 6 := by omega
    have : (vs.take (k - 6))[k - 7]? = some vk := by
      rw [List.getElem?_take_of_lt hlt, hvk]
    exact List.getElem?_mem this
  obtain ⟨frest, hfr⟩ := read_double_of_single fr vk htf hvknum
  exact ⟨id, ref, alt, s5, s5m, frest, digits_value c, digits_value p, token_value vk, hp1, hp2,
    read_combined_freq_of_tokens k hk s5 x vk vs ht5 hnum hvk, hfr⟩

/-! ## Combined and split references in step -/

theorem align_loop_in_step (k chr pos : Nat) (id : Str) (hk : 7 ≤ k) :
    ∀ (data : List (Str × Str × Str)), (∀ t ∈ data, same_data k t.1 t.2.1 t.2.2) →
    ∀ (nc np : Nat) (dup : Bool) (hc hs : freq_handler), hc._target_index = k →
    (align_loop false chr pos id (data.map (fun t => t.1)) [] nc np dup hc = .error .out_of_range ∧
     align_loop true chr pos id (data.map (fun t => t.2.1)) (data.map (fun t => t.2.2))
       nc np dup hs = .error .out_of_range) ∨
    (∃ (dup1 : Bool) (rest : List (Str × Str × Str)), (∀ t ∈ rest, t ∈ data) ∧
      align_loop false chr pos id (data.map (fun t => t.1)) [] nc np dup hc =
        .ok ⟨false, dup1, rest.map (fun t => t.1), [], hc⟩ ∧
      align_loop true chr pos id (data.map (fun t => t.2.1)) (data.map (fun t => t.2.2))
        nc np dup hs =
        .ok ⟨false, dup1, rest.map (fun t => t.2.1), rest.map (fun t => t.2.2), hs⟩) ∨
    (∃ (dup1 : Bool) (rest : List (Str × Str × Str)) (c p : Nat) (ref alt : Str) (f : ℚ),
      (∀ t ∈ rest, t ∈ data) ∧
      align_loop false chr pos id (data.map (fun t => t.1)) [] nc np dup hc =
        .ok ⟨true, dup1, rest.map (fun t => t.1), [], with_record hc c p ref alt f⟩ ∧
      align_loop true chr pos id (data.map (fun t => t.2.1)) (data.map (fun t => t.2.2))
        nc np dup hs =
        .ok ⟨true, dup1, rest.map (fun t => t.2.1), rest.map (fun t => t.2.2),
          with_record hs c p ref alt f⟩) := by
  intro data
  induction data with
  | nil =>
    intro _ nc np dup hc hs _
    exact Or.inr (Or.inl ⟨dup, [], by simp, by simp [align_loop], by simp [align_loop]⟩)
  | cons t data ih =>
    intro hdata nc np dup hc hs htk
    by_cases hle : coord_le (nc, np) (chr, pos)
    · obtain ⟨rid, ref, alt, s5, s5m, frest, c, p, f, hp1, hp2, hf1, hf2⟩ :=
        same_data_parse k hk t.1 t.2.1 t.2.2 (hdata t (List.mem_cons_self _ _))
      by_cases hid : id.length < 3
      · left
        unfold coord_le at hle
        constructor
        · simp only [List.map_cons, align_loop]
          rw [if_pos hle]
          simp [hp1, hid]
        · simp only [List.map_cons, align_loop]
          rw [if_pos hle]
          simp [hp2, hid]
      · have hid3 : 3 ≤ id.length := by omega
        by_cases heq : rid = id.drop 3
        · right; right
          refine ⟨dup, data, c, p, ref, alt, f, fun t ht => List.mem_cons_of_mem _ ht, ?_, ?_⟩
          · simp only [List.map_cons]
            rw [align_loop_hit_combined chr pos id t.1 _ _ nc np dup hc _ f hle hid3 hp1 heq
              (by rw [htk]; exact hf1)]
            rfl
          · simp only [List.map_cons]
            rw [align_loop_hit_split chr pos id t.2.1 t.2.2 _ _ nc np dup hs _ f frest hle hid3 hp2
              heq hf2]
            rfl
        · have h1 := align_loop_miss false chr pos id t.1 (data.map (fun t => t.1)) [] nc np dup hc
            _ hle hid3 hp1 heq
          have h2 := align_loop_miss true chr pos id t.2.1 (data.map (fun t => t.2.1))
            (t.2.2 :: data.map (fun t => t.2.2)) nc np dup hs _ hle hid3 hp2 heq
          simp only [Bool.false_eq_true, ↓reduceIte, List.tail_cons] at h1 h2
          simp only [List.map_cons]
          rw [h1, h2]
          rcases ih (fun t ht => hdata t (List.mem_cons_of_mem _ ht)) c p
            (dup || (c == chr && p == pos)) hc hs htk with h | ⟨d1, rest, hm, e1, e2⟩ |
            ⟨d1, rest, c1, p1, r1, a1, f1, hm, e1, e2⟩
          · exact Or.inl h
          · exact Or.inr (Or.inl ⟨d1, rest, fun t ht => List.mem_cons_of_mem _ (hm t ht), e1, e2⟩)
          · exact Or.inr (Or.inr ⟨d1, rest, c1, p1, r1, a1, f1,
              fun t ht => List.mem_cons_of_mem _ (hm t ht), e1, e2⟩)
    · right; left
      exact ⟨dup, t :: data, fun t ht => ht,
        align_loop_stop false chr pos id _ _ nc np dup hc hle,
        align_loop_stop true chr pos id _ _ nc np dup hs hle⟩

theorem align_in_step (k chr pos : Nat) (id : Str) (hk : 7 ≤ k)
    (data : List (Str × Str × Str)) (hdata : ∀ t ∈ data, same_data k t.1 t.2.1 t.2.2)
    (hc hs : freq_handler) (hstep : in_step k data hc hs) :
    (align hc chr pos id = .error .out_of_range ∧ align hs chr pos id = .error .out_of_range) ∨
    ∃ (b : Bool) (hc1 hs1 : freq_handler) (rest : List (Str × Str × Str)),
      (∀ t ∈ rest, t ∈ data) ∧ align hc chr pos id = .ok (b, hc1) ∧
      align hs chr pos id = .ok (b, hs1) ∧ in_step k rest hc1 hs1 := by
  obtain ⟨i1, i2, i3, i4, i5, i6, i7, i8, i9, i10, i11, i12⟩ := hstep
  have ec : align hc chr pos id =
      (align_loop false chr pos id (data.map (fun t => t.1)) [] 0 0 false hc).map
        (align_finish false chr pos) := by
    simp [align, i1, i2, i3]
  have es : align hs chr pos id =
      (align_loop true chr pos id (data.map (fun t => t.2.1)) (data.map (fun t => t.2.2))
        0 0 false hs).map (align_finish true chr pos) := by
    simp [align, i5, i6]
  rw [ec, es]
  rcases align_loop_in_step k chr pos id hk data hdata 0 0 false hc hs i4 with
    ⟨e1, e2⟩ | ⟨d1, rest, hm, e1, e2⟩ | ⟨d1, rest, c1, p1, r1, a1, f1, hm, e1, e2⟩
  · left
    rw [e1, e2]
    exact ⟨rfl, rfl⟩
  · right
    rw [e1, e2]
    refine ⟨false, _, _, rest, hm, rfl, rfl, ?_⟩
    cases d1 <;>
      simp [align_finish, in_step, i2, i3, i4, i7, i8, i9, i10, i11, i12]
  · right
    rw [e1, e2]
    refine ⟨true, _, _, rest, hm, rfl, rfl, ?_⟩
    simp [align_finish, in_step, with_record, i2, i3, i4, i12]

theorem find_in_step (k : Nat) (hk : 7 ≤ k) (q : query)
    (data : List (Str × Str × Str)) (hdata : ∀ t ∈ data, same_data k t.1 t.2.1 t.2.2)
    (hc hs : freq_handler) (hstep : in_step k data hc hs) :
    (∃ e, find hc q.chr q.pos q.id q.a1 q.a2 = .error e ∧
      find hs q.chr q.pos q.id q.a1 q.a2 = .error e) ∨
    ∃ (res : Bool × ℚ) (hc1 hs1 : freq_handler) (rest : List (Str × Str × Str)),
      (∀ t ∈ rest, t ∈ data) ∧
      find hc q.chr q.pos q.id q.a1 q.a2 = .ok (res, hc1) ∧
      find hs q.chr q.pos q.id q.a1 q.a2 = .ok (res, hs1) ∧ in_step k rest hc1 hs1 := by
  rcases align_in_step k q.chr q.pos q.id hk data hdata hc hs hstep with
    ⟨e1, e2⟩ | ⟨b, hc1, hs1, rest, hm, e1, e2, hst⟩
  · left
    exact ⟨.out_of_range, by simp [find, e1], by simp [find, e2]⟩
  · cases b with
    | false =>
      right
      exact ⟨(false, -1), hc1, hs1, rest, hm, find_of_align_false _ _ _ _ _ _ _ e1,
        find_of_align_false _ _ _ _ _ _ _ e2, hst⟩
    | true =>
      have hres : find_resolve hc1 q.a1 q.a2 = find_resolve hs1 q.a1 q.a2 := by
        obtain ⟨_, _, _, _, _, _, _, _, j9, j10, j11, _⟩ := hst
        simp [find_resolve, j9, j10, j11]
      rw [find_of_align_true _ _ _ _ _ _ _ e1, find_of_align_true _ _ _ _ _ _ _ e2, hres]
      cases hr : find_resolve hs1 q.a1 q.a2 with
      | error e => left; exact ⟨e, rfl, rfl⟩
      | ok res => right; exact ⟨res, hc1, hs1, rest, hm, rfl, rfl, hst⟩

theorem find_all_in_step (k : Nat) (hk : 7 ≤ k) (qs : List query) :
    ∀ (data : List (Str × Str × Str)), (∀ t ∈ data, same_data k t.1 t.2.1 t.2.2) →
    ∀ (hc hs : freq_handler), in_step k data hc hs → find_all hc qs = find_all hs qs := by
  induction qs with
  | nil => intro _ _ _ _ _; rfl
  | cons q qs ih =>
    intro data hdata hc hs hstep
    rcases find_in_step k hk q data hdata hc hs hstep with
      ⟨e, e1, e2⟩ | ⟨res, hc1, hs1, rest, hm, e1, e2, hst⟩
    · simp [find_all, e1, e2]
    · simp only [find_all, e1, e2]
      rw [ih rest (fun t ht => hdata t (hm t ht)) hc1 hs1 hst]

theorem initialise_combined_inv (fs : Files) (cf label hdr : Str) (rows : List Str)
    (hc : freq_handler) (hcf : fs cf = some (hdr :: rows))
    (hinit : initialise fs (freq_handler.new cf []) label = .ok hc) :
    hc = { freq_handler.new cf [] with _input := some rows, _input_metadata := none,
                                        _target_index := hc._target_index } ∧
    7 ≤ hc._target_index := by
  unfold initialise reconcile_reader at hinit
  simp only [freq_handler.new, hcf, ne_eq, not_true_eq_false, ↓reduceIte] at hinit
  cases hs : skip_tokens 6 hdr with
  | none => simp [hs] at hinit
  | some strm1 =>
    simp only [hs] at hinit
    by_cases h0 : header_scan label 0 (tokens strm1) 1 = 0
    · simp [h0] at hinit
    · simp only [h0, ↓reduceIte, Except.ok.injEq] at hinit
      subst hinit
      refine ⟨rfl, ?_⟩
      have h7 : 7 ≤ header_scan label 0 (tokens strm1) 1 := by
        rw [header_scan_eq] at h0 ⊢
        cases hf : List.findIdx? (fun t => cicompare t label) (tokens strm1) with
        | none => simp [hf] at h0
        | some j => simp
      exact h7

theorem initialise_split (fs : Files) (ff mf label fh mh : Str) (frs mds : List Str)
    (hmf : mf ≠ []) (hff : fs ff = some (fh :: frs)) (hmd : fs mf = some (mh :: mds)) :
    initialise fs (freq_handler.new ff mf) label =
      .ok { freq_handler.new ff mf with _input := some frs, _input_metadata := some mds } := by
  unfold initialise reconcile_reader
  simp [freq_handler.new, hff, hmd, hmf, Except.map]

/-- Claim C6 as amended, combined and split references are equivalent.  Let
a combined file and a split pair, each with one header line, hold the same
data: every combined row is `id chr pos ref alt x v7 v8 ...` and has a column
`k`, its `chr` and `pos` are runs of decimal digits with a value below
`2 ^ 32`, its columns 7 to `k` are floating literals in the range of a
`double`, the metadata row of the same number is its first five columns and
the frequency row its column `k`.  If the combined handler is initialised
with target column `k`, the split handler is initialised too, and every
sequence of `find` queries gives the same flags, the same frequencies and the
same end on both. -/
theorem combined_split_equivalence (fs : Files) (cf ff mf label hdr mh fh : Str)
    (data : List (Str × Str × Str)) (k : Nat) (hc : freq_handler)
    (hmf : mf ≠ [])
    (hcf : fs cf = some (hdr :: data.map (fun t => t.1)))
    (hmd : fs mf = some (mh :: data.map (fun t => t.2.1)))
    (hff : fs ff = some (fh :: data.map (fun t => t.2.2)))
    (hdata : ∀ t ∈ data, same_data k t.1 t.2.1 t.2.2)
    (hinit : initialise fs (freq_handler.new cf []) label = .ok hc)
    (hk : hc._target_index = k) :
    ∃ hs, initialise fs (freq_handler.new ff mf) label = .ok hs ∧
      ∀ qs : List query, find_all hc qs = find_all hs qs := by
  obtain ⟨hceq, h7⟩ := initialise_combined_inv fs cf label hdr _ hc hcf hinit
  refine ⟨_, initialise_split fs ff mf label fh mh _ _ hmf hff hmd, ?_⟩
  intro qs
  apply find_all_in_step k (by omega) qs data hdata
  rw [hceq]
  simp [in_step, freq_handler.new, hk]

/-- Witness of claim C6 as amended: the worked example as the combined file `freq` and
as the split pair `meta`, `vals`, for the population `EUR` in column 7. -/
theorem combined_split_equivalence_witness :
    "meta".toList ≠ [] ∧
    example_files_both "freq".toList =
      some (header_eur_afr :: [(row_rs1_x, md_rs1, fr_rs1)].map (fun t => t.1)) ∧
    example_files_both "meta".toList =
      some ("id chr pos ref alt".toList :: [(row_rs1_x, md_rs1, fr_rs1)].map (fun t => t.2.1)) ∧
    example_files_both "vals".toList =
      some ("EUR".toList :: [(row_rs1_x, md_rs1, fr_rs1)].map (fun t => t.2.2)) ∧
    (∀ t ∈ [(row_rs1_x, md_rs1, fr_rs1)], same_data 7 t.1 t.2.1 t.2.2) ∧
    initialise example_files_both (freq_handler.new "freq".toList []) "EUR".toList =
      .ok (combined_handler [row_rs1_x]) ∧
    ∃ hs, initialise example_files_both (freq_handler.new "vals".toList "meta".toList)
        "EUR".toList = .ok hs ∧
      ∀ qs : List query, find_all (combined_handler [row_rs1_x]) qs = find_all hs qs := by
  have hdata : ∀ t ∈ [(row_rs1_x, md_rs1, fr_rs1)], same_data 7 t.1 t.2.1 t.2.2 := by
    intro t ht
    simp only [List.mem_singleton] at ht
    subst ht
    refine ⟨"rs1".toList, "1".toList, "1000".toList, ['A'], ['G'], ['x'], "0.10".toList,
      ["0.10".toList, "0.20".toList], by decide, by decide, by decide, by decide, ?_, by decide,
      by decide⟩
    intro v hv
    have hv1 : v = "0.10".toList := by simpa using hv
    subst hv1
    exact ⟨⟨false, 10, 2, 0⟩, by decide⟩
  exact ⟨by decide, by decide, by decide, by decide, hdata, by rfl,
    combined_split_equivalence example_files_both "freq".toList "vals".toList "meta".toList
      "EUR".toList header_eur_afr "id chr pos ref alt".toList "EUR".toList
      [(row_rs1_x, md_rs1, fr_rs1)] 7 (combined_handler [row_rs1_x])
      (by decide) (by decide) (by decide) (by decide) hdata (by rfl) rfl⟩

theorem align_combined_first_fails (h : freq_handler) (chr pos : Nat) (id line : Str)
    (input : List Str) (r : ref_line)
    (hin : h._input = some (line :: input)) (hmd : h._input_metadata = none)
    (hm : h._metadata = []) (hid : 3 ≤ id.length)
    (hp : parse_ref_line line = some r) (heq : r.catcher = id.drop 3)
    (hf : read_combined_freq h._target_index r.strm1 = none) :
    align h chr pos id = .error (.parse_frequency line) := by
  have hle := coord_le_zero (chr, pos)
  unfold coord_le at hle
  rw [align_eq h chr pos id ⟨by simp [hin], fun _ => hm⟩]
  simp only [hmd, Option.isSome_none, unread, hin, Option.getD_some]
  unfold align_loop
  rw [if_pos hle]
  simp only [hp]
  rw [if_neg (by omega), if_pos heq]
  simp [hf, Except.map]

theorem find_of_align_error (h : freq_handler) (chr pos : Nat) (id a1 a2 : Str) (e : Err)
    (hal : align h chr pos id = .error e) : find h chr pos id a1 a2 = .error e := by
  simp [find, hal]

theorem read_double_0_20 : read_double fr_0_20 = some (1 / 5, []) := by
  rw [← one_fifth_value]
  exact read_double_of_scan (by decide) (by decide)

theorem find_all_single_error (h : freq_handler) (q : query) (e : Err)
    (hf : find h q.chr q.pos q.id q.a1 q.a2 = .error e) : find_all h [q] = ([], some e) := by
  simp [find_all, hf]

theorem find_all_single_ok (h h1 : freq_handler) (q : query) (res : Bool × ℚ)
    (hf : find h q.chr q.pos q.id q.a1 q.a2 = .ok (res, h1)) :
    find_all h [q] = ([res], none) := by
  simp [find_all, hf]

/-- Counterexample to claim C6 as stated.  The combined file has the header
`id chr pos ref alt x EUR AFR` and the row `rs1 1 1000 A G x NA 0.20`; the
metadata row is its first five columns and the frequency row its column 8,
the column of `AFR`.  For the target `AFR` the combined handler has to read
column 7 as a number before column 8 and throws a parse error on `NA`, while
the split handler matches the same query with the frequency `0.20`. -/
theorem combined_split_equivalence_counterexample :
    example_files_na "freq".toList = some [header_eur_afr, row_na] ∧
    example_files_na "meta".toList = some ["id chr pos ref alt".toList, md_rs1] ∧
    example_files_na "vals".toList = some ["AFR".toList, fr_0_20] ∧
    tokens header_eur_afr = ["id".toList, "chr".toList, "pos".toList, "ref".toList, "alt".toList,
      "x".toList, "EUR".toList, "AFR".toList] ∧
    tokens row_na = ["rs1".toList, "1".toList, "1000".toList, ['A'], ['G'], "x".toList,
      "NA".toList, "0.20".toList] ∧
    tokens md_rs1 = (tokens row_na).take 5 ∧ tokens fr_0_20 = ((tokens row_na).drop 7).take 1 ∧
    ∃ hc hs : freq_handler,
      initialise example_files_na (freq_handler.new "freq".toList []) "AFR".toList = .ok hc ∧
      hc._target_index = 8 ∧
      initialise example_files_na (freq_handler.new "vals".toList "meta".toList) "AFR".toList =
        .ok hs ∧
      find hc 1 1000 id_rs1 ['A'] ['G'] = .error (.parse_frequency row_na) ∧
      (∃ hs1, find hs 1 1000 id_rs1 ['A'] ['G'] = .ok ((true, 1 / 5), hs1)) ∧
      find_all hc [⟨1, 1000, id_rs1, ['A'], ['G']⟩] ≠ find_all hs [⟨1, 1000, id_rs1, ['A'], ['G']⟩] := by
  have hc0 : find { combined_handler [row_na] with _target_index := 8 } 1 1000 id_rs1 ['A'] ['G'] =
      .error (.parse_frequency row_na) := by
    apply find_of_align_error
    exact align_combined_first_fails _ 1 1000 id_rs1 row_na []
      ⟨"rs1".toList, 1, 1000, ['A'], ['G'], " x NA 0.20".toList⟩ rfl rfl rfl (by decide) (by decide)
      (by decide) (by decide)
  have hs0 : ∃ hs1, find { freq_handler.new "vals".toList "meta".toList with
      _input := some [fr_0_20], _input_metadata := some [md_rs1] } 1 1000 id_rs1 ['A'] ['G'] =
      .ok ((true, 1 / 5), hs1) := by
    obtain ⟨h1, hal, _, _, _, href, halt, hfreq⟩ :=
      align_hits { freq_handler.new "vals".toList "meta".toList with
          _input := some [fr_0_20], _input_metadata := some [md_rs1] } 1 1000 id_rs1 [] [] md_rs1
        ⟨"rs1".toList, 1, 1000, ['A'], ['G'], []⟩ (1 / 5)
        ⟨by simp, by simp⟩ (by decide) rfl (fun l hl => absurd hl (List.not_mem_nil l))
        (by decide) (by decide) (by simp [supplied_freq, freq_lines, read_double_0_20])
    refine ⟨h1, ?_⟩
    rw [find_of_align_true _ h1 1 1000 id_rs1 ['A'] ['G'] hal,
      find_resolve_single h1 ['G'] (1 / 5) ['A'] ['G'] halt hfreq, href]
    rfl
  refine ⟨by decide, by decide, by decide, by decide, by decide, by decide, by decide,
    { combined_handler [row_na] with _target_index := 8 },
    { freq_handler.new "vals".toList "meta".toList with
      _input := some [fr_0_20], _input_metadata := some [md_rs1] },
    by rfl, rfl, by rfl, hc0, hs0, ?_⟩
  obtain ⟨hs1, hs1eq⟩ := hs0
  rw [find_all_single_error _ ⟨1, 1000, id_rs1, ['A'], ['G']⟩ _ hc0,
    find_all_single_ok _ hs1 ⟨1, 1000, id_rs1, ['A'], ['G']⟩ _ hs1eq]
  simp

/-! ## What a call of `align` consumes -/

theorem align_loop_consumes (split : Bool) (chr pos : Nat) (id : Str) :
    ∀ (scan freqs : List Str) (nc np : Nat) (dup : Bool) (h : freq_handler) (x : align_exit),
      align_loop split chr pos id scan freqs nc np dup h = .ok x →
      ∃ pre, scan = pre ++ x.scan ∧
        (coord_le (nc, np) (chr, pos) → scan ≠ [] → pre ≠ []) := by
  intro scan
  induction scan with
  | nil =>
    intro freqs nc np dup h x hx
    simp only [align_loop, Except.ok.injEq] at hx
    subst hx
    exact ⟨[], rfl, fun _ hne => absurd rfl hne⟩
  | cons line scan ih =>
    intro freqs nc np dup h x hx
    unfold align_loop at hx
    by_cases hle : nc < chr ∨ (nc = chr ∧ np ≤ pos)
    · rw [if_pos hle] at hx
      cases hp : parse_ref_line line with
      | none => simp [hp] at hx
      | some r =>
        simp only [hp] at hx
        by_cases hid : id.length < 3
        · rw [if_pos hid] at hx; simp at hx
        · rw [if_neg hid] at hx
          by_cases heq : r.catcher = id.drop 3
          · rw [if_pos heq] at hx
            cases split with
            | true =>
              cases freqs with
              | nil =>
                simp only [↓reduceIte, Except.ok.injEq] at hx
                subst hx
                exact ⟨[line], rfl, fun _ _ => by simp⟩
              | cons freqline freqs =>
                cases hd : read_double freqline with
                | none => simp [hd] at hx
                | some res =>
                  simp only [↓reduceIte, hd, Except.ok.injEq] at hx
                  subst hx
                  exact ⟨[line], rfl, fun _ _ => by simp⟩
            | false =>
              cases hc : read_combined_freq h._target_index r.strm1 with
              | none => simp [hc] at hx
              | some f =>
                simp only [Bool.false_eq_true, ↓reduceIte, hc, Except.ok.injEq] at hx
                subst hx
                exact ⟨[line], rfl, fun _ _ => by simp⟩
          · rw [if_neg heq] at hx
            obtain ⟨pre, hpre, _⟩ := ih _ _ _ _ _ x hx
            exact ⟨line :: pre, by rw [hpre]; rfl, fun _ _ => by simp⟩
    · rw [if_neg hle] at hx
      simp only [Except.ok.injEq] at hx
      subst hx
      exact ⟨[], rfl, fun h1 _ => absurd h1 hle⟩

theorem unread_align_finish (split : Bool) (chr pos : Nat) (x : align_exit)
    (hsplit : x.h._input_metadata.isSome = split) :
    unread (align_finish split chr pos x).2 = x.scan := by
  cases split with
  | true =>
    cases hc : (!x.found && x.dup_position_failure) <;> simp [align_finish, unread, hc]
  | false =>
    have hm : x.h._input_metadata = none := by
      cases hx : x.h._input_metadata with
      | none => rfl
      | some md => rw [hx] at hsplit; simp at hsplit
    cases hc : (!x.found && x.dup_position_failure) <;> simp [align_finish, unread, hc, hm]

theorem align_loop_keeps_mode (split : Bool) (chr pos : Nat) (id : Str) :
    ∀ (scan freqs : List Str) (nc np : Nat) (dup : Bool) (h : freq_handler) (x : align_exit),
      align_loop split chr pos id scan freqs nc np dup h = .ok x →
      x.h._input_metadata = h._input_metadata ∧ x.h._target_index = h._target_index ∧
      x.h._metadata = h._metadata ∧ x.h.cerr = h.cerr := by
  intro scan
  induction scan with
  | nil =>
    intro freqs nc np dup h x hx
    simp only [align_loop, Except.ok.injEq] at hx
    subst hx
    exact ⟨rfl, rfl, rfl, rfl⟩
  | cons line scan ih =>
    intro freqs nc np dup h x hx
    unfold align_loop at hx
    by_cases hle : nc < chr ∨ (nc = chr ∧ np ≤ pos)
    · rw [if_pos hle] at hx
      cases hp : parse_ref_line line with
      | none => simp [hp] at hx
      | some r =>
        simp only [hp] at hx
        by_cases hid : id.length < 3
        · rw [if_pos hid] at hx; simp at hx
        · rw [if_neg hid] at hx
          by_cases heq : r.catcher = id.drop 3
          · rw [if_pos heq] at hx
            cases split with
            | true =>
              cases freqs with
              | nil =>
                simp only [↓reduceIte, Except.ok.injEq] at hx
                subst hx
                exact ⟨rfl, rfl, rfl, rfl⟩
              | cons freqline freqs =>
                cases hd : read_double freqline with
                | none => simp [hd] at hx
                | some res =>
                  simp only [↓reduceIte, hd, Except.ok.injEq] at hx
                  subst hx
                  exact ⟨rfl, rfl, rfl, rfl⟩
            | false =>
              cases hc : read_combined_freq h._target_index r.strm1 with
              | none => simp [hc] at hx
              | some f =>
                simp only [Bool.false_eq_true, ↓reduceIte, hc, Except.ok.injEq] at hx
                subst hx
                exact ⟨rfl, rfl, rfl, rfl⟩
          · rw [if_neg heq] at hx
            exact ih _ _ _ _ _ x hx
    · rw [if_neg hle] at hx
      simp only [Except.ok.injEq] at hx
      subst hx
      exact ⟨rfl, rfl, rfl, rfl⟩

theorem ready_of_align_ok (h h1 : freq_handler) (chr pos : Nat) (id : Str) (b : Bool)
    (hal : align h chr pos id = .ok (b, h1)) : ready h := by
  unfold align at hal
  unfold ready
  cases hi : h._input with
  | none => simp [hi] at hal
  | some input =>
    cases hm : h._input_metadata with
    | none =>
      simp only [hi, hm] at hal
      by_cases hmd : h._metadata = []
      · simp [hmd]
      · simp [hmd] at hal
    | some md => simp

theorem align_consumes (h h1 : freq_handler) (chr pos : Nat) (id : Str) (b : Bool)
    (hal : align h chr pos id = .ok (b, h1)) :
    ∃ pre, unread h = pre ++ unread h1 ∧ (unread h ≠ [] → pre ≠ []) := by
  have hr := ready_of_align_ok h h1 chr pos id b hal
  rw [align_eq h chr pos id hr] at hal
  cases hl : align_loop h._input_metadata.isSome chr pos id (unread h) (freq_lines h) 0 0 false h with
  | error e => simp [hl, Except.map] at hal
  | ok x =>
    simp only [hl, Except.map, Except.ok.injEq] at hal
    obtain ⟨pre, hpre, hne⟩ := align_loop_consumes _ chr pos id _ _ _ _ _ h x hl
    obtain ⟨hmode, _⟩ := align_loop_keeps_mode _ chr pos id _ _ _ _ _ h x hl
    have h1eq : h1 = (align_finish h._input_metadata.isSome chr pos x).2 := by rw [hal]
    refine ⟨pre, ?_, hne (coord_le_zero _)⟩
    rw [h1eq, unread_align_finish _ chr pos x (by rw [hmode]), ← hpre]

/-! ## Identifiers, unmapped rows and the header -/

/-- Claim C11 as amended, identifier comparison is exact.  `align`, and hence
`find`, succeeds only on a reference line whose identifier equals the query
identifier without its first 3 characters character for character: when no
unread line carries exactly that identifier, whatever lines equal it up to
letter case, `align` does not succeed and `find` does not match. -/
theorem identifier_comparison_exact (h : freq_handler) (chr pos : Nat) (id : Str)
    (hexact : ∀ l ∈ unread h, line_id l ≠ some (id.drop 3)) :
    (∀ h1, align h chr pos id ≠ .ok (true, h1)) ∧
    (∀ a1 a2 v h1, find h chr pos id a1 a2 ≠ .ok ((true, v), h1)) := by
  have key : ∀ h1, align h chr pos id ≠ .ok (true, h1) := by
    intro h1 hal
    obtain ⟨_, _, pre, line, r, f, hun, hp, hrid, _⟩ := align_found_inv h h1 chr pos id hal
    apply hexact line (by rw [hun]; simp)
    simp [line_id, hp, hrid]
  refine ⟨key, ?_⟩
  intro a1 a2 v h1 hfind
  exact key h1 (find_true_inv h h1 chr pos id a1 a2 v hfind).1

/-- Counterexample to claim C11 as stated: the reference line carries the
identifier `RS1`, the query `xx:rs1`; the two identifiers agree up to letter
case, yet `find` returns no-match, while it matches the line spelled `rs1`. -/
theorem identifier_case_counterexample :
    same_up_to_case "RS1".toList (id_rs1.drop 3) ∧
    find (combined_handler [row_RS1]) 1 1000 id_rs1 ['A'] ['G'] =
      .ok ((false, -1), { combined_handler [] with cerr := [(1, 1000)] }) ∧
    find (combined_handler [row_rs1]) 1 1000 id_rs1 ['A'] ['G'] =
      .ok ((true, 1 / 5), matched (combined_handler [row_rs1]) [] 1 1000 ['A'] ['G'] (1 / 5)) := by
  refine ⟨by decide, by rfl, ?_⟩
  apply find_eval
  · exact align_combined_first (combined_handler [row_rs1]) 1 1000 id_rs1 row_rs1 [] _ (1 / 5)
      rfl rfl rfl (by decide) parse_row_rs1 (by decide) freq_0_20
  · rfl

/-- Witness of claim C11 as amended: the only unread line carries `RS1`, not
`rs1`, so the query `xx:rs1` does not succeed. -/
theorem identifier_comparison_exact_witness :
    (∀ l ∈ unread (combined_handler [row_RS1]), line_id l ≠ some (id_rs1.drop 3)) ∧
    (∀ h1, align (combined_handler [row_RS1]) 1 1000 id_rs1 ≠ .ok (true, h1)) ∧
    (∀ a1 a2 v h1,
      find (combined_handler [row_RS1]) 1 1000 id_rs1 a1 a2 ≠ .ok ((true, v), h1)) := by
  have hex : ∀ l ∈ unread (combined_handler [row_RS1]), line_id l ≠ some (id_rs1.drop 3) := by
    intro l hl
    have hl1 : l = row_RS1 := by simpa [unread, combined_handler] using hl
    subst hl1
    decide
  exact ⟨hex, identifier_comparison_exact (combined_handler [row_RS1]) 1 1000 id_rs1 hex⟩

theorem process_rows_length (fmt : ℚ → Str) (input : List Str) :
    ∀ h : freq_handler, (process_rows fmt input h).error = none →
      (process_rows fmt input h).output.length = input.length := by
  induction input with
  | nil => intro h _; rfl
  | cons line input ih =>
    intro h herr
    unfold process_rows at herr ⊢
    cases hp : parse_input_row line with
    | none => simp [hp] at herr
    | some r =>
      simp only [hp] at herr ⊢
      cases hf : driver_find h r with
      | error e => simp [hf] at herr
      | ok res =>
        obtain ⟨⟨b, v⟩, h1⟩ := res
        cases b with
        | true =>
          simp only [hf] at herr ⊢
          simp only [List.length_cons]
          rw [ih h1 herr]
        | false =>
          simp only [hf] at herr ⊢
          simp only [List.length_cons]
          rw [ih h1 herr]

/-- Claim C14, header passthrough.  On a non-empty input file and a run that
does not fail, the first output line is the first input line, character for
character; the rows parsed and passed to `find` are the lines after it only;
and the output has exactly one line per input line. -/
theorem header_passthrough (fs : Files) (fmt : ℚ → Str)
    (input_filename freq_filename freq_metadata supercontinent first : Str) (rest : List Str)
    (hin : fs input_filename = some (first :: rest))
    (hok : (process_file fs fmt input_filename freq_filename freq_metadata
      supercontinent).error = none) :
    ∃ freq, initialise fs (freq_handler.new freq_filename freq_metadata) supercontinent =
        .ok freq ∧
      (process_file fs fmt input_filename freq_filename freq_metadata supercontinent).output =
        first :: (process_rows fmt rest freq).output ∧
      (process_file fs fmt input_filename freq_filename freq_metadata
        supercontinent).output.length = (first :: rest).length := by
  unfold process_file at hok ⊢
  cases hi : initialise fs (freq_handler.new freq_filename freq_metadata) supercontinent with
  | error e => simp [hi] at hok
  | ok freq =>
    simp only [hi, reconcile_reader, hin, List.tail_cons, List.headD_cons] at hok ⊢
    refine ⟨freq, rfl, rfl, ?_⟩
    simp only [List.length_cons]
    rw [process_rows_length fmt rest freq hok]

/-- Witness of claim C14: the run of the worked example on an input file of a
header line and one row. -/
theorem header_passthrough_witness :
    example_run_files "in".toList =
      some ("CHR POS ID A1 A2 FRQ BETA SE P N".toList :: [input_rs1]) ∧
    (process_file example_run_files (fun _ => "NA".toList) "in".toList "freq".toList []
      "EUR".toList).error = none ∧
    ∃ freq, initialise example_run_files (freq_handler.new "freq".toList []) "EUR".toList =
        .ok freq ∧
      (process_file example_run_files (fun _ => "NA".toList) "in".toList "freq".toList []
        "EUR".toList).output =
        "CHR POS ID A1 A2 FRQ BETA SE P N".toList ::
          (process_rows (fun _ => "NA".toList) [input_rs1] freq).output ∧
      (process_file example_run_files (fun _ => "NA".toList) "in".toList "freq".toList []
        "EUR".toList).output.length =
        ("CHR POS ID A1 A2 FRQ BETA SE P N".toList :: [input_rs1]).length :=
  ⟨by decide, by rfl,
    header_passthrough example_run_files (fun _ => "NA".toList) "in".toList "freq".toList []
      "EUR".toList "CHR POS ID A1 A2 FRQ BETA SE P N".toList [input_rs1] (by decide) (by rfl)⟩

/-! ## Lost lines and short identifiers -/

theorem align_exhausted (h : freq_handler) (chr pos : Nat) (id : Str)
    (hready : ready h) (hun : unread h = []) :
    ∃ h1, align h chr pos id = .ok (false, h1) ∧ unread h1 = [] := by
  rw [align_eq h chr pos id hready, hun]
  have hl : align_loop h._input_metadata.isSome chr pos id [] (freq_lines h) 0 0 false h =
      .ok ⟨false, false, [], freq_lines h, h⟩ := by simp [align_loop]
  rw [hl]
  exact ⟨(align_finish h._input_metadata.isSome chr pos ⟨false, false, [], freq_lines h, h⟩).2,
    rfl, unread_align_finish _ chr pos _ rfl⟩

/-- Claim C19, the overshoot line is lost.  Every `align` call that returns
on a stream that is not exhausted consumes at least one reference line, the
scan coordinate starting at `(0, 0)` in each call; the lines it consumed are
gone for every later query, whose match can only be a line that was left
unread.  For the sorted reference `rsA (1, 100)`, `rsB (1, 200)` the query at
`(1, 150)` with an absent identifier consumes both lines and returns
no-match, and the query at `(1, 200)` with the identifier of `rsB` that
follows returns no-match too. -/
theorem overshoot_line_lost (h h1 : freq_handler) (chr pos : Nat) (id : Str) (b : Bool)
    (hal : align h chr pos id = .ok (b, h1)) (hne : unread h ≠ []) :
    (∃ pre, pre ≠ [] ∧ unread h = pre ++ unread h1) ∧
    (∀ chr2 pos2 id2 a1 a2 v h2, find h1 chr2 pos2 id2 a1 a2 = .ok ((true, v), h2) →
      ∃ pre2 line, unread h1 = pre2 ++ line :: unread h2 ∧ line_id line = some (id2.drop 3)) ∧
    (find (combined_handler [row_100, row_200]) 1 150 id_rs9 ['A'] ['G'] =
        .ok ((false, -1), combined_handler []) ∧
      find (combined_handler []) 1 200 id_rsB ['A'] ['G'] =
        .ok ((false, -1), combined_handler [])) := by
  obtain ⟨pre, hpre, hpne⟩ := align_consumes h h1 chr pos id b hal
  refine ⟨⟨pre, hpne hne, hpre⟩, ?_, by rfl, by rfl⟩
  intro chr2 pos2 id2 a1 a2 v h2 hfind
  obtain ⟨hal2, _⟩ := find_true_inv h1 h2 chr2 pos2 id2 a1 a2 v hfind
  obtain ⟨_, _, pre2, line, r, f, hun, hp, hrid, _⟩ := align_found_inv h1 h2 chr2 pos2 id2 hal2
  exact ⟨pre2, line, hun, by simp [line_id, hp, hrid]⟩

theorem align_overshoot_example :
    align (combined_handler [row_100, row_200]) 1 150 id_rs9 =
      .ok (false, combined_handler []) := by rfl

/-- Witness of claim C19: the query at `(1, 150)` on the reference
`rsA (1, 100)`, `rsB (1, 200)`. -/
theorem overshoot_line_lost_witness :
    align (combined_handler [row_100, row_200]) 1 150 id_rs9 =
      .ok (false, combined_handler []) ∧
    unread (combined_handler [row_100, row_200]) ≠ [] ∧
    (∃ pre, pre ≠ [] ∧
      unread (combined_handler [row_100, row_200]) = pre ++ unread (combined_handler [])) ∧
    find (combined_handler []) 1 200 id_rsB ['A'] ['G'] =
      .ok ((false, -1), combined_handler []) :=
  ⟨align_overshoot_example, by decide,
    (overshoot_line_lost (combined_handler [row_100, row_200]) (combined_handler []) 1 150 id_rs9
      false align_overshoot_example (by decide)).1,
    (overshoot_line_lost (combined_handler [row_100, row_200]) (combined_handler []) 1 150 id_rs9
      false align_overshoot_example (by decide)).2.2.2⟩

/-- Claim C20, short identifiers are an error.  On a handler whose next
unread line parses, every query whose identifier has fewer than 3 characters
ends `align`, `find` and the driver's loop with the `std::out_of_range` of the
prefix stripping, which is no `std::domain_error` and which `main` does not
catch; it is neither a no-match nor a parse error.  On an exhausted reference
the same query returns no-match. -/
theorem short_identifier_error (h : freq_handler) (line : Str) (rest : List Str) (r : ref_line)
    (hready : ready h) (hun : unread h = line :: rest)
    (hp : parse_ref_line line = some r) :
    (∀ (chr pos : Nat) (id a1 a2 : Str), id.length < 3 →
      align h chr pos id = .error .out_of_range ∧
      find h chr pos id a1 a2 = .error .out_of_range) ∧
    (∀ (fmt : ℚ → Str) (row : Str) (input : List Str) (rw : input_row),
      parse_input_row row = some rw → rw.id.length < 3 →
      process_rows fmt (row :: input) h = ⟨[], some .out_of_range⟩) ∧
    Err.is_domain_error .out_of_range = false ∧
    Err.is_parse_error .out_of_range = false ∧
    main_exit_code ⟨[], some .out_of_range⟩ = none ∧
    (∀ (g : freq_handler) (chr pos : Nat) (id a1 a2 : Str), ready g → unread g = [] →
      ∃ g1, align g chr pos id = .ok (false, g1) ∧
        find g chr pos id a1 a2 = .ok ((false, -1), g1)) := by
  have key : ∀ (chr pos : Nat) (id : Str), id.length < 3 →
      align h chr pos id = .error .out_of_range := by
    intro chr pos id hid
    rw [align_eq h chr pos id hready, hun]
    have hle : (0 : Nat) < chr ∨ ((0 : Nat) = chr ∧ 0 ≤ pos) := coord_le_zero (chr, pos)
    simp only [align_loop]
    rw [if_pos hle]
    simp [hp, hid, Except.map]
  have kfind : ∀ (chr pos : Nat) (id a1 a2 : Str), id.length < 3 →
      find h chr pos id a1 a2 = .error .out_of_range := by
    intro chr pos id a1 a2 hid
    simp [find, key chr pos id hid]
  refine ⟨fun chr pos id a1 a2 hid => ⟨key chr pos id hid, kfind chr pos id a1 a2 hid⟩, ?_,
    rfl, rfl, rfl, ?_⟩
  · intro fmt row input rw hrow hid
    simp [process_rows, hrow, driver_find, kfind rw.chr rw.pos rw.id rw.a2 rw.a1 hid]
  · intro g chr pos id a1 a2 hg hgun
    obtain ⟨g1, hal, _⟩ := align_exhausted g chr pos id hg hgun
    exact ⟨g1, hal, find_of_align_false g g1 chr pos id a1 a2 hal⟩

/-- Witness of claim C20: the worked example queried with the identifier `rs`. -/
theorem short_identifier_error_witness :
    ready (combined_handler [row_rs1]) ∧
    unread (combined_handler [row_rs1]) = row_rs1 :: [] ∧
    parse_ref_line row_rs1 =
      some ⟨"rs1".toList, 1, 1000, ['A'], ['G'], " 0.10 0.20".toList⟩ ∧
    align (combined_handler [row_rs1]) 1 1000 "rs".toList = .error .out_of_range ∧
    find (combined_handler [row_rs1]) 1 1000 "rs".toList ['A'] ['G'] = .error .out_of_range :=
  ⟨ready_combined _, rfl, parse_row_rs1,
    ((short_identifier_error (combined_handler [row_rs1]) row_rs1 [] _ (ready_combined _) rfl
      parse_row_rs1).1 1 1000 "rs".toList ['A'] ['G'] (by decide)).1,
    ((short_identifier_error (combined_handler [row_rs1]) row_rs1 [] _ (ready_combined _) rfl
      parse_row_rs1).1 1 1000 "rs".toList ['A'] ['G'] (by decide)).2⟩

/-! ## The exact scan -/

theorem align_loop_exact (split : Bool) (chr pos : Nat) (id : Str) (hid : 3 ≤ id.length) :
    ∀ (scan freqs : List Str) (nc np : Nat) (dup : Bool) (h : freq_handler),
      coord_le (nc, np) (chr, pos) →
      (∀ (n : Nat) (l : Str), scan[n]? = some l → ∃ r, parse_ref_line l = some r ∧
        (split = false → ∃ f, read_combined_freq h._target_index r.strm1 = some f) ∧
        (split = true → ∃ (fl : Str) (f : ℚ) (rest : Str), freqs[n]? = some fl ∧ read_double fl = some (f, rest))) →
      (∃ (m : Nat) (line : Str) (r : ref_line) (f : ℚ) (x : align_exit),
        first_identified (id.drop 3) scan = some m ∧ m ≤ first_passing chr pos scan ∧
        align_loop split chr pos id scan freqs nc np dup h = .ok x ∧ x.found = true ∧
        x.scan = scan.drop (m + 1) ∧ scan[m]? = some line ∧ parse_ref_line line = some r ∧
        x.h = with_record h r.next_chr r.next_pos r.ref r.alt f ∧
        (split = false → read_combined_freq h._target_index r.strm1 = some f) ∧
        (split = true → ∃ (fl rest : Str), freqs[m]? = some fl ∧ read_double fl = some (f, rest))) ∨
      ((∀ m, first_identified (id.drop 3) scan = some m → first_passing chr pos scan < m) ∧
        ∃ x : align_exit, align_loop split chr pos id scan freqs nc np dup h = .ok x ∧
          x.found = false ∧ x.scan = scan.drop (first_passing chr pos scan + 1) ∧ x.h = h) := by
  intro scan
  induction scan with
  | nil =>
    intro freqs nc np dup h _ _
    right
    refine ⟨by simp [first_identified], ⟨false, dup, [], freqs, h⟩, by simp [align_loop], rfl, rfl,
      rfl⟩
  | cons line scan ih =>
    intro freqs nc np dup h hle hwf
    obtain ⟨r, hp, hc, hs⟩ := hwf 0 line List.getElem?_cons_zero
    by_cases heq : r.catcher = id.drop 3
    · left
      have hfi : first_identified (id.drop 3) (line :: scan) = some 0 := by
        simp [first_identified, line_id, hp, heq]
      cases split with
      | false =>
        obtain ⟨f, hf⟩ := hc rfl
        exact ⟨0, line, r, f, _, hfi, Nat.zero_le _,
          align_loop_hit_combined chr pos id line scan freqs nc np dup h r f hle hid hp heq hf,
          rfl, rfl, List.getElem?_cons_zero, hp, rfl, fun _ => hf, fun hh => Bool.noConfusion hh⟩
      | true =>
        obtain ⟨fl, f, rest, hfl, hrd⟩ := hs rfl
        cases freqs with
        | nil => simp at hfl
        | cons fl0 freqs =>
          simp only [List.getElem?_cons_zero, Option.some.injEq] at hfl
          subst hfl
          exact ⟨0, line, r, f, _, hfi, Nat.zero_le _,
            align_loop_hit_split chr pos id line fl0 scan freqs nc np dup h r f rest hle hid hp heq
              hrd,
            rfl, rfl, List.getElem?_cons_zero, hp, rfl, fun hh => Bool.noConfusion hh,
            fun _ => ⟨fl0, rest, List.getElem?_cons_zero, hrd⟩⟩
    · have hfi : first_identified (id.drop 3) (line :: scan) =
          (first_identified (id.drop 3) scan).map (· + 1) := by
        simp [first_identified, line_id, hp, heq]
      have hmiss := align_loop_miss split chr pos id line scan freqs nc np dup h r hle hid hp heq
      by_cases hrle : coord_le (r.next_chr, r.next_pos) (chr, pos)
      · have hfp : first_passing chr pos (line :: scan) = first_passing chr pos scan + 1 := by
          simp [first_passing, line_coord, hp, hrle]
        have hwf1 : ∀ (n : Nat) (l : Str), scan[n]? = some l → ∃ r, parse_ref_line l = some r ∧
            (split = false → ∃ f, read_combined_freq h._target_index r.strm1 = some f) ∧
            (split = true → ∃ (fl : Str) (f : ℚ) (rest : Str), (if split = true then freqs.tail else freqs)[n]? = some fl ∧
              read_double fl = some (f, rest)) := by
          intro n l hn
          obtain ⟨r1, hp1, hc1, hs1⟩ := hwf (n + 1) l (by simpa using hn)
          refine ⟨r1, hp1, hc1, ?_⟩
          intro hsp
          obtain ⟨fl, f, rest, hfl, hrd⟩ := hs1 hsp
          refine ⟨fl, f, rest, ?_, hrd⟩
          rw [if_pos hsp, List.getElem?_tail]
          exact hfl
        rcases ih (if split = true then freqs.tail else freqs) r.next_chr r.next_pos
          (dup || (r.next_chr == chr && r.next_pos == pos)) h hrle hwf1 with
          ⟨m, l1, r1, f, x, hm, hmp, hx, hfound, hscan, hget, hp1, hxh, hcf, hsf⟩ |
          ⟨hnone, x, hx, hfound, hscan, hxh⟩
        · left
          refine ⟨m + 1, l1, r1, f, x, by rw [hfi, hm]; rfl, by rw [hfp]; omega, by rw [hmiss, hx],
            hfound, by rw [hscan]; rfl, by simpa using hget, hp1, hxh, hcf, ?_⟩
          intro hsp
          obtain ⟨fl, rest, hfl, hrd⟩ := hsf hsp
          refine ⟨fl, rest, ?_, hrd⟩
          rw [if_pos hsp, List.getElem?_tail] at hfl
          exact hfl
        · right
          refine ⟨?_, x, by rw [hmiss, hx], hfound, by rw [hscan, hfp]; rfl, hxh⟩
          intro m hm
          rw [hfi] at hm
          cases hfs : first_identified (id.drop 3) scan with
          | none => rw [hfs] at hm; simp at hm
          | some m1 =>
            rw [hfs] at hm
            simp only [Option.map_some', Option.some.injEq] at hm
            have := hnone m1 hfs
            rw [hfp]
            omega
      · right
        have hfp : first_passing chr pos (line :: scan) = 0 := by
          simp [first_passing, line_coord, hp, hrle]
        refine ⟨?_, ⟨false, dup || (r.next_chr == chr && r.next_pos == pos), scan,
          if split = true then freqs.tail else freqs, h⟩, ?_, rfl, by rw [hfp]; rfl, rfl⟩
        · intro m hm
          rw [hfi] at hm
          cases hfs : first_identified (id.drop 3) scan with
          | none => rw [hfs] at hm; simp at hm
          | some m1 =>
            rw [hfs] at hm
            simp only [Option.map_some', Option.some.injEq] at hm
            rw [hfp]
            omega
        · rw [hmiss]
          exact align_loop_stop split chr pos id scan _ _ _ _ h hrle

end AnnotateFrequency
namespace AnnotateFrequency

theorem align_finish_found (split : Bool) (chr pos : Nat) (x : align_exit)
    (hfound : x.found = true) :
    (align_finish split chr pos x).1 = true ∧
    (align_finish split chr pos x).2._chr = x.h._chr ∧
    (align_finish split chr pos x).2._pos = x.h._pos ∧
    (align_finish split chr pos x).2._ref = x.h._ref ∧
    (align_finish split chr pos x).2._alt = x.h._alt ∧
    (align_finish split chr pos x).2._freq = x.h._freq := by
  cases split <;> simp [align_finish, hfound]

/-- Claim C17, the exact scan of `align`.  On a well-formed unread reference
`L` and for a query whose identifier has at least 3 characters, let `p` be
the index of the first line of `L` with a coordinate strictly greater than
`(chr, pos)` (the length of `L` when there is none) and `m` the index of the
first line whose identifier equals the query identifier without its first 3
characters.  `align` returns; it succeeds if and only if `m` exists and
`m ≤ p`; on success it has consumed the lines `0..m` and stores chromosome,
position, reference allele, alternate allele and frequency of line `m`; on
failure it has consumed the lines `0..p`, the whole stream when no line passes
the target. -/
theorem align_exact_scan (h : freq_handler) (chr pos : Nat) (id : Str)
    (hready : ready h) (hwf : well_formed h) (hid : 3 ≤ id.length) :
    ∃ b h1, align h chr pos id = .ok (b, h1) ∧
      (b = true ↔ ∃ m, first_identified (id.drop 3) (unread h) = some m ∧
        m ≤ first_passing chr pos (unread h)) ∧
      (b = true → ∃ (m : Nat) (line : Str) (r : ref_line) (f : ℚ),
        first_identified (id.drop 3) (unread h) = some m ∧
        unread h1 = (unread h).drop (m + 1) ∧ (unread h)[m]? = some line ∧
        parse_ref_line line = some r ∧ supplied_freq h m r = some f ∧
        h1._chr = r.next_chr ∧ h1._pos = r.next_pos ∧ h1._ref = r.ref ∧ h1._alt = [r.alt] ∧
        h1._freq = [f]) ∧
      (b = false → unread h1 = (unread h).drop (first_passing chr pos (unread h) + 1)) := by
  have hloopwf : ∀ (n : Nat) (l : Str), (unread h)[n]? = some l → ∃ r, parse_ref_line l = some r ∧
      (h._input_metadata.isSome = false →
        ∃ f, read_combined_freq h._target_index r.strm1 = some f) ∧
      (h._input_metadata.isSome = true → ∃ (fl : Str) (f : ℚ) (rest : Str),
        (freq_lines h)[n]? = some fl ∧ read_double fl = some (f, rest)) := by
    intro n l hn
    obtain ⟨r, hp, hsome⟩ := hwf n l hn
    refine ⟨r, hp, ?_, ?_⟩
    · intro hm
      cases hmd : h._input_metadata with
      | some md => rw [hmd] at hm; simp at hm
      | none =>
        simp only [supplied_freq, hmd] at hsome
        exact Option.isSome_iff_exists.1 hsome
    · intro hm
      cases hmd : h._input_metadata with
      | none => rw [hmd] at hm; simp at hm
      | some md =>
        simp only [supplied_freq, hmd] at hsome
        cases hfl : (freq_lines h)[n]? with
        | none => simp [hfl] at hsome
        | some fl =>
          simp only [hfl] at hsome
          cases hrd : read_double fl with
          | none => simp [hrd] at hsome
          | some res => exact ⟨fl, res.1, res.2, rfl, hrd⟩
  rw [align_eq h chr pos id hready]
  rcases align_loop_exact h._input_metadata.isSome chr pos id hid (unread h) (freq_lines h) 0 0
    false h (coord_le_zero _) hloopwf with
    ⟨m, line, r, f, x, hm, hmp, hx, hfound, hscan, hget, hp, hxh, hcf, hsf⟩ |
    ⟨hnone, x, hx, hfound, hscan, hxh⟩
  · obtain ⟨a1, a2, a3, a4, a5, a6⟩ :=
      align_finish_found h._input_metadata.isSome chr pos x hfound
    have hmode : x.h._input_metadata.isSome = h._input_metadata.isSome := by
      rw [hxh]; rfl
    refine ⟨true, (align_finish h._input_metadata.isSome chr pos x).2, ?_, ?_, ?_, ?_⟩
    · rw [hx]
      simp only [Except.map]
      rw [← a1]
    · exact ⟨fun _ => ⟨m, hm, hmp⟩, fun _ => rfl⟩
    · intro _
      refine ⟨m, line, r, f, hm, ?_, hget, hp, ?_, ?_, ?_, ?_, ?_, ?_⟩
      · rw [unread_align_finish _ chr pos x hmode, hscan]
      · cases hmd : h._input_metadata with
        | none =>
          simp only [supplied_freq, hmd]
          exact hcf (by rw [hmd]; rfl)
        | some md =>
          obtain ⟨fl, rest, hfl, hrd⟩ := hsf (by rw [hmd]; rfl)
          simp [supplied_freq, hmd, hfl, hrd]
      · rw [a2, hxh]; rfl
      · rw [a3, hxh]; rfl
      · rw [a4, hxh]; rfl
      · rw [a5, hxh]; rfl
      · rw [a6, hxh]; rfl
    · intro hb; exact Bool.noConfusion hb
  · have hmode : x.h._input_metadata.isSome = h._input_metadata.isSome := by
      rw [hxh]
    refine ⟨false, (align_finish h._input_metadata.isSome chr pos x).2, ?_, ?_, ?_, ?_⟩
    · rw [hx]
      simp only [Except.map]
      have : (align_finish h._input_metadata.isSome chr pos x).1 = false := by
        simp [align_finish, hfound]
      rw [← this]
    · constructor
      · intro hb; exact Bool.noConfusion hb
      · rintro ⟨m, hm, hmp⟩
        have := hnone m hm
        omega
    · intro hb; exact Bool.noConfusion hb
    · intro _
      rw [unread_align_finish _ chr pos x hmode, hscan]

/-! ## Parse errors of the reference -/

theorem well_formed_rs0_rs1 : well_formed (combined_handler [row_rs0, row_rs1]) := by
  apply well_formed_combined
  intro l hl
  simp only [List.mem_cons, List.mem_singleton, List.not_mem_nil, or_false] at hl
  rcases hl with rfl | rfl
  · exact ⟨_, parse_row_rs0, freq_0_60⟩
  · exact ⟨_, parse_row_rs1, by rw [freq_0_20]; rfl⟩

/-- Witness of claim C17: the reference `rs0 (1, 900)`, `rs1 (1, 1000)`
queried at `(1, 1000)` for `rs1`. -/
theorem align_exact_scan_witness :
    ready (combined_handler [row_rs0, row_rs1]) ∧
    well_formed (combined_handler [row_rs0, row_rs1]) ∧ 3 ≤ id_rs1.length ∧
    ∃ b h1, align (combined_handler [row_rs0, row_rs1]) 1 1000 id_rs1 = .ok (b, h1) ∧
      (b = true ↔ ∃ m,
        first_identified (id_rs1.drop 3) (unread (combined_handler [row_rs0, row_rs1])) = some m ∧
        m ≤ first_passing 1 1000 (unread (combined_handler [row_rs0, row_rs1]))) ∧
      (b = true → ∃ (m : Nat) (line : Str) (r : ref_line) (f : ℚ),
        first_identified (id_rs1.drop 3) (unread (combined_handler [row_rs0, row_rs1])) = some m ∧
        unread h1 = (unread (combined_handler [row_rs0, row_rs1])).drop (m + 1) ∧
        (unread (combined_handler [row_rs0, row_rs1]))[m]? = some line ∧
        parse_ref_line line = some r ∧
        supplied_freq (combined_handler [row_rs0, row_rs1]) m r = some f ∧
        h1._chr = r.next_chr ∧ h1._pos = r.next_pos ∧ h1._ref = r.ref ∧ h1._alt = [r.alt] ∧
        h1._freq = [f]) ∧
      (b = false → unread h1 = (unread (combined_handler [row_rs0, row_rs1])).drop
        (first_passing 1 1000 (unread (combined_handler [row_rs0, row_rs1])) + 1)) :=
  ⟨ready_combined _, well_formed_rs0_rs1, by decide,
    align_exact_scan (combined_handler [row_rs0, row_rs1]) 1 1000 id_rs1 (ready_combined _)
      well_formed_rs0_rs1 (by decide)⟩

theorem align_loop_error_inv (split : Bool) (chr pos : Nat) (id : Str) :
    ∀ (scan freqs : List Str) (nc np : Nat) (dup : Bool) (h : freq_handler) (e : Err),
      3 ≤ id.length →
      align_loop split chr pos id scan freqs nc np dup h = .error e →
      ∃ (pre : List Str) (line : Str) (rest : List Str), scan = pre ++ line :: rest ∧
        scan_passes chr pos (id.drop 3) pre ∧
        ((parse_ref_line line = none ∧ e = .parse_frequency_file line) ∨
          ∃ r, parse_ref_line line = some r ∧ r.catcher = id.drop 3 ∧
            ((split = false ∧ read_combined_freq h._target_index r.strm1 = none ∧
                e = .parse_frequency line) ∨
              (split = true ∧ ∃ fl, (if split = true then freqs.drop pre.length else freqs)[0]? =
                some fl ∧ read_double fl = none ∧ e = .parse_split_file fl))) := by
  intro scan
  induction scan with
  | nil =>
    intro freqs nc np dup h e _ he
    simp [align_loop] at he
  | cons line scan ih =>
    intro freqs nc np dup h e hid he
    unfold align_loop at he
    by_cases hle : nc < chr ∨ (nc = chr ∧ np ≤ pos)
    · rw [if_pos hle] at he
      cases hp : parse_ref_line line with
      | none =>
        simp only [hp, Except.error.injEq] at he
        exact ⟨[], line, scan, rfl, fun l hl => absurd hl (List.not_mem_nil l),
          Or.inl ⟨hp, he.symm⟩⟩
      | some r =>
        simp only [hp] at he
        rw [if_neg (by omega)] at he
        by_cases heq : r.catcher = id.drop 3
        · rw [if_pos heq] at he
          refine ⟨[], line, scan, rfl, fun l hl => absurd hl (List.not_mem_nil l),
            Or.inr ⟨r, hp, heq, ?_⟩⟩
          cases split with
          | true =>
            cases freqs with
            | nil => simp at he
            | cons freqline freqs =>
              cases hd : read_double freqline with
              | some res => simp [hd] at he
              | none =>
                simp only [↓reduceIte, hd, Except.error.injEq] at he
                exact Or.inr ⟨rfl, freqline, by simp, hd, he.symm⟩
          | false =>
            cases hc : read_combined_freq h._target_index r.strm1 with
            | some f => simp [hc] at he
            | none =>
              simp only [Bool.false_eq_true, ↓reduceIte, hc, Except.error.injEq] at he
              exact Or.inl ⟨rfl, rfl, he.symm⟩
        · rw [if_neg heq] at he
          have hrle : coord_le (r.next_chr, r.next_pos) (chr, pos) := by
            by_contra hgt
            rw [align_loop_stop split chr pos id scan _ _ _ _ h hgt] at he
            exact Except.noConfusion he
          obtain ⟨pre, l1, rest, hscan, hpass, hfail⟩ := ih _ _ _ _ h e hid he
          refine ⟨line :: pre, l1, rest, by rw [hscan]; rfl, ?_, ?_⟩
          · intro l hl
            rcases List.mem_cons.1 hl with rfl | hl
            · exact ⟨r, hp, heq, hrle⟩
            · exact hpass l hl
          · rcases hfail with hf | ⟨r1, hp1, heq1, hf⟩
            · exact Or.inl hf
            · refine Or.inr ⟨r1, hp1, heq1, ?_⟩
              rcases hf with hf | ⟨hsp, fl, hfl, hrd, hee⟩
              · exact Or.inl hf
              · refine Or.inr ⟨hsp, fl, ?_, hrd, hee⟩
                subst hsp
                simpa using hfl
    · rw [if_neg hle] at he
      exact Except.noConfusion he

theorem align_loop_error_of (split : Bool) (chr pos : Nat) (id : Str) (hid : 3 ≤ id.length)
    (pre : List Str) (line : Str) (rest freqs : List Str) (nc np : Nat) (dup : Bool)
    (h : freq_handler) (hle : coord_le (nc, np) (chr, pos))
    (hpass : scan_passes chr pos (id.drop 3) pre)
    (hfail : parse_ref_line line = none ∨
      ∃ r, parse_ref_line line = some r ∧ r.catcher = id.drop 3 ∧
        ((split = false ∧ read_combined_freq h._target_index r.strm1 = none) ∨
          (split = true ∧ ∃ fl, freqs[pre.length]? = some fl ∧ read_double fl = none))) :
    ∃ e, align_loop split chr pos id (pre ++ line :: rest) freqs nc np dup h = .error e ∧
      e.is_parse_error = true := by
  obtain ⟨nc1, np1, hle1, hskip⟩ :=
    align_loop_skip split chr pos id hid pre (line :: rest) freqs nc np dup h hle hpass
  rw [hskip]
  unfold coord_le at hle1
  unfold align_loop
  rw [if_pos hle1]
  rcases hfail with hp | ⟨r, hp, heq, hf⟩
  · exact ⟨.parse_frequency_file line, by simp [hp], rfl⟩
  · simp only [hp]
    rw [if_neg (by omega), if_pos heq]
    rcases hf with ⟨hsp, hc⟩ | ⟨hsp, fl, hfl, hrd⟩
    · subst hsp
      exact ⟨.parse_frequency line, by simp [hc], rfl⟩
    · subst hsp
      have hlt : pre.length < freqs.length := by
        by_contra hge
        rw [List.getElem?_eq_none (by omega)] at hfl
        exact Option.noConfusion hfl
      rw [List.getElem?_eq_getElem hlt] at hfl
      simp only [Option.some.injEq] at hfl
      simp only [↓reduceIte]
      rw [List.drop_eq_getElem_cons hlt, hfl]
      exact ⟨.parse_split_file fl, by simp [hrd], rfl⟩

/-- Claim C16 as amended, parse errors of the reference.  For a query whose
identifier has at least 3 characters, `align` on an initialised handler throws
if and only if, before the scan ends, it reads a reference line from which the
five fields (string, unsigned, unsigned, string, string) cannot be extracted,
or the line that carries the identifier cannot supply the frequency: in
combined mode the sixth field and the numbers up to the target column cannot
be extracted from the rest of the line, in split mode no number can be
extracted from the start of the paired frequency line.  A number is extracted
from a floating literal in the range of a `double`, so a literal such as
`1e999` fails like a token that is no number.  What `align` throws is then a
parse error. -/
theorem reference_parse_errors (h : freq_handler) (chr pos : Nat) (id : Str)
    (hready : ready h) (hid : 3 ≤ id.length) :
    ((∃ e, align h chr pos id = .error e) ↔
      ∃ (pre : List Str) (line : Str) (rest : List Str), unread h = pre ++ line :: rest ∧
        scan_passes chr pos (id.drop 3) pre ∧ line_fails h (id.drop 3) pre.length line) ∧
    (∀ e, align h chr pos id = .error e → e.is_parse_error = true) := by
  rw [align_eq h chr pos id hready]
  have hmap : ∀ e, (align_loop h._input_metadata.isSome chr pos id (unread h) (freq_lines h)
      0 0 false h).map (align_finish h._input_metadata.isSome chr pos) = .error e ↔
      align_loop h._input_metadata.isSome chr pos id (unread h) (freq_lines h) 0 0 false h =
        .error e := by
    intro e
    cases align_loop h._input_metadata.isSome chr pos id (unread h) (freq_lines h) 0 0 false h with
    | error e1 => simp [Except.map]
    | ok x => simp [Except.map]
  have hback : (∃ (pre : List Str) (line : Str) (rest : List Str),
      unread h = pre ++ line :: rest ∧
      scan_passes chr pos (id.drop 3) pre ∧ line_fails h (id.drop 3) pre.length line) →
      ∃ e, align_loop h._input_metadata.isSome chr pos id (unread h) (freq_lines h) 0 0 false h =
        .error e ∧ e.is_parse_error = true := by
    rintro ⟨pre, line, rest, hun, hpass, hfail⟩
    rw [hun]
    apply align_loop_error_of _ chr pos id hid pre line rest _ 0 0 false h (coord_le_zero _) hpass
    rcases hfail with hp | ⟨r, hp, heq, hf⟩
    · exact Or.inl hp
    · refine Or.inr ⟨r, hp, heq, ?_⟩
      cases hmd : h._input_metadata with
      | none =>
        rw [hmd] at hf
        exact Or.inl ⟨rfl, hf⟩
      | some md =>
        rw [hmd] at hf
        exact Or.inr ⟨rfl, hf⟩
  have hforth : ∀ e, align_loop h._input_metadata.isSome chr pos id (unread h) (freq_lines h)
      0 0 false h = .error e →
      ∃ (pre : List Str) (line : Str) (rest : List Str), unread h = pre ++ line :: rest ∧
        scan_passes chr pos (id.drop 3) pre ∧ line_fails h (id.drop 3) pre.length line := by
    intro e he
    obtain ⟨pre, line, rest, hun, hpass, hfail⟩ :=
      align_loop_error_inv _ chr pos id _ _ _ _ _ h e hid he
    refine ⟨pre, line, rest, hun, hpass, ?_⟩
    rcases hfail with ⟨hp, _⟩ | ⟨r, hp, heq, hf⟩
    · exact Or.inl hp
    · refine Or.inr ⟨r, hp, heq, ?_⟩
      rcases hf with ⟨hsp, hc, _⟩ | ⟨hsp, fl, hfl, hrd, _⟩
      · cases hmd : h._input_metadata with
        | none => exact hc
        | some md => rw [hmd] at hsp; simp at hsp
      · cases hmd : h._input_metadata with
        | none => rw [hmd] at hsp; simp at hsp
        | some md =>
          rw [if_pos hsp] at hfl
          refine ⟨fl, ?_, hrd⟩
          rw [List.getElem?_drop] at hfl
          simpa using hfl
  refine ⟨⟨?_, ?_⟩, ?_⟩
  · rintro ⟨e, he⟩
    exact hforth e ((hmap e).1 he)
  · intro hex
    obtain ⟨e, he, _⟩ := hback hex
    exact ⟨e, (hmap e).2 he⟩
  · intro e he
    obtain ⟨e1, he1, hpe⟩ := hback (hforth e ((hmap e).1 he))
    rw [(hmap e).1 he] at he1
    simp only [Except.error.injEq] at he1
    rw [he1]
    exact hpe

theorem freq_overflow : read_combined_freq 7 " x 1e999 0.2".toList = none := by
  have h1 : read_string " x 1e999 0.2".toList = some ("x".toList, " 1e999 0.2".toList) := by
    decide
  have h2 : read_double " 1e999 0.2".toList = none :=
    read_double_overflow
      (by decide : scan_double " 1e999 0.2".toList = some (⟨false, 1, 0, 999⟩, " 0.2".toList))
      (by decide!)
  unfold read_combined_freq
  rw [h1]
  show read_freq_columns 1 " 1e999 0.2".toList 0 = none
  rw [read_freq_columns, h2]

theorem parse_row_overflow : parse_ref_line row_overflow =
    some ⟨"rs1".toList, 1, 1000, ['A'], ['G'], " x 1e999 0.2".toList⟩ := by decide

theorem align_row_overflow :
    align (combined_handler [row_overflow]) 1 1000 id_rs1 =
      .error (.parse_frequency row_overflow) :=
  align_combined_first_fails (combined_handler [row_overflow]) 1 1000 id_rs1 row_overflow [] _
    rfl rfl rfl (by decide) parse_row_overflow (by decide) freq_overflow

/-- A reference line whose frequency is out of the range of a `double` is not
well formed. -/
theorem overflow_not_well_formed : ¬ well_formed (combined_handler [row_overflow]) := by
  intro hw
  obtain ⟨r, hp, hf⟩ := hw 0 row_overflow rfl
  rw [parse_row_overflow] at hp
  have hr := (Option.some.inj hp).symm
  subst hr
  have hnone : supplied_freq (combined_handler [row_overflow]) 0
      ⟨"rs1".toList, 1, 1000, ['A'], ['G'], " x 1e999 0.2".toList⟩ = none := freq_overflow
  rw [hnone] at hf
  exact Bool.noConfusion hf

/-- Witness of claim C16 as amended: a reference line without alleles makes
`align` throw, and so does a line whose frequency column holds `1e999`. -/
theorem reference_parse_errors_witness :
    ready (combined_handler [row_short]) ∧ 3 ≤ id_rs1.length ∧
    align (combined_handler [row_short]) 1 1000 id_rs1 = .error (.parse_frequency_file row_short) ∧
    ((∃ e, align (combined_handler [row_short]) 1 1000 id_rs1 = .error e) ↔
      ∃ (pre : List Str) (line : Str) (rest : List Str),
        unread (combined_handler [row_short]) = pre ++ line :: rest ∧
        scan_passes 1 1000 (id_rs1.drop 3) pre ∧
        line_fails (combined_handler [row_short]) (id_rs1.drop 3) pre.length line) ∧
    (∀ e, align (combined_handler [row_short]) 1 1000 id_rs1 = .error e →
      e.is_parse_error = true) ∧
    ready (combined_handler [row_overflow]) ∧
    align (combined_handler [row_overflow]) 1 1000 id_rs1 =
      .error (.parse_frequency row_overflow) ∧
    line_fails (combined_handler [row_overflow]) (id_rs1.drop 3) 0 row_overflow ∧
    ((∃ e, align (combined_handler [row_overflow]) 1 1000 id_rs1 = .error e) ↔
      ∃ (pre : List Str) (line : Str) (rest : List Str),
        unread (combined_handler [row_overflow]) = pre ++ line :: rest ∧
        scan_passes 1 1000 (id_rs1.drop 3) pre ∧
        line_fails (combined_handler [row_overflow]) (id_rs1.drop 3) pre.length line) :=
  ⟨ready_combined _, by decide, by rfl,
    (reference_parse_errors (combined_handler [row_short]) 1 1000 id_rs1 (ready_combined _)
      (by decide)).1,
    (reference_parse_errors (combined_handler [row_short]) 1 1000 id_rs1 (ready_combined _)
      (by decide)).2,
    ready_combined _, align_row_overflow,
    Or.inr ⟨_, parse_row_overflow, by decide, freq_overflow⟩,
    (reference_parse_errors (combined_handler [row_overflow]) 1 1000 id_rs1 (ready_combined _)
      (by decide)).1⟩

theorem two_tenths_value : float_literal.value ⟨false, 2, 1, 0⟩ = 1 / 5 := by
  norm_num [float_literal.value]

theorem freq_two_points : read_combined_freq 8 " x 0.1.2".toList = some (1 / 5) := by
  have h1 : read_string " x 0.1.2".toList = some ("x".toList, " 0.1.2".toList) := by decide
  have h2 : scan_double " 0.1.2".toList = some (⟨false, 1, 1, 0⟩, ".2".toList) := by decide
  have h3 : scan_double ".2".toList = some (⟨false, 2, 1, 0⟩, []) := by decide
  rw [← two_tenths_value]
  unfold read_combined_freq
  rw [h1]
  show read_freq_columns 2 " 0.1.2".toList 0 = _
  rw [read_freq_columns, read_double_of_scan h2 (by decide)]
  show read_freq_columns 1 ".2".toList _ = _
  rw [read_freq_columns, read_double_of_scan h3 (by decide)]
  rfl

/-- Counterexample to claim C16 as stated.  The reference line `rs1 1 1000A G`
has four tokens, the third no unsigned number, yet `align` extracts the five
fields `rs1`, `1`, `1000`, `A`, `G` from it and returns no-match without a
parse error.  The line `rs1 1 1000 A G x 0.1.2` has seven tokens, fewer than
the target index 8, yet `align` reads `0.1` and `.2` from the seventh and
succeeds. -/
theorem reference_parse_errors_counterexample :
    tokens row_glued = ["rs1".toList, "1".toList, "1000A".toList, "G".toList] ∧
    ¬ is_unsigned_token "1000A".toList ∧
    align (combined_handler [row_glued]) 1 1000 id_rs9 =
      .ok (false, { combined_handler [] with cerr := [(1, 1000)] }) ∧
    (tokens row_two_points).length = 7 ∧
    align { combined_handler [row_two_points] with _target_index := 8 } 1 1000 id_rs1 =
      .ok (true, matched { combined_handler [row_two_points] with _target_index := 8 } []
        1 1000 ['A'] ['G'] (1 / 5)) := by
  refine ⟨by decide, by decide, by rfl, by decide, ?_⟩
  exact align_combined_first { combined_handler [row_two_points] with _target_index := 8 }
    1 1000 id_rs1 row_two_points [] ⟨"rs1".toList, 1, 1000, ['A'], ['G'], " x 0.1.2".toList⟩
    (1 / 5) rfl rfl rfl (by decide) (by decide) (by decide) freq_two_points

/-! ## The split readers in lockstep -/

theorem align_loop_lockstep (chr pos : Nat) (id : Str) :
    ∀ (scan freqs : List Str) (nc np : Nat) (dup : Bool) (h : freq_handler) (x : align_exit),
      scan.length ≤ freqs.length →
      align_loop true chr pos id scan freqs nc np dup h = .ok x →
      ∃ k, k ≤ scan.length ∧ x.scan = scan.drop k ∧ x.freqs = freqs.drop k ∧
        (x.found = true → ∃ (j : Nat) (line fl : Str) (r : ref_line) (f : ℚ) (rest : Str),
          k = j + 1 ∧ scan[j]? = some line ∧ freqs[j]? = some fl ∧
          parse_ref_line line = some r ∧ r.catcher = id.drop 3 ∧
          read_double fl = some (f, rest) ∧ x.h._freq = [f]) := by
  intro scan
  induction scan with
  | nil =>
    intro freqs nc np dup h x _ hx
    simp only [align_loop, Except.ok.injEq] at hx
    subst hx
    exact ⟨0, Nat.le_refl _, rfl, rfl, fun hf => Bool.noConfusion hf⟩
  | cons line scan ih =>
    intro freqs nc np dup h x hlen hx
    cases freqs with
    | nil => simp at hlen
    | cons fl freqs =>
      simp only [List.length_cons, Nat.add_le_add_iff_right] at hlen
      unfold align_loop at hx
      by_cases hle : nc < chr ∨ (nc = chr ∧ np ≤ pos)
      · rw [if_pos hle] at hx
        cases hp : parse_ref_line line with
        | none => simp [hp] at hx
        | some r =>
          simp only [hp] at hx
          by_cases hid : id.length < 3
          · rw [if_pos hid] at hx; simp at hx
          · rw [if_neg hid] at hx
            by_cases heq : r.catcher = id.drop 3
            · rw [if_pos heq] at hx
              cases hd : read_double fl with
              | none => simp [hd] at hx
              | some res =>
                simp only [↓reduceIte, hd, Except.ok.injEq] at hx
                subst hx
                exact ⟨1, by simp, rfl, rfl, fun _ => ⟨0, line, fl, r, res.1, res.2, rfl,
                  List.getElem?_cons_zero, List.getElem?_cons_zero, hp, heq, hd, rfl⟩⟩
            · rw [if_neg heq] at hx
              simp only [↓reduceIte, List.tail_cons] at hx
              obtain ⟨k, hk, hs, hf, hfound⟩ := ih freqs _ _ _ h x hlen hx
              refine ⟨k + 1, by simpa using hk, by rw [hs]; rfl, by rw [hf]; rfl, ?_⟩
              intro hfd
              obtain ⟨j, l1, fl1, r1, f, rest, hkj, h1, h2, h3, h4, h5, h6⟩ := hfound hfd
              exact ⟨j + 1, l1, fl1, r1, f, rest, by rw [hkj], by simpa using h1,
                by simpa using h2, h3, h4, h5, h6⟩
      · rw [if_neg hle] at hx
        simp only [Except.ok.injEq] at hx
        subst hx
        exact ⟨0, Nat.zero_le _, rfl, rfl, fun hf => Bool.noConfusion hf⟩

theorem lockstep_counts (md freqs : List Str) (h : freq_handler)
    (hlen : md.length ≤ freqs.length) (hstep : in_lockstep md freqs h) :
    ∃ left_md left_fr, h._input_metadata = some left_md ∧ h._input = some left_fr ∧
      lines_consumed md left_md = lines_consumed freqs left_fr := by
  obtain ⟨n, hn, h1, h2⟩ := hstep
  refine ⟨_, _, h1, h2, ?_⟩
  simp only [lines_consumed, List.length_drop]
  omega

/-- Claim C18 as amended, the split files stay in lockstep.  In split mode,
with a metadata file that has a header line and a frequency file with at least
as many lines: after `initialise`, and after every `align` call that returns,
with success or with no-match, the two readers have delivered the same number
of lines; and the frequency stored on a match at line `n` of the metadata file
is the number at the start of line `n` of the frequency file. -/
theorem split_lockstep (fs : Files) (ff mf label : Str) (md freqs : List Str)
    (h0 : freq_handler)
    (hmf : mf ≠ []) (hmd : fs mf = some md) (hff : fs ff = some freqs)
    (hne : md ≠ []) (hlen : md.length ≤ freqs.length)
    (hinit : initialise fs (freq_handler.new ff mf) label = .ok h0) :
    in_lockstep md freqs h0 ∧
    (∀ h, in_lockstep md freqs h →
      ∃ left_md left_fr, h._input_metadata = some left_md ∧ h._input = some left_fr ∧
        lines_consumed md left_md = lines_consumed freqs left_fr) ∧
    (∀ (h h1 : freq_handler) (chr pos : Nat) (id : Str) (b : Bool),
      in_lockstep md freqs h → align h chr pos id = .ok (b, h1) →
      in_lockstep md freqs h1 ∧
      (b = true → ∃ (n : Nat) (line fl : Str) (r : ref_line) (f : ℚ) (rest : Str),
        md[n]? = some line ∧ freqs[n]? = some fl ∧ parse_ref_line line = some r ∧
        r.catcher = id.drop 3 ∧ read_double fl = some (f, rest) ∧ h1._freq = [f] ∧
        h1._input_metadata = some (md.drop (n + 1)) ∧ h1._input = some (freqs.drop (n + 1)))) := by
  refine ⟨?_, fun h hstep => lockstep_counts md freqs h hlen hstep, ?_⟩
  · cases md with
    | nil => exact absurd rfl hne
    | cons mh mds =>
      cases freqs with
      | nil => simp at hlen
      | cons fh frs =>
        rw [initialise_split fs ff mf label fh mh frs mds hmf hff hmd] at hinit
        simp only [Except.ok.injEq] at hinit
        subst hinit
        exact ⟨1, by simp, rfl, rfl⟩
  · intro h h1 chr pos id b hstep hal
    obtain ⟨n, hn, hm1, hm2⟩ := hstep
    have hal1 : align h chr pos id =
        (align_loop true chr pos id (md.drop n) (freqs.drop n) 0 0 false h).map
          (align_finish true chr pos) := by
      simp [align, hm1, hm2]
    rw [hal1] at hal
    cases hl : align_loop true chr pos id (md.drop n) (freqs.drop n) 0 0 false h with
    | error e => simp [hl, Except.map] at hal
    | ok x =>
      simp only [hl, Except.map, Except.ok.injEq] at hal
      obtain ⟨k, hk, hs, hf, hfound⟩ := align_loop_lockstep chr pos id _ _ _ _ _ h x
        (by simp only [List.length_drop]; omega) hl
      simp only [List.length_drop] at hk
      have hb : x.found = b := by
        have := congrArg Prod.fst hal
        simpa [align_finish] using this
      have hh1 : h1 = (align_finish true chr pos x).2 := by rw [hal]
      have hi1 : h1._input_metadata = some (md.drop (n + k)) := by
        rw [hh1]
        cases hc : (!x.found && x.dup_position_failure) <;>
          simp [align_finish, hc, hs, List.drop_drop, Nat.add_comm]
      have hi2 : h1._input = some (freqs.drop (n + k)) := by
        rw [hh1]
        cases hc : (!x.found && x.dup_position_failure) <;>
          simp [align_finish, hc, hf, List.drop_drop, Nat.add_comm]
      refine ⟨⟨n + k, by omega, hi1, hi2⟩, ?_⟩
      intro hbt
      rw [hbt] at hb
      obtain ⟨j, line, fl, r, f, rest, hkj, g1, g2, g3, g4, g5, g6⟩ := hfound hb
      refine ⟨n + j, line, fl, r, f, rest, ?_, ?_, g3, g4, g5, ?_, ?_, ?_⟩
      · rw [List.getElem?_drop] at g1; exact g1
      · rw [List.getElem?_drop] at g2; exact g2
      · rw [hh1]
        simp [align_finish, hb, g6]
      · rw [hi1, hkj]; rfl
      · rw [hi2, hkj]; rfl

/-- Counterexample to claim C18 as stated: the metadata file is empty and the
frequency file has two lines, so the frequency file has at least as many
lines; `initialise` takes the header line of the frequency file and nothing
of the metadata file: one line consumed against none. -/
theorem split_lockstep_counterexample :
    ([] : List Str).length ≤ ["EUR".toList, fr_rs1].length ∧
    example_files_empty_meta "meta".toList = some [] ∧
    example_files_empty_meta "vals".toList = some ["EUR".toList, fr_rs1] ∧
    initialise example_files_empty_meta (freq_handler.new "vals".toList "meta".toList)
        "EUR".toList =
      .ok { freq_handler.new "vals".toList "meta".toList with
            _input := some [fr_rs1], _input_metadata := some [] } ∧
    lines_consumed [] [] = 0 ∧ lines_consumed ["EUR".toList, fr_rs1] [fr_rs1] = 1 := by
  refine ⟨by decide, by decide, by decide, by rfl, by decide, by decide⟩

/-- Witness of claim C18 as amended: the split pair of the worked example. -/
theorem split_lockstep_witness :
    "meta".toList ≠ [] ∧
    example_files_both "meta".toList = some ["id chr pos ref alt".toList, md_rs1] ∧
    example_files_both "vals".toList = some ["EUR".toList, fr_rs1] ∧
    ["id chr pos ref alt".toList, md_rs1] ≠ [] ∧
    ["id chr pos ref alt".toList, md_rs1].length ≤ ["EUR".toList, fr_rs1].length ∧
    initialise example_files_both (freq_handler.new "vals".toList "meta".toList) "EUR".toList =
      .ok { freq_handler.new "vals".toList "meta".toList with
            _input := some [fr_rs1], _input_metadata := some [md_rs1] } ∧
    in_lockstep ["id chr pos ref alt".toList, md_rs1] ["EUR".toList, fr_rs1]
      { freq_handler.new "vals".toList "meta".toList with
        _input := some [fr_rs1], _input_metadata := some [md_rs1] } :=
  ⟨by decide, by decide, by decide, by decide, by decide, by rfl,
    (split_lockstep example_files_both "vals".toList "meta".toList "EUR".toList
      ["id chr pos ref alt".toList, md_rs1] ["EUR".toList, fr_rs1]
      { freq_handler.new "vals".toList "meta".toList with
        _input := some [fr_rs1], _input_metadata := some [md_rs1] }
      (by decide) (by decide) (by decide) (by decide) (by decide) (by rfl)).1⟩

/-! ## Rows of the input -/

theorem digit_char_eq (d : Char) (hd : isdigit d = true) :
    Nat.digitChar (digit_value d) = d ∧ digit_value d < 10 ∧ (d ≠ '0' → 0 < digit_value d) := by
  have hr : 48 ≤ d.toNat ∧ d.toNat ≤ 57 := by simpa [isdigit] using hd
  have hof : d = Char.ofNat d.toNat := (Char.ofNat_toNat d).symm
  have hcases : d.toNat = 48 ∨ d.toNat = 49 ∨ d.toNat = 50 ∨ d.toNat = 51 ∨ d.toNat = 52 ∨
      d.toNat = 53 ∨ d.toNat = 54 ∨ d.toNat = 55 ∨ d.toNat = 56 ∨ d.toNat = 57 := by omega
  rcases hcases with h | h | h | h | h | h | h | h | h | h <;>
    (have e : d = Char.ofNat _ := hof.trans (congrArg Char.ofNat h)
     subst e
     decide)

theorem digits_value_snoc (ds : Str) (d : Char) :
    digits_value (ds ++ [d]) = 10 * digits_value ds + digit_value d := by
  simp [digits_value, List.foldl_append]

theorem digits_foldl_pos (ds : Str) : ∀ a : Nat, 0 < a →
    0 < ds.foldl (fun acc c => 10 * acc + digit_value c) a := by
  induction ds with
  | nil => intro a ha; simpa using ha
  | cons d ds ih =>
    intro a ha
    simp only [List.foldl_cons]
    exact ih _ (by omega)

theorem digits_value_pos (ds : Str) (hne : ds ≠ []) (hdig : ∀ c ∈ ds, isdigit c = true)
    (hhead : ds.head? ≠ some '0') : 0 < digits_value ds := by
  cases ds with
  | nil => exact absurd rfl hne
  | cons d ds =>
    have hd0 : d ≠ '0' := by
      intro h
      apply hhead
      simp [h]
    have := (digit_char_eq d (hdig d (List.mem_cons_self _ _))).2.2 hd0
    simp only [digits_value, List.foldl_cons]
    exact digits_foldl_pos ds _ (by omega)

theorem toDigitsCore_digits (ds : Str) :
    ds ≠ [] → (∀ c ∈ ds, isdigit c = true) → ds.head? ≠ some '0' →
    ∀ (fuel : Nat) (acc : Str), digits_value ds < fuel →
      Nat.toDigitsCore 10 fuel (digits_value ds) acc = ds ++ acc := by
  induction ds using List.reverseRecOn with
  | nil => intro hne; exact absurd rfl hne
  | append_singleton ds d ih =>
    intro _ hdig hhead fuel acc hfuel
    have hd := digit_char_eq d (hdig d (by simp))
    rw [digits_value_snoc] at hfuel ⊢
    cases fuel with
    | zero => omega
    | succ fuel =>
      have hmod : (10 * digits_value ds + digit_value d) % 10 = digit_value d := by omega
      have hdiv : (10 * digits_value ds + digit_value d) / 10 = digits_value ds := by omega
      simp only [Nat.toDigitsCore, hmod, hdiv, hd.1]
      by_cases hds : ds = []
      · subst hds
        simp [digits_value]
      · have hdig1 : ∀ c ∈ ds, isdigit c = true := fun c hc => hdig c (by simp [hc])
        have hhead1 : ds.head? ≠ some '0' := by
          intro h
          apply hhead
          cases ds with
          | nil => exact absurd rfl hds
          | cons e es => simpa using h
        have hpos := digits_value_pos ds hds hdig1 hhead1
        rw [if_neg (by omega), ih hds hdig1 hhead1 fuel (d :: acc) (by omega)]
        simp

theorem write_unsigned_canonical (t : Str) (ht : is_canonical_unsigned t) :
    write_unsigned (digits_value t) = t := by
  obtain ⟨⟨hne, hdig, _⟩, hz⟩ := ht
  rcases hz with rfl | hhead
  · decide
  · unfold write_unsigned Nat.toDigits
    rw [toDigitsCore_digits t hne hdig hhead _ [] (by omega)]
    simp

theorem parse_input_row_of_tokens (line c p id a1 a2 x beta se pv n : Str) (tail : List Str)
    (htok : tokens line = [c, p, id, a1, a2, x, beta, se, pv, n] ++ tail)
    (hc : is_unsigned_token c) (hp : is_unsigned_token p) :
    ∃ s10, parse_input_row line =
        some ⟨digits_value c, digits_value p, id, a1, a2, x, beta, se, pv, n, s10⟩ ∧
      tokens s10 = tail := by
  obtain ⟨s1, h1, t1⟩ := read_string_of_tokens line c _ htok
  obtain ⟨s2, h2, t2⟩ := read_string_of_tokens s1 p _ t1
  obtain ⟨s3, h3, t3⟩ := read_string_of_tokens s2 id _ t2
  obtain ⟨s4, h4, t4⟩ := read_string_of_tokens s3 a1 _ t3
  obtain ⟨s5, h5, t5⟩ := read_string_of_tokens s4 a2 _ t4
  obtain ⟨s6, h6, t6⟩ := read_string_of_tokens s5 x _ t5
  obtain ⟨s7, h7, t7⟩ := read_string_of_tokens s6 beta _ t6
  obtain ⟨s8, h8, t8⟩ := read_string_of_tokens s7 se _ t7
  obtain ⟨s9, h9, t9⟩ := read_string_of_tokens s8 pv _ t8
  obtain ⟨s10, h10, t10⟩ := read_string_of_tokens s9 n _ t9
  refine ⟨s10, ?_, t10⟩
  simp [parse_input_row, read_unsigned_of_token line c s1 h1 hc,
    read_unsigned_of_token s1 p s2 h2 hp, h3, h4, h5, h6, h7, h8, h9, h10]

theorem read_unsigned_blank (s : Str) (hs : tokens s = []) : read_unsigned s = none := by
  have hsk : skipws s = [] := by
    cases hr : read_string s with
    | none => exact (read_string_none_iff s).1 hr
    | some res =>
      have := tokens_of_read_string s res.1 res.2 hr
      rw [hs] at this
      exact List.noConfusion this
  simp [read_unsigned, hsk, read_sign]

theorem read_unsigned_first (s c : Str) (ts : List Str) (hs : tokens s = c :: ts)
    (hc : is_unsigned_token c) :
    ∃ rest, read_unsigned s = some (digits_value c, rest) ∧ tokens rest = ts := by
  obtain ⟨rest, hr, hrest⟩ := read_string_of_tokens s c ts hs
  exact ⟨rest, read_unsigned_of_token s c rest hr hc, hrest⟩

theorem read_string_length (s t rest : Str) (h : read_string s = some (t, rest)) :
    (tokens s).length = (tokens rest).length + 1 := by
  rw [tokens_of_read_string s t rest h]
  rfl

theorem parse_input_row_short (line : Str) (hshort : (tokens line).length < 10)
    (hnum : ∀ t ∈ (tokens line).take 2, is_unsigned_token t) :
    parse_input_row line = none := by
  cases hts : tokens line with
  | nil => simp [parse_input_row, read_unsigned_blank line hts]
  | cons c ts =>
    rw [hts] at hshort hnum
    obtain ⟨s1, h1, t1⟩ := read_unsigned_first line c ts hts (hnum c (by simp))
    cases ts with
    | nil => simp [parse_input_row, h1, read_unsigned_blank s1 t1]
    | cons p ts =>
      obtain ⟨s2, h2, t2⟩ := read_unsigned_first s1 p ts t1 (hnum p (by simp))
      simp only [List.length_cons] at hshort
      have hlen : (tokens s2).length < 8 := by rw [t2]; omega
      simp only [parse_input_row, h1, h2]
      cases r3 : read_string s2 with
      | none => rfl
      | some v3 =>
        obtain ⟨w3, s3⟩ := v3
        have l3 := read_string_length s2 w3 s3 r3
        simp only
        cases r4 : read_string s3 with
        | none => rfl
        | some v4 =>
          obtain ⟨w4, s4⟩ := v4
          have l4 := read_string_length s3 w4 s4 r4
          simp only
          cases r5 : read_string s4 with
          | none => rfl
          | some v5 =>
            obtain ⟨w5, s5⟩ := v5
            have l5 := read_string_length s4 w5 s5 r5
            simp only
            cases r6 : read_string s5 with
            | none => rfl
            | some v6 =>
              obtain ⟨w6, s6⟩ := v6
              have l6 := read_string_length s5 w6 s6 r6
              simp only
              cases r7 : read_string s6 with
              | none => rfl
              | some v7 =>
                obtain ⟨w7, s7⟩ := v7
                have l7 := read_string_length s6 w7 s7 r7
                simp only
                cases r8 : read_string s7 with
                | none => rfl
                | some v8 =>
                  obtain ⟨w8, s8⟩ := v8
                  have l8 := read_string_length s7 w8 s8 r8
                  simp only
                  cases r9 : read_string s8 with
                  | none => rfl
                  | some v9 =>
                    obtain ⟨w9, s9⟩ := v9
                    have l9 := read_string_length s8 w9 s9 r9
                    simp only
                    cases r10 : read_string s9 with
                    | none => rfl
                    | some v10 =>
                      obtain ⟨w10, s10⟩ := v10
                      have l10 := read_string_length s9 w10 s10 r10
                      simp only
                      omega

theorem process_rows_bad (fmt : ℚ → Str) (line : Str) (input : List Str) (g : freq_handler)
    (hbad : parse_input_row line = none) :
    process_rows fmt (line :: input) g = ⟨[], some (.parse_input line)⟩ := by
  simp [process_rows, hbad]

theorem process_rows_until_bad (fmt : ℚ → Str) (line : Str) (input : List Str)
    (hbad : parse_input_row line = none) (pre : List Str) :
    ∀ h : freq_handler, (process_rows fmt pre h).error = none →
      process_rows fmt (pre ++ line :: input) h =
        ⟨(process_rows fmt pre h).output, some (.parse_input line)⟩ := by
  induction pre with
  | nil =>
    intro h _
    rw [List.nil_append, process_rows_bad fmt line input h hbad]
    rfl
  | cons row pre ih =>
    intro h herr
    rw [List.cons_append]
    unfold process_rows at herr ⊢
    cases hp : parse_input_row row with
    | none => simp [hp] at herr
    | some r =>
      simp only [hp] at herr ⊢
      cases hf : driver_find h r with
      | error e => simp [hf] at herr
      | ok res =>
        obtain ⟨⟨b, v⟩, h1⟩ := res
        cases b with
        | true =>
          simp only [hf] at herr ⊢
          rw [ih h1 herr]
        | false =>
          simp only [hf] at herr ⊢
          rw [ih h1 herr]

theorem tab_join_eq_intercalate : ∀ xs : List Str, tab_join xs = List.intercalate ['\t'] xs
  | [] => rfl
  | [x] => by simp [tab_join, List.intercalate]
  | x :: y :: rest => by
    have ih := tab_join_eq_intercalate (y :: rest)
    simp only [tab_join, ih, List.intercalate, List.intersperse, List.flatten]
    simp

/-- Claim C13, the matched row format.  For an input data row whose tokens
are `chr pos id a1 a2 x beta se p n t1 ... tk`, with `chr` and `pos`
canonical unsigned decimals, and for which the driver's `find` returns the
frequency `v`, the output line is the sequence `chr`, `pos`, `id`, `a1`,
`a2`, `v` as formatted, `beta`, `se`, `p`, `n`, `t1`, ..., `tk` with one tab
between neighbours and nothing else: the sixth column is replaced by the
frequency and every other token is kept in order. -/
theorem matched_row_format (fmt : ℚ → Str) (h h1 : freq_handler) (line : Str)
    (input : List Str) (c p id a1 a2 x beta se pv n : Str) (tail : List Str) (v : ℚ)
    (htok : tokens line = [c, p, id, a1, a2, x, beta, se, pv, n] ++ tail)
    (hc : is_canonical_unsigned c) (hp : is_canonical_unsigned p)
    (hfind : find h (digits_value c) (digits_value p) id a2 a1 = .ok ((true, v), h1)) :
    process_rows fmt (line :: input) h =
      ⟨List.intercalate ['\t'] ([c, p, id, a1, a2, fmt v, beta, se, pv, n] ++ tail) ::
          (process_rows fmt input h1).output,
        (process_rows fmt input h1).error⟩ := by
  obtain ⟨s10, hparse, htail⟩ :=
    parse_input_row_of_tokens line c p id a1 a2 x beta se pv n tail htok hc.1 hp.1
  rw [← tab_join_eq_intercalate]
  simp [process_rows, hparse, driver_find, hfind, format_row, htail,
    write_unsigned_canonical c hc, write_unsigned_canonical p hp]

/-- Witness of claim C13: the input row of the worked example, with one token
after the ten leading columns.  With the frequency written as `0.8` the
output line is `1 1000 xx:rs1 A G 0.8 0.1 0.01 0.001 100 extra`, with tabs
between the columns. -/
theorem matched_row_format_witness :
    tokens input_rs1 =
      ["1".toList, "1000".toList, id_rs1, ['A'], ['G'], "0.5".toList, "0.1".toList,
        "0.01".toList, "0.001".toList, "100".toList] ++ ["extra".toList] ∧
    is_canonical_unsigned "1".toList ∧ is_canonical_unsigned "1000".toList ∧
    find (combined_handler [row_rs1]) (digits_value "1".toList) (digits_value "1000".toList)
        id_rs1 ['G'] ['A'] =
      .ok ((true, 1 - 1 / 5), matched (combined_handler [row_rs1]) [] 1 1000 ['A'] ['G'] (1 / 5)) ∧
    process_rows (fun _ => "0.8".toList) [input_rs1] (combined_handler [row_rs1]) =
      ⟨["1\t1000\txx:rs1\tA\tG\t0.8\t0.1\t0.01\t0.001\t100\textra".toList], none⟩ :=
  ⟨by decide, by decide, by decide, driver_find_input_rs1,
    matched_row_format (fun _ => "0.8".toList) (combined_handler [row_rs1])
      (matched (combined_handler [row_rs1]) [] 1 1000 ['A'] ['G'] (1 / 5)) input_rs1 []
      "1".toList "1000".toList id_rs1 ['A'] ['G'] "0.5".toList "0.1".toList "0.01".toList
      "0.001".toList "100".toList ["extra".toList] (1 - 1 / 5) (by decide) (by decide) (by decide)
      driver_find_input_rs1⟩

/-- Claim C15 as amended, input row validation.  `process_file` fails with a
parse error on every input data row that has fewer than ten tokens and whose
first two tokens, as far as there are any, are unsigned decimals: the ten
fields cannot be extracted, the error is raised whatever the state of the
reference, that is before any lookup for the row, and the rows read before
it have been written to the output.  `main` ends with status 1. -/
theorem input_row_validation (fs : Files) (fmt : ℚ → Str)
    (input_filename freq_filename freq_metadata supercontinent first line : Str)
    (pre input : List Str) (freq : freq_handler)
    (hinit : initialise fs (freq_handler.new freq_filename freq_metadata) supercontinent =
      .ok freq)
    (hin : fs input_filename = some (first :: (pre ++ line :: input)))
    (hpre : (process_rows fmt pre freq).error = none)
    (hshort : (tokens line).length < 10)
    (hnum : ∀ t ∈ (tokens line).take 2, is_unsigned_token t) :
    parse_input_row line = none ∧
    process_file fs fmt input_filename freq_filename freq_metadata supercontinent =
      ⟨first :: (process_rows fmt pre freq).output, some (.parse_input line)⟩ ∧
    (∀ g : freq_handler, process_rows fmt (line :: input) g = ⟨[], some (.parse_input line)⟩) ∧
    Err.is_parse_error (.parse_input line) = true ∧
    main_exit_code (process_file fs fmt input_filename freq_filename freq_metadata
      supercontinent) = some 1 := by
  have hbad := parse_input_row_short line hshort hnum
  have hrun : process_file fs fmt input_filename freq_filename freq_metadata supercontinent =
      ⟨first :: (process_rows fmt pre freq).output, some (.parse_input line)⟩ := by
    unfold process_file
    simp only [hinit, reconcile_reader, hin, List.tail_cons, List.headD_cons]
    rw [process_rows_until_bad fmt line input hbad pre freq hpre]
  refine ⟨hbad, hrun, fun g => process_rows_bad fmt line input g hbad, rfl, ?_⟩
  rw [hrun]
  rfl

/-- Counterexample to claim C15 as stated: the input row
`1 1000xx:rs1 A G x b s p n` has nine tokens, yet the ten fields `1`, `1000`,
`xx:rs1`, `A`, `G`, `x`, `b`, `s`, `p`, `n` are extracted from it, the lookup
is made, and the run goes on without an error. -/
theorem input_row_validation_counterexample :
    (tokens input_glued).length = 9 ∧
    parse_input_row input_glued =
      some ⟨1, 1000, id_rs1, ['A'], ['G'], ['x'], ['b'], ['s'], ['p'], ['n'], []⟩ ∧
    process_rows (fun _ => "NA".toList) [input_glued] (combined_handler [row_rs2]) =
      ⟨[input_glued], none⟩ := by
  refine ⟨by decide, by decide, by rfl⟩

/-- Witness of claim C15 as amended: a run whose input holds a header line, a
row that is written back, and a row of three tokens. -/
theorem input_row_validation_witness :
    initialise example_short_files (freq_handler.new "freq".toList []) "EUR".toList =
      .ok (combined_handler [row_rs2]) ∧
    example_short_files "in".toList =
      some ("CHR POS ID A1 A2 FRQ BETA SE P N".toList :: ([input_rs1] ++ input_short :: [])) ∧
    (process_rows (fun _ => "NA".toList) [input_rs1] (combined_handler [row_rs2])).error = none ∧
    (tokens input_short).length < 10 ∧
    (∀ t ∈ (tokens input_short).take 2, is_unsigned_token t) ∧
    process_file example_short_files (fun _ => "NA".toList) "in".toList "freq".toList []
        "EUR".toList =
      ⟨"CHR POS ID A1 A2 FRQ BETA SE P N".toList ::
          (process_rows (fun _ => "NA".toList) [input_rs1] (combined_handler [row_rs2])).output,
        some (.parse_input input_short)⟩ :=
  ⟨by rfl, by decide, by rfl, by decide, by decide,
    (input_row_validation example_short_files (fun _ => "NA".toList) "in".toList "freq".toList []
      "EUR".toList "CHR POS ID A1 A2 FRQ BETA SE P N".toList input_short [input_rs1] []
      (combined_handler [row_rs2]) (by rfl) (by decide) (by rfl) (by decide) (by decide)).2.1⟩

/-! ## Rows written back unchanged -/

theorem process_rows_append (fmt : ℚ → Str) (rest : List Str) (pre : List Str) :
    ∀ (h h1 : freq_handler), rows_end pre h = some h1 →
      process_rows fmt (pre ++ rest) h =
        ⟨(process_rows fmt pre h).output ++ (process_rows fmt rest h1).output,
          (process_rows fmt rest h1).error⟩ ∧
      (process_rows fmt pre h).output.length = pre.length := by
  induction pre with
  | nil =>
    intro h h1 hend
    simp only [rows_end, Option.some.injEq] at hend
    subst hend
    exact ⟨by simp [process_rows], rfl⟩
  | cons row pre ih =>
    intro h h1 hend
    unfold rows_end at hend
    rw [List.cons_append]
    cases hp : parse_input_row row with
    | none => simp [hp] at hend
    | some r =>
      simp only [hp] at hend
      cases hf : driver_find h r with
      | error e => simp [hf] at hend
      | ok res =>
        obtain ⟨⟨b, v⟩, h2⟩ := res
        simp only [hf] at hend
        obtain ⟨e1, e2⟩ := ih h2 h1 hend
        have hcons : ∀ rows : List Str, process_rows fmt (row :: rows) h =
            ⟨(if b = true then format_row fmt r v else row) :: (process_rows fmt rows h2).output,
              (process_rows fmt rows h2).error⟩ := by
          intro rows
          cases b <;> simp [process_rows, hp, hf]
        rw [hcons (pre ++ rest), hcons pre, e1]
        exact ⟨by simp, by simp [e2]⟩

/-- Claim C12, unmapped passthrough.  For an input data row that parses into
its ten leading columns and for which `find` returns no-match, the line
written to the output is the input line itself, character for character, with
no column added or removed: it stands in the output of `process_file` at the
place it has in the input, and the run goes on with the next row. -/
theorem unmapped_passthrough (fs : Files) (fmt : ℚ → Str)
    (input_filename freq_filename freq_metadata supercontinent first line : Str)
    (pre input : List Str) (freq h h1 : freq_handler) (r : input_row) (v : ℚ)
    (hinit : initialise fs (freq_handler.new freq_filename freq_metadata) supercontinent =
      .ok freq)
    (hin : fs input_filename = some (first :: (pre ++ line :: input)))
    (hpre : rows_end pre freq = some h)
    (hp : parse_input_row line = some r)
    (hfind : driver_find h r = .ok ((false, v), h1)) :
    process_rows fmt (line :: input) h =
      ⟨line :: (process_rows fmt input h1).output, (process_rows fmt input h1).error⟩ ∧
    (process_file fs fmt input_filename freq_filename freq_metadata supercontinent).output =
      first :: ((process_rows fmt pre freq).output ++ line :: (process_rows fmt input h1).output) ∧
    (process_file fs fmt input_filename freq_filename freq_metadata
      supercontinent).output[pre.length + 1]? = some line ∧
    (first :: (pre ++ line :: input))[pre.length + 1]? = some line := by
  have hrow : process_rows fmt (line :: input) h =
      ⟨line :: (process_rows fmt input h1).output, (process_rows fmt input h1).error⟩ := by
    simp [process_rows, hp, hfind]
  obtain ⟨happ, hlen⟩ := process_rows_append fmt (line :: input) pre freq h hpre
  have hout : (process_file fs fmt input_filename freq_filename freq_metadata
      supercontinent).output =
      first :: ((process_rows fmt pre freq).output ++
        line :: (process_rows fmt input h1).output) := by
    unfold process_file
    simp only [hinit, reconcile_reader, hin, List.tail_cons, List.headD_cons]
    rw [happ, hrow]
  refine ⟨hrow, hout, ?_, ?_⟩
  · rw [hout, List.getElem?_cons_succ, List.getElem?_append_right (by omega), hlen]
    simp
  · rw [List.getElem?_cons_succ, List.getElem?_append_right (Nat.le_refl _)]
    simp

theorem driver_find_unmapped :
    driver_find (combined_handler [row_rs2])
      ⟨1, 1000, id_rs1, ['A'], ['G'], "0.5".toList, "0.1".toList, "0.01".toList,
        "0.001".toList, "100".toList, " extra".toList⟩ =
      .ok ((false, -1), combined_handler []) := by rfl

/-- Witness of claim C12: a run on a reference that holds only `rs2`; the
input row for `rs1` is written back unchanged, and the short row after it
ends the run. -/
theorem unmapped_passthrough_witness :
    initialise example_short_files (freq_handler.new "freq".toList []) "EUR".toList =
      .ok (combined_handler [row_rs2]) ∧
    example_short_files "in".toList =
      some ("CHR POS ID A1 A2 FRQ BETA SE P N".toList :: ([] ++ input_rs1 :: [input_short])) ∧
    parse_input_row input_rs1 =
      some ⟨1, 1000, id_rs1, ['A'], ['G'], "0.5".toList, "0.1".toList, "0.01".toList,
        "0.001".toList, "100".toList, " extra".toList⟩ ∧
    (process_file example_short_files (fun _ => "NA".toList) "in".toList "freq".toList []
      "EUR".toList).output[1]? = some input_rs1 :=
  ⟨by rfl, by decide, parse_input_rs1,
    (unmapped_passthrough example_short_files (fun _ => "NA".toList) "in".toList "freq".toList []
      "EUR".toList "CHR POS ID A1 A2 FRQ BETA SE P N".toList input_rs1 [] [input_short]
      (combined_handler [row_rs2]) (combined_handler [row_rs2]) (combined_handler []) _ (-1)
      (by rfl) (by decide) rfl parse_input_rs1 driver_find_unmapped).2.2.1⟩

end AnnotateFrequency
